import Mathlib

/-!
# Wizix Degenerates: scoring, leaderboard and score normalisation

A shallow embedding of the pick-scoring core of the pool application:

* `src/api/espn.js`      : `parseScoreboard`, `getScoreboard`
* `src/services/scoring.js` : `updateScores`, `updatePickResults`, `calculateWeekResults`
* `src/api/supabase.js`  : `getLeaderboard`

JavaScript values that come out of `response.json()` are modelled by `JVal`.
Numbers are modelled by their integer value (the model covers integer-valued
numbers of magnitude below 2^53; fractional numbers only occur inside strings,
which is how the score provider ships scores).
-/

namespace Wizix

/-! ## JavaScript values -/

/-- A JavaScript value as produced by `JSON.parse`, plus `undefined`, which
property reads produce. Object members are kept in creation order, one per
member name (a lookup takes the first). -/
inductive JVal where
  | undefined : JVal
  | null : JVal
  | bool (b : Bool) : JVal
  | num (n : Int) : JVal
  | str (s : String) : JVal
  | arr (items : List JVal) : JVal
  | obj (members : List (String × JVal)) : JVal

/-- The only exception the embedded code can raise: a `TypeError` (a property
read on `undefined` or `null`, a call of something that is not a function, or
an object that cannot be converted to a primitive). -/
inductive JsError where
  | typeError : JsError
  deriving DecidableEq, Repr

namespace JVal

/-- JavaScript `ToBoolean`. -/
def truthy : JVal → Bool
  | undefined => false
  | null => false
  | bool b => b
  | num n => n != 0
  | str s => s != ""
  | arr _ => true
  | obj _ => true

/-- JavaScript `===` between a value and another one that was built
independently of it (two arrays or two objects are then never the same
reference). -/
def strictEq : JVal → JVal → Bool
  | undefined, undefined => true
  | null, null => true
  | bool a, bool b => a == b
  | num a, num b => a == b
  | str a, str b => a == b
  | _, _ => false

/-- Own member lookup in a member list. -/
def lookup (k : String) : List (String × JVal) → Option JVal
  | [] => none
  | (k1, v) :: rest => if k1 = k then some v else lookup k rest

/-- A property read `v.k` for a member name `k` that is neither an array index
nor the name of a built-in member (every name read by the embedded code is of
that kind). Reading from `undefined` or `null` raises; reading from another
primitive or from an array gives `undefined`. -/
def get (v : JVal) (k : String) : Except JsError JVal :=
  match v with
  | undefined => .error .typeError
  | null => .error .typeError
  | obj ms => .ok ((lookup k ms).getD undefined)
  | _ => .ok undefined

/-- The indexed read `v[0]`. -/
def getIndex0 (v : JVal) : Except JsError JVal :=
  match v with
  | undefined => .error .typeError
  | null => .error .typeError
  | arr xs => .ok (xs.head?.getD undefined)
  | str s => .ok (match s.data with
      | [] => undefined
      | c :: _ => str (String.singleton c))
  | obj ms => .ok ((lookup "0" ms).getD undefined)
  | _ => .ok undefined

/-- Optional chaining `v?.k`. -/
def getOpt (v : JVal) (k : String) : JVal :=
  match v with
  | undefined => undefined
  | null => undefined
  | obj ms => (lookup k ms).getD undefined
  | _ => undefined

/-- The expression `a || b`. -/
def orElse (a b : JVal) : JVal := if a.truthy then a else b

mutual
/-- JavaScript `ToString`. An object converts to `[object Object]` unless it
has an own member `toString` (which, coming from JSON, is not callable: the
conversion then falls through to `valueOf`, which does not give a primitive
either, and raises). An array converts by joining its items with commas. -/
def toStr : JVal → Except JsError String
  | undefined => .ok "undefined"
  | null => .ok "null"
  | bool b => .ok (if b then "true" else "false")
  | num n => .ok (toString n)
  | str s => .ok s
  | arr xs => joinItems xs
  | obj ms => if (lookup "toString" ms).isSome then .error .typeError else .ok "[object Object]"
termination_by structural v => v
/-- The method `Array.prototype.join` with the default separator: `null` and
`undefined` items contribute the empty string. -/
def joinItems : List JVal → Except JsError String
  | [] => .ok ""
  | x :: rest => do
    let a ← (match x with
      | undefined => .ok ""
      | null => .ok ""
      | v => toStr v)
    match rest with
    | [] => pure a
    | _ :: _ => do
      let b ← joinItems rest
      pure (a ++ "," ++ b)
termination_by structural xs => xs
end

end JVal

/-! ## Score coercion: `parseInt(x) || 0` -/

/-- White space and line terminators, which `parseInt` skips at the start. -/
def isStrWhiteSpace (c : Char) : Bool :=
  let n := c.toNat
  n == 0x09 || n == 0x0A || n == 0x0B || n == 0x0C || n == 0x0D || n == 0x20 ||
  n == 0xA0 || n == 0x1680 || (0x2000 ≤ n && n ≤ 0x200A) || n == 0x2028 ||
  n == 0x2029 || n == 0x202F || n == 0x205F || n == 0x3000 || n == 0xFEFF

/-- The value of a character as a digit in the given radix, if it is one. -/
def digitValue (radix : Nat) (c : Char) : Option Nat :=
  let n := c.toNat
  let v : Option Nat :=
    if 48 ≤ n ∧ n ≤ 57 then some (n - 48)
    else if 97 ≤ n ∧ n ≤ 122 then some (n - 87)
    else if 65 ≤ n ∧ n ≤ 90 then some (n - 55)
    else none
  match v with
  | some d => if d < radix then some d else none
  | none => none

/-- The digits of the longest prefix made of digits of the radix. -/
def digitPrefix (radix : Nat) : List Char → List Nat
  | [] => []
  | c :: cs =>
    match digitValue radix c with
    | some d => d :: digitPrefix radix cs
    | none => []

/-- The number a digit sequence denotes. -/
def digitsValue (radix : Nat) (ds : List Nat) : Nat :=
  ds.foldl (fun acc d => acc * radix + d) 0

/-- The sign `parseInt` reads and the text after it. -/
def splitSign (cs : List Char) : Int × List Char :=
  match cs with
  | c :: rest => if c = '-' then (-1, rest) else if c = '+' then (1, rest) else (1, cs)
  | [] => (1, [])

/-- The radix `parseInt` picks when none is passed, and the text after a hex prefix. -/
def splitRadix (cs : List Char) : Nat × List Char :=
  match cs with
  | c :: d :: rest => if c = '0' ∧ (d = 'x' ∨ d = 'X') then (16, rest) else (10, cs)
  | _ => (10, cs)

/-- The call `parseInt(s)` on a string, with `none` for `NaN`. The value is the
integer the numeral denotes. That is the number `parseInt` returns when the
integer is below 2^53 in magnitude; beyond, JavaScript returns a rounded number
(`Infinity` from about 309 digits on), which this embedding does not compute:
the properties below are stated for numerals within the exact range. -/
def parseIntText (s : String) : Option Int :=
  let trimmed := s.data.dropWhile isStrWhiteSpace
  let signed := splitSign trimmed
  let based := splitRadix signed.2
  let z := digitPrefix based.1 based.2
  if z.isEmpty then none else some (signed.1 * (digitsValue based.1 z : Int))

/-- The call `parseInt(v)`: the argument is converted to a string first. -/
def parseInt (v : JVal) : Except JsError (Option Int) := do
  let s ← v.toStr
  pure (parseIntText s)

/-- The expression `parseInt(v) || 0`: `NaN` and zero both give 0. -/
def parseIntOrZero (v : JVal) : Except JsError Int := do
  let r ← parseInt v
  pure (match r with
    | some n => if n != 0 then n else 0
    | none => 0)

/-! ## Normalised game records -/

/-- The `status` member of a game record. -/
structure GameStatus where
  type : JVal
  detail : JVal
  completed : JVal
  inProgress : Bool

/-- The `homeTeam` and `awayTeam` members of a game record. -/
structure TeamSide where
  id : JVal
  name : JVal
  displayName : JVal
  abbreviation : JVal
  logo : JVal
  score : Int
  winner : JVal

/-- A game record as built by `parseScoreboard`. -/
structure Game where
  id : JVal
  name : JVal
  shortName : JVal
  date : JVal
  status : GameStatus
  homeTeam : TeamSide
  awayTeam : TeamSide
  week : JVal
  season : JVal

/-- The part of `config.js` the embedded code reads. -/
structure Config where
  retryAttempts : Int := 3
  retryDelay : Int := 1000
  cacheTimeout : Int := 30000
  currentSeason : Int := 2024
  refreshInterval : Int := 30000

/-! ## `parseScoreboard` (src/api/espn.js) -/

/-- The loop of `competitors.find(c => c.homeAway === side)`. -/
def findSide (side : String) : List JVal → Except JsError JVal
  | [] => .ok .undefined
  | c :: rest => do
    let tag ← c.get "homeAway"
    if tag.strictEq (.str side) then pure c else findSide side rest

/-- The call `competitors.find(...)`: only an array has a callable `find`. -/
def callFind (competitors : JVal) (side : String) : Except JsError JVal :=
  match competitors with
  | .arr cs => findSide side cs
  | _ => .error .typeError

/-- The object literal built for one side of a game. -/
def parseSide (c : JVal) : Except JsError TeamSide := do
  let id ← c.get "id"
  let name ← (← c.get "team").get "name"
  let displayName ← (← c.get "team").get "displayName"
  let abbreviation ← (← c.get "team").get "abbreviation"
  let logo ← (← c.get "team").get "logo"
  let score ← parseIntOrZero (← c.get "score")
  let winner ← c.get "winner"
  pure { id := id, name := name, displayName := displayName, abbreviation := abbreviation,
         logo := logo, score := score, winner := winner.orElse (.bool false) }

/-- The `status` object literal. -/
def parseStatus (competition : JVal) : Except JsError GameStatus := do
  let type ← (← (← competition.get "status").get "type").get "name"
  let detail ← (← (← competition.get "status").get "type").get "detail"
  let completed ← (← (← competition.get "status").get "type").get "completed"
  let name ← (← (← competition.get "status").get "type").get "name"
  pure { type := type, detail := detail, completed := completed,
         inProgress := name.strictEq (.str "STATUS_IN_PROGRESS") }

/-- The callback `parseScoreboard` maps over `data.events`. -/
def parseEvent (cfg : Config) (data event : JVal) : Except JsError Game := do
  let competition ← (← event.get "competitions").getIndex0
  let homeTeam ← callFind (← competition.get "competitors") "home"
  let awayTeam ← callFind (← competition.get "competitors") "away"
  let id ← event.get "id"
  let name ← event.get "name"
  let shortName ← event.get "shortName"
  let date ← event.get "date"
  let status ← parseStatus competition
  let home ← parseSide homeTeam
  let away ← parseSide awayTeam
  let week := ((← data.get "week").getOpt "number").orElse .null
  let season := ((← data.get "season").getOpt "year").orElse (.num cfg.currentSeason)
  pure { id := id, name := name, shortName := shortName, date := date, status := status,
         homeTeam := home, awayTeam := away, week := week, season := season }

/-- The call `events.map(callback)`: the first exception ends the map. -/
def mapEvents (f : JVal → Except JsError Game) : List JVal → Except JsError (List Game)
  | [] => .ok []
  | e :: rest => do
    let g ← f e
    let gs ← mapEvents f rest
    pure (g :: gs)

/-- The check `Array.isArray(v)`. -/
def isArray : JVal → Bool
  | .arr _ => true
  | _ => false

/-- The function `parseScoreboard(data)`. -/
def parseScoreboard (cfg : Config) (data : JVal) : Except JsError (List Game) := do
  let events ← data.get "events"
  if !events.truthy || !isArray events then
    pure []
  else
    match events with
    | .arr es => mapEvents (parseEvent cfg data) es
    | _ => pure []

/-! ## The score cache and `getScoreboard` (src/api/espn.js) -/

/-- One entry of the `Map` behind `this.cache`. -/
structure CacheEntry (α : Type) where
  data : α
  timestamp : Int

/-- The `Map` behind `this.cache`, as its entries in insertion order. -/
abbrev Cache (α : Type) := List (String × CacheEntry α)

/-- The call `map.get(key)`. -/
def mapGet {α : Type} (key : String) : Cache α → Option (CacheEntry α)
  | [] => none
  | (k, e) :: rest => if k = key then some e else mapGet key rest

/-- The call `map.delete(key)`. -/
def mapDelete {α : Type} (key : String) (m : Cache α) : Cache α :=
  m.filter (fun kv => kv.1 != key)

/-- The call `map.set(key, entry)`: an existing key keeps its place. -/
def mapSet {α : Type} (key : String) (e : CacheEntry α) : Cache α → Cache α
  | [] => [(key, e)]
  | (k, old) :: rest => if k = key then (k, e) :: rest else (k, old) :: mapSet key e rest

/-- The method `getCached(key)` at clock value `now`: the payload (or `none`
for `null`) and the cache afterwards. -/
def getCached {α : Type} (cfg : Config) (cache : Cache α) (now : Int) (key : String) :
    Option α × Cache α :=
  match mapGet key cache with
  | none => (none, cache)
  | some cached =>
    if now - cached.timestamp > cfg.cacheTimeout then (none, mapDelete key cache)
    else (some cached.data, cache)

/-- The method `setCache(key, data)` at clock value `now`. -/
def setCache {α : Type} (cache : Cache α) (now : Int) (key : String) (data : α) : Cache α :=
  mapSet key { data := data, timestamp := now } cache

/-- What one round of `fetch(url)` followed by `response.json()` gives. -/
inductive Attempt where
  | json (data : JVal) : Attempt
  | httpError (status : Nat) : Attempt
  | rejected (message : String) : Attempt

/-- The object `fetchWithRetry` returns. -/
inductive FetchResult where
  | success (data : JVal) : FetchResult
  | failure (error : String) (fallback : Bool) : FetchResult

/-- A run of `fetchWithRetry`: what it returns (`none` when the loop ends
without a `return`), how many requests it made and the delays it waited. -/
structure FetchRun where
  result : Option FetchResult
  requests : Nat
  waits : List Int

/-- The `error.message` caught after a failed attempt. -/
def Attempt.message : Attempt → String
  | .json _ => ""
  | .httpError status => "HTTP error! status: " ++ toString status
  | .rejected message => message

/-- The `for` loop of `fetchWithRetry`, from index `i` with `remaining`
iterations left before `i < attempts` fails; `net i` is what the request of
iteration `i` meets. -/
def fetchLoop (cfg : Config) (net : Nat → Attempt) (attempts : Int) : Nat → Nat → FetchRun
  | 0, _ => { result := none, requests := 0, waits := [] }
  | remaining + 1, i =>
    match net i with
    | .json data => { result := some (.success data), requests := 1, waits := [] }
    | failed =>
      if (i : Int) = attempts - 1 then
        { result := some (.failure failed.message true), requests := 1, waits := [] }
      else
        let later := fetchLoop cfg net attempts remaining (i + 1)
        { result := later.result, requests := later.requests + 1,
          waits := cfg.retryDelay * ((i : Int) + 1) :: later.waits }

/-- The method `fetchWithRetry(url, attempts)`. -/
def fetchWithRetry (cfg : Config) (net : Nat → Attempt) (attempts : Int) : FetchRun :=
  fetchLoop cfg net attempts attempts.toNat 0

/-- The object `getScoreboard` returns; a member the source leaves out is
`false` or `none` here. -/
structure ScoreboardResult where
  success : Bool
  data : List Game
  cached : Bool := false
  error : Option String := none
  fallback : Bool := false

/-- A call of `getScoreboard`: its result or the exception it ends with, the
cache afterwards and the number of requests made. -/
structure ScoreboardRun where
  result : Except JsError ScoreboardResult
  cache : Cache (List Game)
  requests : Nat

/-- The template string of the cache key; `week` is `null` by default. -/
def cacheKey (week : Option Int) (season seasonType : Int) : String :=
  "scoreboard_" ++ toString season ++ "_" ++ toString seasonType ++ "_" ++
    (match week with
     | none => "null"
     | some w => toString w)

/-- The method `getScoreboard(week, season, seasonType)`. The clock reads `now`
at the cache lookup and `later` when the fetched games are stored; `net` is
what the provider answers to the request URL built from the arguments. Entries
of other kinds (teams, summaries) live under keys that never start with
`scoreboard_`, so the entries seen here hold game lists. -/
def getScoreboard (cfg : Config) (cache : Cache (List Game)) (now later : Int)
    (net : Nat → Attempt) (week : Option Int) (season seasonType : Int) : ScoreboardRun :=
  let key := cacheKey week season seasonType
  let looked := getCached cfg cache now key
  match looked.1 with
  | some games =>
    { result := .ok { success := true, data := games, cached := true },
      cache := looked.2, requests := 0 }
  | none =>
    let run := fetchWithRetry cfg net cfg.retryAttempts
    match run.result with
    | none => { result := .error .typeError, cache := looked.2, requests := run.requests }
    | some (.success data) =>
      match parseScoreboard cfg data with
      | .error e => { result := .error e, cache := looked.2, requests := run.requests }
      | .ok games =>
        { result := .ok { success := true, data := games },
          cache := setCache looked.2 later key games, requests := run.requests }
    | some (.failure error _) =>
      { result := .ok { success := false, error := some error, data := [], fallback := true },
        cache := looked.2, requests := run.requests }

/-! ## The scoring service (src/services/scoring.js) -/

/-- The expression both `updatePickResults` and `calculateWeekResults` bind to
`winnerId`. -/
def winnerId (game : Game) : JVal :=
  if game.homeTeam.winner.truthy then game.homeTeam.id
  else if game.awayTeam.winner.truthy then game.awayTeam.id
  else .null

/-- A line written to the console. -/
inductive LogLine where
  | log (text : String) : LogLine
  | warn (text : String) : LogLine
  | error (text : String) : LogLine
  deriving DecidableEq, Repr

/-- The method `updatePickResults(game)`: it only writes to the console. A
template string that cannot convert its value raises inside the `try`. -/
def updatePickResults (game : Game) : List LogLine :=
  let winner := winnerId game
  if !winner.truthy then
    match game.id.toStr with
    | .ok gid => [.warn ("No winner determined for game " ++ gid)]
    | .error _ => [.error "Error updating pick results:"]
  else
    match game.id.toStr, winner.toStr with
    | .ok gid, .ok w => [.log ("Game " ++ gid ++ " winner: " ++ w)]
    | _, _ => [.error "Error updating pick results:"]

/-- The row `updateScores` passes to `db.cacheGame`. -/
structure GameRow where
  espn_event_id : JVal
  week : JVal
  season : JVal
  home_team_id : JVal
  away_team_id : JVal
  home_score : Int
  away_score : Int
  game_status : JVal
  game_time : JVal
  last_updated : String

/-- What `updateScores` does, in order. -/
inductive Effect where
  | cacheGame (row : GameRow) : Effect
  | pickResults (game : Game) (lines : List LogLine) : Effect
  | console (line : LogLine) : Effect

/-- The filter `games.filter(g => g.status.completed)`. -/
def completedGames (games : List Game) : List Game :=
  games.filter (fun g => g.status.completed.truthy)

/-- The method `updateScores()` from the point where the scoreboard call has
settled with `result`; `stamp` is the clock text put in `last_updated`. -/
def updateScores (result : Except JsError ScoreboardResult) (stamp : String) : List Effect :=
  match result with
  | .error _ => [.console (.error "Error updating scores:")]
  | .ok result =>
    if !result.success then
      [.console (.error "Failed to fetch scores:")]
    else
      let games := result.data
      let cached := games.map (fun game => Effect.cacheGame
        { espn_event_id := game.id, week := game.week, season := game.season,
          home_team_id := game.homeTeam.id, away_team_id := game.awayTeam.id,
          home_score := game.homeTeam.score, away_score := game.awayTeam.score,
          game_status := game.status.type, game_time := game.date, last_updated := stamp })
      let completed := completedGames games
      cached ++ completed.map (fun game => Effect.pickResults game (updatePickResults game)) ++
        [.console (.log ("Updated " ++ toString games.length ++ " games (" ++
          toString completed.length ++ " completed)"))]

/-- The user columns joined to a pick row. -/
structure UserInfo where
  display_name : JVal
  avatar_url : JVal

/-- A row of the `picks` table with its joined user (`user_id` references the
users table, so the join always yields a user). Identifiers issued by the
backend are strings; `game_id` and `picked_team_id` are compared with `===`
against provider values and stay `JVal`. `is_correct` is `none` for `null`. -/
structure Pick where
  id : String
  user_id : String
  pool_id : String
  game_id : JVal
  week : Int
  season : Int
  picked_team_id : JVal
  is_correct : Option Bool
  user : UserInfo

/-- The object `calculateWeekResults` returns. -/
inductive WeekResult where
  | done (updated total completed : Nat) : WeekResult
  | failed (error : String) : WeekResult
  deriving DecidableEq, Repr

/-- A call `db.updatePickResult(pickId, isCorrect)`. -/
structure PickUpdate where
  pickId : String
  isCorrect : Bool
  deriving DecidableEq, Repr

/-- The `for (const pick of picks)` loop of `calculateWeekResults`, carrying
the counter `updated` and the `updatePickResult` calls made so far. -/
def weekLoop (completed : List Game) : List Pick → Nat → List PickUpdate → Nat × List PickUpdate
  | [], updated, calls => (updated, calls)
  | pick :: rest, updated, calls =>
    match completed.find? (fun g => g.id.strictEq pick.game_id) with
    | none => weekLoop completed rest updated calls
    | some game =>
      let winner := winnerId game
      if !winner.truthy then weekLoop completed rest updated calls
      else
        let isCorrect := pick.picked_team_id.strictEq winner
        weekLoop completed rest (updated + 1) (calls ++ [{ pickId := pick.id, isCorrect := isCorrect }])

/-- The method `calculateWeekResults` from the point where the scoreboard call
has settled with `gamesResult`; `picksResult` is what `db.getPoolPicks` gives
(it never raises). Returns the result object and the `updatePickResult` calls
made, in order. A caught exception is reported by its kind, the message text
being the engine's. -/
def calculateWeekResults (gamesResult : Except JsError ScoreboardResult)
    (picksResult : Except String (List Pick)) : WeekResult × List PickUpdate :=
  match gamesResult with
  | .error _ => (.failed "TypeError", [])
  | .ok gamesResult =>
    if !gamesResult.success then (.failed "Failed to fetch games", [])
    else
      let games := gamesResult.data
      let completed := completedGames games
      match picksResult with
      | .error _ => (.failed "Failed to fetch picks", [])
      | .ok picks =>
        let looped := weekLoop completed picks 0 []
        (.done looped.1 picks.length completed.length, looped.2)

/-! ## `getLeaderboard` (src/api/supabase.js) -/

/-- An entry of the leaderboard. -/
structure Standing where
  userId : String
  displayName : JVal
  avatarUrl : JVal
  wins : Nat
  losses : Nat
  total : Nat

/-- The members every object inherits from `Object.prototype`: for these names
`standings[name]` is a function (or the prototype itself), hence truthy, although
the object has no own member of that name. -/
def inheritedNames : List String :=
  ["constructor", "hasOwnProperty", "isPrototypeOf", "propertyIsEnumerable",
   "toLocaleString", "toString", "valueOf", "__proto__", "__defineGetter__",
   "__defineSetter__", "__lookupGetter__", "__lookupSetter__"]

/-- Own member lookup in the `standings` object. -/
def ownStanding (k : String) : List (String × Standing) → Option Standing
  | [] => none
  | (k1, s) :: rest => if k1 = k then some s else ownStanding k rest

/-- The update `standings[k].member++` on an own member. -/
def bumpStanding (k : String) (f : Standing → Standing) :
    List (String × Standing) → List (String × Standing)
  | [] => []
  | (k1, s) :: rest => if k1 = k then (k1, f s) :: rest else (k1, s) :: bumpStanding k f rest

/-- The body of `data.forEach(pick => ...)`, on the own members of `standings`
in creation order. Under an inherited name nothing is created, and the
increments land on the inherited member, not on `standings`. -/
def tally (standings : List (String × Standing)) (pick : Pick) : List (String × Standing) :=
  let k := pick.user_id
  let created :=
    if (ownStanding k standings).isNone && !(inheritedNames.contains k) then
      standings ++ [(k, { userId := pick.user_id, displayName := pick.user.display_name,
                          avatarUrl := pick.user.avatar_url, wins := 0, losses := 0, total := 0 })]
    else standings
  let counted :=
    if pick.is_correct = some true then
      bumpStanding k (fun s => { s with wins := s.wins + 1 }) created
    else
      bumpStanding k (fun s => { s with losses := s.losses + 1 }) created
  bumpStanding k (fun s => { s with total := s.total + 1 }) counted

/-- The number a member name denotes when it is an array index (a canonical
decimal numeral below 2^32 - 1). -/
def arrayIndex (k : String) : Option Nat :=
  let cs := k.data
  if cs.isEmpty || !cs.all Char.isDigit then none
  else if cs.head? = some '0' ∧ 1 < cs.length then none
  else
    let n := digitsValue 10 (cs.map (fun c => c.toNat - 48))
    if n < 4294967295 then some n else none

/-- The call `Object.values(standings)`: members named by an array index come
first, in ascending numeric order, then the others in creation order. -/
def objectValues (standings : List (String × Standing)) : List Standing :=
  let indexed := standings.filter (fun kv => (arrayIndex kv.1).isSome)
  let named := standings.filter (fun kv => (arrayIndex kv.1).isNone)
  ((indexed.insertionSort (fun a b => (arrayIndex a.1).getD 0 ≤ (arrayIndex b.1).getD 0)) ++
    named).map (fun kv => kv.2)

/-- The call `.sort((a, b) => b.wins - a.wins)`: a stable sort, most wins first. -/
def sortByWins (xs : List Standing) : List Standing :=
  xs.insertionSort (fun a b => b.wins ≤ a.wins)

/-- The aggregation of `getLeaderboard`: the `forEach` over the rows, then
`Object.values` and the sort. -/
def leaderboard (data : List Pick) : List Standing :=
  sortByWins (objectValues (data.foldl tally []))

/-- The rows the select of `getLeaderboard` asks the backend for. -/
def leaderboardQuery (table : List Pick) (poolId : String) (season : Int) : List Pick :=
  table.filter (fun p => p.pool_id == poolId && p.season == season && p.is_correct.isSome)

/-- The object `getLeaderboard` returns. -/
inductive LeaderboardResult where
  | success (data : List Standing) : LeaderboardResult
  | failure (error : String) : LeaderboardResult

/-- The method `getLeaderboard(poolId, season)`; `picks` is the table the
backend holds, or the error message when the select fails. -/
def getLeaderboard (picks : Except String (List Pick)) (poolId : String) (season : Int) :
    LeaderboardResult :=
  match picks with
  | .error message => .failure message
  | .ok table => .success (leaderboard (leaderboardQuery table poolId season))

/-! ## Sample data -/

/-- A team side with the given id, score and winner flag. -/
def sampleSide (id : String) (score : Int) (winner : Bool) : TeamSide :=
  { id := .str id, name := .undefined, displayName := .undefined, abbreviation := .undefined,
    logo := .undefined, score := score, winner := .bool winner }

/-- A game record with the given id, completion flag and winner flags; the
home team has id `"H"` and the away team id `"A"`. -/
def sampleGame (id : String) (completed homeWins awayWins : Bool) : Game :=
  { id := .str id, name := .undefined, shortName := .undefined, date := .undefined,
    status := { type := .str "STATUS_FINAL", detail := .undefined, completed := .bool completed,
                inProgress := false },
    homeTeam := sampleSide "H" 21 homeWins, awayTeam := sampleSide "A" 17 awayWins,
    week := .num 1, season := .num 2024 }

/-- A pick row of the given user on game `gameId` for team `team`. -/
def samplePick (id user gameId team : String) (isCorrect : Option Bool) : Pick :=
  { id := id, user_id := user, pool_id := "pool", game_id := .str gameId, week := 1,
    season := 2024, picked_team_id := .str team, is_correct := isCorrect,
    user := { display_name := .str user, avatar_url := .null } }

/-- A successful scoreboard result carrying the given games. -/
def sampleBoard (games : List Game) : ScoreboardResult :=
  { success := true, data := games }

/-! ## Definitions used to state the properties -/


/-- The `updatePickResult` call one iteration of the loop makes, if any. -/
def pickCall (completed : List Game) (pick : Pick) : Option PickUpdate :=
  match completed.find? (fun g => g.id.strictEq pick.game_id) with
  | none => none
  | some game =>
    if (winnerId game).truthy then
      some { pickId := pick.id, isCorrect := pick.picked_team_id.strictEq (winnerId game) }
    else none

/-- What `standings[k].wins++` (or `losses++`) and `total++` do to an entry. -/
def bumpPick (pick : Pick) (s : Standing) : Standing :=
  if pick.is_correct = some true then
    { s with wins := s.wins + 1, total := s.total + 1 }
  else
    { s with losses := s.losses + 1, total := s.total + 1 }

/-- The entry created at a user's first pick. -/
def freshStanding (pick : Pick) : Standing :=
  { userId := pick.user_id, displayName := pick.user.display_name,
    avatarUrl := pick.user.avatar_url, wins := 0, losses := 0, total := 0 }

/-- What one `forEach` step does to the own member `k` of `standings`. -/
def tallyAt (k : String) (o : Option Standing) (pick : Pick) : Option Standing :=
  if pick.user_id = k then
    match o with
    | some s => some (bumpPick pick s)
    | none => if inheritedNames.contains k then none else some (bumpPick pick (freshStanding pick))
  else o

/-- The number of picks of user `u` in `data` that count as wins. -/
def winsOf (u : String) (data : List Pick) : Nat :=
  data.countP (fun p => p.user_id == u && p.is_correct == some true)

/-- The number of picks of user `u` in `data` that count as losses. -/
def lossesOf (u : String) (data : List Pick) : Nat :=
  data.countP (fun p => p.user_id == u && p.is_correct == some false)

/-- The number of picks of user `u` in `data` that do not count as wins. -/
def missesOf (u : String) (data : List Pick) : Nat :=
  data.countP (fun p => p.user_id == u && !(p.is_correct == some true))

/-- The number of picks of user `u` in `data`. -/
def picksOf (u : String) (data : List Pick) : Nat :=
  data.countP (fun p => p.user_id == u)

/-- The standings a leaderboard result carries (none when the call failed). -/
def standingsOf : LeaderboardResult → List Standing
  | .success data => data
  | .failure _ => []

/-- The scenario event: completed, home score "21" with the winner flag set,
away score "17.5". -/
def scenarioEvent : JVal :=
  .obj [("id", .str "401"), ("competitions", .arr [.obj [
    ("status", .obj [("type", .obj [("name", .str "STATUS_FINAL"), ("completed", .bool true)])]),
    ("competitors", .arr [
      .obj [("homeAway", .str "home"), ("id", .str "12"), ("team", .obj [("name", .str "Chiefs")]),
            ("score", .str "21"), ("winner", .bool true)],
      .obj [("homeAway", .str "away"), ("id", .str "33"), ("team", .obj [("name", .str "Ravens")]),
            ("score", .str "17.5"), ("winner", .bool false)]])]])]

/-- The scenario payload: the scenario event alone. -/
def scenarioPayload : JVal :=
  .obj [("events", .arr [scenarioEvent])]

/-- A score field that converts to a text which does not start, after white
space, with a minus sign. -/
def unsignedScore (v : JVal) : Bool :=
  match v.toStr with
  | .ok s => (s.data.dropWhile isStrWhiteSpace).head? != some '-'
  | .error _ => false

/-- A competitor as the provider documents it: an object whose `team` is an
object, with an unsigned score. -/
def wellFormedCompetitor (c : JVal) : Bool :=
  match c with
  | .obj ms =>
    (match JVal.lookup "team" ms with
     | some (.obj _) => true
     | _ => false) &&
    unsignedScore ((JVal.lookup "score" ms).getD .undefined)
  | _ => false

/-- Some competitor of the list carries the side tag. -/
def hasSide (side : String) (cs : List JVal) : Bool :=
  cs.any (fun c => (c.getOpt "homeAway").strictEq (.str side))

/-- An event as the provider documents it: an object whose `competitions` is a
list starting with an object that has a `competitors` list of well-formed
competitors, one tagged `home` and one tagged `away`, and a `status` object
with a `type` object. -/
def wellFormedEvent (e : JVal) : Bool :=
  match e with
  | .obj ms =>
    match JVal.lookup "competitions" ms with
    | some (.arr (.obj cms :: _)) =>
      (match JVal.lookup "competitors" cms with
       | some (.arr cs) => cs.all wellFormedCompetitor && hasSide "home" cs && hasSide "away" cs
       | _ => false) &&
      (match JVal.lookup "status" cms with
       | some (.obj sms) =>
         (match JVal.lookup "type" sms with
          | some (.obj _) => true
          | _ => false)
       | _ => false)
    | _ => false
  | _ => false

/-- A score field whose text has at most 15 characters. The numeral `parseInt`
reads from such a text is below 2^53, where JavaScript numbers are exact. -/
def shortScore (v : JVal) : Bool :=
  match v.toStr with
  | .ok s => decide (s.length ≤ 15)
  | .error _ => false

/-- Every competitor of the first competition of the event has a short score
field. -/
def shortScores (e : JVal) : Bool :=
  match e with
  | .obj ms =>
    match JVal.lookup "competitions" ms with
    | some (.arr (.obj cms :: _)) =>
      (match JVal.lookup "competitors" cms with
       | some (.arr cs) => cs.all (fun c => shortScore (c.getOpt "score"))
       | _ => false)
    | _ => false
  | _ => false

/-- A competitor object of the given side, id and score text. -/
def sampleCompetitor (side id score : String) (winner : Bool) : JVal :=
  .obj [("homeAway", .str side), ("id", .str id), ("team", .obj [("name", .str id)]),
        ("score", .str score), ("winner", .bool winner)]

/-- A payload with one completed event whose home score reads "-3". -/
def negativeScorePayload : JVal :=
  .obj [("events", .arr [.obj [("id", .str "401"), ("competitions", .arr [.obj [
    ("status", .obj [("type", .obj [("name", .str "STATUS_FINAL"), ("completed", .bool true)])]),
    ("competitors", .arr [sampleCompetitor "home" "12" "-3" false,
                          sampleCompetitor "away" "33" "7" true])]])]])]

/-- A payload whose only event has no `competitions`. -/
def noCompetitionsPayload : JVal :=
  .obj [("events", .arr [.obj [("id", .str "401")]])]

/-- A payload whose only event has no competitor tagged `home`. -/
def noHomePayload : JVal :=
  .obj [("events", .arr [.obj [("id", .str "401"), ("competitions", .arr [.obj [
    ("status", .obj [("type", .obj [("name", .str "STATUS_FINAL"), ("completed", .bool true)])]),
    ("competitors", .arr [sampleCompetitor "away" "33" "7" true])]])]])]

/-- A payload whose home competitor has no `team`. -/
def noTeamPayload : JVal :=
  .obj [("events", .arr [.obj [("id", .str "401"), ("competitions", .arr [.obj [
    ("status", .obj [("type", .obj [("name", .str "STATUS_FINAL"), ("completed", .bool true)])]),
    ("competitors", .arr [
      .obj [("homeAway", .str "home"), ("id", .str "12"), ("score", .str "21")],
      sampleCompetitor "away" "33" "7" true])]])]])]

/-- A payload whose only event has a `status` without `type`. -/
def noStatusTypePayload : JVal :=
  .obj [("events", .arr [.obj [("id", .str "401"), ("competitions", .arr [.obj [
    ("status", .obj []),
    ("competitors", .arr [sampleCompetitor "home" "12" "21" true,
                          sampleCompetitor "away" "33" "7" false])]])]])]

/-! ## Cache maintenance (src/api/espn.js) -/

/-- The method `clearCacheEntry(key)`. -/
def clearCacheEntry {α : Type} (cache : Cache α) (key : String) : Cache α :=
  mapDelete key cache

/-- The method `clearCache()`, on the `Map` (the memoised team list is reset
apart from it). -/
def clearCache {α : Type} (_cache : Cache α) : Cache α := []

/-- One call on the cache. -/
inductive CacheOp (α : Type) where
  | getCached (key : String) (now : Int) : CacheOp α
  | setCache (key : String) (now : Int) (data : α) : CacheOp α
  | clearCacheEntry (key : String) : CacheOp α
  | clearCache : CacheOp α

/-- The cache after one call. -/
def CacheOp.run {α : Type} (cfg : Config) (cache : Cache α) : CacheOp α → Cache α
  | .getCached key now => (Wizix.getCached cfg cache now key).2
  | .setCache key now data => Wizix.setCache cache now key data
  | .clearCacheEntry key => Wizix.clearCacheEntry cache key
  | .clearCache => Wizix.clearCache cache

/-- The cache after a sequence of calls, first call first. -/
def runCacheOps {α : Type} (cfg : Config) (cache : Cache α) (ops : List (CacheOp α)) : Cache α :=
  ops.foldl (CacheOp.run cfg) cache

/-- The call stores something under `key`. -/
def CacheOp.sets {α : Type} (key : String) : CacheOp α → Bool
  | .setCache k _ _ => k == key
  | _ => false

/-- The attempt did not yield parsed JSON (a transport error, a body that is
not JSON, or a non-success HTTP status). -/
def Attempt.failed : Attempt → Bool
  | .json _ => false
  | _ => true

/-! ## The week calculator (src/utils/date.js) -/

/-- The day number (days since 1 January 1970) of 1 January of year `y`, as
`Date` computes it; `/` on integers rounds down. -/
def dayFromYear (y : Int) : Int :=
  365 * (y - 1970) + (y - 1969) / 4 - (y - 1901) / 100 + (y - 1601) / 400

/-- Leap years of the calendar `Date` uses. -/
def inLeapYear (y : Int) : Bool :=
  y % 4 == 0 && (y % 100 != 0 || y % 400 == 0)

/-- The year the `Date` constructor takes a year argument for: 0 to 99 stand
for 1900 to 1999. -/
def fullYear (season : Int) : Int :=
  if 0 ≤ season ∧ season ≤ 99 then 1900 + season else season

/-- The local day number of `new Date(season, 8, 1)`, 1 September. -/
def septemberFirst (season : Int) : Int :=
  dayFromYear (fullYear season) + (if inLeapYear (fullYear season) then 244 else 243)

/-- The method `getDay()` of a local day number: 0 is Sunday, 4 is Thursday
(1 January 1970 was a Thursday). -/
def getDay (day : Int) : Int := (day + 4) % 7

/-- The time values of the `Date` that `getCurrentNFLWeek` steps through, by
local day number: `zone day` is the time value (milliseconds since the epoch)
the Date built by `new Date(season, 8, 1)` and stepped by
`setDate(getDate() + 1)` holds when it stands on that local day. `setDate`
keeps the local time of day the Date has. So the value is that of local
midnight of the day as long as local midnight exists on the days stepped
through; where a clock change skips midnight the engine moves the Date to the
later time of day, and the Date keeps that time of day on the following
days. -/
abbrev Zone := Int → Int

/-- Universal time: no clock change, the Date stands at midnight of each day. -/
def utcZone : Zone := fun day => day * 86400000

/-- The time values the stepped Date holds in America/Santiago in September
2023: 04:00 universal time on each day. That is local midnight on 1 and 2
September (four hours behind universal time); on 3 September (day number
19603) the clock skipped the hour from midnight, the Date was moved to 01:00
local time (three hours behind) and stays at 01:00 on the following days. -/
def santiagoStepped : Zone := fun day => day * 86400000 + 14400000

/-- The time values of local midnight in America/Santiago in September 2023:
04:00 universal time up to 2 September, 03:00 from 4 September on (for
3 September, when midnight was skipped, the value is the one three hours
behind). -/
def santiagoMidnight : Zone :=
  fun day => day * 86400000 + (if day < 19603 then 14400000 else 10800000)

/-- The time values a `Date` can hold; beyond them it is an Invalid Date. -/
def validTime (t : Int) : Bool :=
  decide (-8640000000000000 ≤ t) && decide (t ≤ 8640000000000000)

/-- The loop `while (firstThursday.getDay() !== 4) firstThursday.setDate(...)`,
on the local day number, with `fuel` bounding the evaluations of the loop
condition. On an Invalid Date `getDay()` is `NaN` and the loop never ends:
`none` stands for a loop that does not end (within the fuel). -/
def firstThursdayLoop (zone : Zone) : Nat → Int → Option Int
  | 0, _ => none
  | fuel + 1, day =>
    if !validTime (zone day) then none
    else if getDay day != 4 then firstThursdayLoop zone fuel (day + 1)
    else some day

/-- The function `getCurrentNFLWeek(season)` at clock value `now`. The
difference `now - firstThursday` reads the time value the stepped Date holds on
the Thursday found, `zone firstThursday`. The integer arithmetic is that of the
source wherever the result is not clamped: a difference too large for exact
number arithmetic is clamped either way. -/
def getCurrentNFLWeek (zone : Zone) (fuel : Nat) (now : Int) (season : Int) : Option Int :=
  match firstThursdayLoop zone fuel (septemberFirst season) with
  | none => none
  | some firstThursday =>
    let diffTime := now - zone firstThursday
    let diffDays := diffTime / (1000 * 60 * 60 * 24)
    let week := diffDays / 7 + 1
    if week < 1 then some 1
    else if week > 18 then some 18
    else some week

/-- The value `x` clamped to the weeks 1 to 18. -/
def clampWeek (x : Int) : Int := max 1 (min 18 x)

/-! ## The polling loop (src/services/scoring.js) -/

/-- The scoring service with the part of its environment it acts on: its two
fields, the repeating timers it has scheduled that are still live, the last
handle `setInterval` has handed out (handles are positive), and the number of
update cycles it has started itself (outside timer callbacks). -/
structure Poller where
  updateInterval : Option Nat
  isRunning : Bool
  timers : List Nat
  lastHandle : Nat
  cycles : Nat
  deriving DecidableEq, Repr

/-- The service as constructed. -/
def Poller.init : Poller :=
  { updateInterval := none, isRunning := false, timers := [], lastHandle := 0, cycles := 0 }

/-- The method `start()`: the state afterwards and the console lines. -/
def Poller.start (s : Poller) : Poller × List LogLine :=
  if s.isRunning then (s, [])
  else
    ({ s with
        isRunning := true,
        cycles := s.cycles + 1,
        updateInterval := some (s.lastHandle + 1),
        timers := s.timers ++ [s.lastHandle + 1],
        lastHandle := s.lastHandle + 1 },
     [.log "Starting real-time score updates..."])

/-- The method `stop()`: the state afterwards and the console lines. A handle
is truthy when it is not 0. -/
def Poller.stop (s : Poller) : Poller × List LogLine :=
  let cleared : Poller :=
    match s.updateInterval with
    | some handle =>
      if handle != 0 then
        { s with timers := s.timers.filter (fun h => h != handle), updateInterval := none }
      else s
    | none => s
  ({ cleared with isRunning := false }, [.log "Stopped real-time score updates"])

/-- A call on the service. -/
inductive PollerCall where
  | start : PollerCall
  | stop : PollerCall
  deriving DecidableEq, Repr

/-- The state after a call. -/
def Poller.call (s : Poller) : PollerCall → Poller
  | .start => s.start.1
  | .stop => s.stop.1

/-- The state after a sequence of calls on the service as constructed. -/
def Poller.after (calls : List PollerCall) : Poller :=
  calls.foldl Poller.call Poller.init

/-- The invariant of the states the calls reach: running exactly when a timer
handle is held, the held handle positive and naming the only live timer. -/
def Poller.Consistent (s : Poller) : Prop :=
  (s.isRunning = true ↔ s.updateInterval.isSome = true) ∧
  (∀ h, s.updateInterval = some h → 1 ≤ h ∧ h ≤ s.lastHandle ∧ s.timers = [h]) ∧
  (s.updateInterval = none → s.timers = [])

/-! ## Pick submission (src/api/supabase.js, src/views/MakePicks.js) -/

/-- What the backend does with the two statements of one `submitPicks`: the
error it answers to the delete and to the insert (`none` when it carries the
statement out), the id it gives to the i-th inserted row and the user it joins
to a user id. -/
structure SubmitBackend where
  deleteError : Option String
  insertError : Option String
  newId : Nat → String
  userOf : String → UserInfo

/-- The object `submitPicks` returns. -/
inductive SubmitResult where
  | success (data : List Pick) : SubmitResult
  | failure (error : String) : SubmitResult

/-- The filter of the delete: `user_id`, `pool_id`, `week` and `season` equal
to those of `picks[0]`. -/
def sameSubmission (first r : Pick) : Bool :=
  r.user_id == first.user_id && r.pool_id == first.pool_id && r.week == first.week &&
    r.season == first.season

/-- The rows as the backend stores them, the first one getting the id of
index `i`. -/
def insertRows (backend : SubmitBackend) : Nat → List Pick → List Pick
  | _, [] => []
  | i, p :: rest =>
    { p with id := backend.newId i, user := backend.userOf p.user_id } ::
      insertRows backend (i + 1) rest

/-- The method `submitPicks(picks)` of the database service on the picks table:
the result object and the table afterwards. An empty `picks` makes the read of
`picks[0].user_id` raise inside the `try`. -/
def DatabaseService.submitPicks (table : List Pick) (backend : SubmitBackend)
    (picks : List Pick) : SubmitResult × List Pick :=
  match picks with
  | [] => (.failure "TypeError", table)
  | first :: _ =>
    match backend.deleteError with
    | some message => (.failure message, table)
    | none =>
      let kept := table.filter (fun r => !sameSubmission first r)
      match backend.insertError with
      | some message => (.failure message, kept)
      | none => (.success (insertRows backend 0 picks), kept ++ insertRows backend 0 picks)

/-- The fields of the picks view that `submitPicks` reads: the user id, the id
of the selected pool (`none` when no pool is selected), the games shown, the
own members of the `picks` object (game id to team id, in creation order, one
per game id) and the current week. -/
structure MakePicksView where
  userId : String
  selectedPool : Option String
  games : List Game
  picks : List (String × JVal)
  currentWeek : Int

/-- The call `Object.entries(object)`: members named by an array index come
first, in ascending numeric order, then the others in creation order. -/
def objectEntries {α : Type} (members : List (String × α)) : List (String × α) :=
  (members.filter (fun kv => (arrayIndex kv.1).isSome)).insertionSort
      (fun a b => (arrayIndex a.1).getD 0 ≤ (arrayIndex b.1).getD 0) ++
    members.filter (fun kv => (arrayIndex kv.1).isNone)

/-- The rows `picksData` the view builds for the database. -/
def MakePicks.picksData (cfg : Config) (view : MakePicksView) (poolId : String) : List Pick :=
  (objectEntries view.picks).map (fun entry =>
    { id := "", pool_id := poolId, user_id := view.userId, game_id := .str entry.1,
      week := view.currentWeek, season := cfg.currentSeason, picked_team_id := entry.2,
      is_correct := none, user := { display_name := .undefined, avatar_url := .undefined } })

/-- The method `submitPicks()` of the picks view: what the database call
returned (`none` when the view only alerts and returns) and the picks table
afterwards. -/
def MakePicks.submitPicks (cfg : Config) (view : MakePicksView) (table : List Pick)
    (backend : SubmitBackend) : Option SubmitResult × List Pick :=
  match view.selectedPool with
  | none => (none, table)
  | some poolId =>
    if view.picks.length != view.games.length then (none, table)
    else
      let result := DatabaseService.submitPicks table backend (MakePicks.picksData cfg view poolId)
      (some result.1, result.2)

/-- Two rows are picks of the same user in the same pool on the same game. -/
def samePickKey (a b : Pick) : Prop :=
  a.user_id = b.user_id ∧ a.pool_id = b.pool_id ∧ a.game_id = b.game_id

/-- The table holds at most one pick per user, pool and game. -/
def onePickPerGame (table : List Pick) : Prop :=
  table.Pairwise (fun a b => ¬ samePickKey a b)

/-- A backend that carries out both statements, numbering the rows. -/
def sampleBackend : SubmitBackend :=
  { deleteError := none, insertError := none, newId := fun i => toString i,
    userOf := fun u => { display_name := .str u, avatar_url := .null } }

/-- A picks view of user ann in pool "pool" for week 1 with the given picks. -/
def sampleView (picks : List (String × JVal)) : MakePicksView :=
  { userId := "ann", selectedPool := some "pool",
    games := picks.map (fun e => sampleGame e.1 false false false), picks := picks,
    currentWeek := 1 }

/-! ## One update cycle (src/services/scoring.js) -/

/-- The effect is a game-cache upsert. -/
def Effect.isCacheGame : Effect → Bool
  | .cacheGame _ => true
  | _ => false

/-- The effect is a pick-result update. -/
def Effect.isPickResults : Effect → Bool
  | .pickResults _ _ => true
  | _ => false

/-- The method `updateScores()` from its first line: the current week, the
scoreboard call for it (default season, season type 2) and the rest of the
body; the effects and the score cache afterwards, `none` when the week search
does not end. -/
def updateCycle (cfg : Config) (zone : Zone) (fuel : Nat) (cache : Cache (List Game))
    (now later : Int) (net : Nat → Attempt) (stamp : String) :
    Option (List Effect × Cache (List Game)) :=
  match getCurrentNFLWeek zone fuel now cfg.currentSeason with
  | none => none
  | some currentWeek =>
    let run := getScoreboard cfg cache now later net (some currentWeek) cfg.currentSeason 2
    some (updateScores run.result stamp, run.cache)

/-! ## Form validation (src/utils/validation.js) -/

/-- The `length` of a JavaScript string: its UTF-16 code units, two for a
character beyond U+FFFF. -/
def utf16Length (s : String) : Nat :=
  (s.data.map (fun c => if c.toNat < 65536 then 1 else 2)).sum

/-- The test `/[x-y]/.test(s)` for a range of code units `lo` to `hi`. -/
def testRange (lo hi : Nat) (s : String) : Bool :=
  s.data.any (fun c => decide (lo ≤ c.toNat) && decide (c.toNat ≤ hi))

/-- The method `trim()`: white space and line terminators removed at both ends. -/
def jsTrim (s : String) : String :=
  String.mk ((s.data.dropWhile isStrWhiteSpace).reverse.dropWhile isStrWhiteSpace).reverse

/-- The object the validators return. -/
structure Validation where
  valid : Bool
  message : String
  deriving DecidableEq, Repr

/-- The function `validatePassword(password)`. -/
def validatePassword (password : String) : Validation :=
  if utf16Length password < 8 then
    { valid := false, message := "Password must be at least 8 characters" }
  else if !testRange 65 90 password then
    { valid := false, message := "Password must contain at least one uppercase letter" }
  else if !testRange 97 122 password then
    { valid := false, message := "Password must contain at least one lowercase letter" }
  else if !testRange 48 57 password then
    { valid := false, message := "Password must contain at least one number" }
  else { valid := true, message := "" }

/-- The function `validateDisplayName(name)`; the empty string is the falsy
name. -/
def validateDisplayName (name : String) : Validation :=
  if name == "" || decide (utf16Length (jsTrim name) < 2) then
    { valid := false, message := "Display name must be at least 2 characters" }
  else if utf16Length name > 50 then
    { valid := false, message := "Display name must be less than 50 characters" }
  else { valid := true, message := "" }

/-- A display name of exactly 50 characters. -/
def fiftyCharName : String := "aaaaaaaaaabbbbbbbbbbccccccccccddddddddddeeeeeeeeee"

/-! ## Pick locking (src/utils/date.js) -/

/-- The function `hasGameStarted(gameTime, lockMinutesBefore = 0)`. `now` is the
time value of `new Date()` and `timeOf` the reading of a value by the `Date`
constructor (`none` for an Invalid Date). The lock time is an Invalid Date when
it leaves the range of time values, and `>=` against an Invalid Date is
false. -/
def hasGameStarted (timeOf : JVal → Option Int) (now : Int) (gameTime : JVal)
    (lockMinutesBefore : Int := 0) : Bool :=
  match timeOf gameTime with
  | none => false
  | some gameDate =>
    let lockTime := gameDate - lockMinutesBefore * 60000
    validTime lockTime && decide (lockTime ≤ now)

/-- A game that kicked off at time value 1725582000000, with the reading of
its date text. -/
def startedGame : Game :=
  { sampleGame "g1" false false false with date := .str "2024-09-06T00:20Z" }

/-- The reading of the date text of `startedGame`. -/
def sampleTimeOf (v : JVal) : Option Int :=
  if v.strictEq (.str "2024-09-06T00:20Z") then some 1725582000000 else none

/-- The picks view of user ann holding the pick of team "A" on `startedGame`. -/
def lateView : MakePicksView :=
  { userId := "ann", selectedPool := some "pool", games := [startedGame],
    picks := [("g1", .str "A")], currentWeek := 1 }

/-! ## The Game invariant -/

/-- The Game invariant on a record: at most one of the two winner flags is set,
and none is set unless the status is completed. The flags and `completed` are
read by their truthiness, as `winnerId` and the `filter` on completed games
read them. -/
def gameInvariant (g : Game) : Bool :=
  !(g.homeTeam.winner.truthy && g.awayTeam.winner.truthy) &&
    (g.status.completed.truthy || (!g.homeTeam.winner.truthy && !g.awayTeam.winner.truthy))

/-- The first competitor of a list tagged with the side, `undefined` when there
is none. -/
def sideOf (side : String) (cs : List JVal) : JVal :=
  (cs.find? (fun c => (c.getOpt "homeAway").strictEq (.str side))).getD .undefined

/-- The first competition of a provider event. -/
def firstCompetition (e : JVal) : JVal :=
  match e.getOpt "competitions" with
  | .arr (c :: _) => c
  | _ => .undefined

/-- The winner flag the provider sent for the side of an event. -/
def eventWinner (side : String) (e : JVal) : Bool :=
  match (firstCompetition e).getOpt "competitors" with
  | .arr cs => ((sideOf side cs).getOpt "winner").truthy
  | _ => false

/-- The `status.type.completed` the provider sent for an event. -/
def eventCompleted (e : JVal) : JVal :=
  (((firstCompetition e).getOpt "status").getOpt "type").getOpt "completed"

/-- The Game invariant read on the provider event. -/
def eventInvariant (e : JVal) : Bool :=
  !(eventWinner "home" e && eventWinner "away" e) &&
    ((eventCompleted e).truthy || (!eventWinner "home" e && !eventWinner "away" e))

/-- A payload whose only event is in progress and has both competitors flagged
winner. -/
def bothWinnersPayload : JVal :=
  .obj [("events", .arr [.obj [("id", .str "401"), ("competitions", .arr [.obj [
    ("status", .obj [("type", .obj [("name", .str "STATUS_IN_PROGRESS"),
      ("completed", .bool false)])]),
    ("competitors", .arr [sampleCompetitor "home" "12" "21" true,
                          sampleCompetitor "away" "33" "7" true])]])]])]

/-! ## Pick results on the picks table (src/api/supabase.js, src/services/scoring.js) -/

/-- The select of `getPoolPicks(poolId, week, season)` on the picks table. -/
def getPoolPicks (table : List Pick) (poolId : String) (week season : Int) : List Pick :=
  table.filter (fun r => r.pool_id == poolId && r.week == week && r.season == season)

/-- The statement of `updatePickResult(pickId, isCorrect)` on the picks table:
`update({ is_correct: isCorrect }).eq('id', pickId)`, carried out by the
backend. -/
def updatePickResult (table : List Pick) (pickId : String) (isCorrect : Bool) : List Pick :=
  table.map (fun r => if r.id = pickId then { r with is_correct := some isCorrect } else r)

/-- The `updatePickResult` calls of one run carried out in order. -/
def applyPickUpdates (table : List Pick) : List PickUpdate → List Pick
  | [] => table
  | c :: rest => applyPickUpdates (updatePickResult table c.pickId c.isCorrect) rest

/-- One run of `calculateWeekResults(week, season, poolId)` on the picks table:
the result object, the `updatePickResult` calls made and the table afterwards. -/
structure WeekRun where
  result : WeekResult
  calls : List PickUpdate
  table : List Pick

/-- The method `calculateWeekResults(week, season, poolId)` on the picks table,
from the point where the scoreboard call has settled with `gamesResult`;
`picksError` is the error the backend answers to the select of `getPoolPicks`
(`none` when it answers the rows). -/
def weekRun (table : List Pick) (gamesResult : Except JsError ScoreboardResult)
    (picksError : Option String) (poolId : String) (week season : Int) : WeekRun :=
  let picksResult : Except String (List Pick) :=
    match picksError with
    | some message => .error message
    | none => .ok (getPoolPicks table poolId week season)
  let run := calculateWeekResults gamesResult picksResult
  { result := run.1, calls := run.2, table := applyPickUpdates table run.2 }

/-- The value a sequence of `updatePickResult` calls leaves in the row with the
given id, `v` being the value before. -/
def resolve : List PickUpdate → String → Option Bool → Option Bool
  | [], _, v => v
  | c :: rest, id, v => resolve rest id (if id = c.pickId then some c.isCorrect else v)

/-- The value one run computes for a pick from the completed games, if it
computes one. -/
def computedFlag (completed : List Game) (pick : Pick) : Option Bool :=
  (pickCall completed pick).map (fun c => c.isCorrect)

/-! # Properties -/

/-! ## Pick matching: lemmas -/

theorem weekLoop_calls (completed : List Game) (picks : List Pick) (updated : Nat)
    (calls : List PickUpdate) :
    (weekLoop completed picks updated calls).2 = calls ++ picks.filterMap (pickCall completed) := by
  induction picks generalizing updated calls with
  | nil => simp [weekLoop]
  | cons pick rest ih =>
    unfold weekLoop
    cases hf : completed.find? (fun g => g.id.strictEq pick.game_id) with
    | none => simp [ih, pickCall, hf]
    | some game =>
      cases hw : (winnerId game).truthy <;> simp [ih, pickCall, hf, hw]

theorem weekLoop_updated (completed : List Game) (picks : List Pick) (updated : Nat)
    (calls : List PickUpdate) :
    (weekLoop completed picks updated calls).1 =
      updated + (picks.filterMap (pickCall completed)).length := by
  induction picks generalizing updated calls with
  | nil => simp [weekLoop]
  | cons pick rest ih =>
    unfold weekLoop
    cases hf : completed.find? (fun g => g.id.strictEq pick.game_id) with
    | none => simp [ih, pickCall, hf]
    | some game =>
      cases hw : (winnerId game).truthy <;> simp [ih, pickCall, hf, hw]
      omega

theorem calculateWeekResults_calls (r : ScoreboardResult) (picks : List Pick)
    (hs : r.success = true) :
    (calculateWeekResults (.ok r) (.ok picks)).2 =
      picks.filterMap (pickCall (completedGames r.data)) := by
  simp [calculateWeekResults, hs, weekLoop_calls]

theorem eq_of_id_eq {picks : List Pick} (hid : picks.Pairwise (fun a b => a.id ≠ b.id))
    {a b : Pick} (ha : a ∈ picks) (hb : b ∈ picks) (h : a.id = b.id) : a = b := by
  by_contra hne
  exact (hid.forall (fun _ _ hxy => hxy.symm) ha hb hne) h

theorem call_for_pick (r : ScoreboardResult) (picks : List Pick) (pick : Pick)
    (hs : r.success = true) (hp : pick ∈ picks)
    (hid : picks.Pairwise (fun a b => a.id ≠ b.id)) :
    ∀ c ∈ (calculateWeekResults (.ok r) (.ok picks)).2, c.pickId = pick.id →
      pickCall (completedGames r.data) pick = some c := by
  rw [calculateWeekResults_calls r picks hs]
  intro c hc hcid
  obtain ⟨q, hq, hqc⟩ := List.mem_filterMap.1 hc
  have hqid : q.id = c.pickId := by
    unfold pickCall at hqc
    split at hqc
    · cases hqc
    · split at hqc
      · cases hqc; rfl
      · cases hqc
  have : q = pick := eq_of_id_eq hid hq hp (hqid.trans hcid)
  rw [← this]; exact hqc

theorem no_call_without_completed_game (r : ScoreboardResult) (picks : List Pick) (pick : Pick)
    (hs : r.success = true) (hp : pick ∈ picks)
    (hid : picks.Pairwise (fun a b => a.id ≠ b.id))
    (hnone : ∀ g ∈ r.data, g.status.completed.truthy = true →
      g.id.strictEq pick.game_id = false) :
    ∀ c ∈ (calculateWeekResults (.ok r) (.ok picks)).2, c.pickId ≠ pick.id := by
  intro c hc hcid
  have := call_for_pick r picks pick hs hp hid c hc hcid
  have hfind : (completedGames r.data).find? (fun g => g.id.strictEq pick.game_id) = none := by
    rw [List.find?_eq_none]
    intro g hg
    have hg2 := List.mem_filter.1 hg
    simp [hnone g hg2.1 hg2.2]
  simp [pickCall, hfind] at this

theorem located_game (games : List Game) (gameId : JVal) :
    ∀ game ∈ games, game.id.strictEq gameId = true →
      (∀ g1 ∈ games, g1.id.strictEq gameId = true → g1 = game) →
      games.find? (fun g => g.id.strictEq gameId) = some game := by
  intro game hmem hq huniq
  cases hf : games.find? (fun g => g.id.strictEq gameId) with
  | none =>
    have := List.find?_eq_none.1 hf game hmem
    simp [hq] at this
  | some g1 =>
    have h1 := List.find?_some hf
    have h2 := List.mem_of_find?_eq_some hf
    rw [huniq g1 h2 h1]

/-! ## Pick matching: the contract -/

/-- C1. In `calculateWeekResults`, for every pick of the fetched picks (pick ids
being unique): when the lookup by `game_id` among the completed games locates a
game and that game has a determined winner, exactly the value
`picked_team_id === winnerId` is written for the pick; when no completed game
has that id, or the located game has no determined winner, nothing is written
for the pick. The located game is the completed game with that id whenever
there is just one. -/
theorem calculateWeekResults_writes_pick (r : ScoreboardResult) (picks : List Pick) (pick : Pick)
    (hs : r.success = true) (hp : pick ∈ picks)
    (hid : picks.Pairwise (fun a b => a.id ≠ b.id)) :
    (∀ game, (completedGames r.data).find? (fun g => g.id.strictEq pick.game_id) = some game →
        (winnerId game).truthy = true →
        ({ pickId := pick.id, isCorrect := pick.picked_team_id.strictEq (winnerId game) } :
            PickUpdate) ∈ (calculateWeekResults (.ok r) (.ok picks)).2 ∧
        ∀ c ∈ (calculateWeekResults (.ok r) (.ok picks)).2, c.pickId = pick.id →
          c.isCorrect = pick.picked_team_id.strictEq (winnerId game)) ∧
    ((∀ g ∈ r.data, g.status.completed.truthy = true → g.id.strictEq pick.game_id = false) →
        ∀ c ∈ (calculateWeekResults (.ok r) (.ok picks)).2, c.pickId ≠ pick.id) ∧
    (∀ game, (completedGames r.data).find? (fun g => g.id.strictEq pick.game_id) = some game →
        (winnerId game).truthy = false →
        ∀ c ∈ (calculateWeekResults (.ok r) (.ok picks)).2, c.pickId ≠ pick.id) ∧
    (∀ game ∈ completedGames r.data, game.id.strictEq pick.game_id = true →
        (∀ g1 ∈ completedGames r.data, g1.id.strictEq pick.game_id = true → g1 = game) →
        (completedGames r.data).find? (fun g => g.id.strictEq pick.game_id) = some game) := by
  have key := call_for_pick r picks pick hs hp hid
  refine ⟨?_, no_call_without_completed_game r picks pick hs hp hid, ?_, located_game _ _⟩
  · intro game hfind hw
    have hcall : pickCall (completedGames r.data) pick =
        some { pickId := pick.id, isCorrect := pick.picked_team_id.strictEq (winnerId game) } := by
      simp [pickCall, hfind, hw]
    refine ⟨?_, ?_⟩
    · rw [calculateWeekResults_calls r picks hs]
      exact List.mem_filterMap.2 ⟨pick, hp, hcall⟩
    · intro c hc hcid
      have := key c hc hcid
      rw [hcall] at this
      cases this; rfl
  · intro game hfind hw c hc hcid
    have := key c hc hcid
    simp [pickCall, hfind, hw] at this

/-- C1, at a concrete week: one completed game won by the home team, a second
game not completed, a pick on each. -/
theorem calculateWeekResults_writes_pick_witness :
    ({ pickId := "p1", isCorrect := true } : PickUpdate) ∈
      (calculateWeekResults
        (.ok (sampleBoard [sampleGame "g1" true true false, sampleGame "g2" false true false]))
        (.ok [samplePick "p1" "u1" "g1" "H" none, samplePick "p2" "u1" "g2" "H" none])).2 :=
  ((calculateWeekResults_writes_pick
      (sampleBoard [sampleGame "g1" true true false, sampleGame "g2" false true false])
      [samplePick "p1" "u1" "g1" "H" none, samplePick "p2" "u1" "g2" "H" none]
      (samplePick "p1" "u1" "g1" "H" none) rfl (by simp)
      (by simp [samplePick])).1 (sampleGame "g1" true true false) rfl rfl).1

/-! ## Leaderboard: lemmas -/

theorem ownStanding_bump (k j : String) (f : Standing → Standing)
    (st : List (String × Standing)) :
    ownStanding k (bumpStanding j f st) =
      if j = k then (ownStanding k st).map f else ownStanding k st := by
  induction st with
  | nil => simp [bumpStanding, ownStanding]
  | cons kv rest ih =>
    obtain ⟨k1, s⟩ := kv
    by_cases h1 : k1 = j <;> by_cases h2 : k1 = k <;> by_cases h3 : j = k <;>
      simp_all [bumpStanding, ownStanding]

theorem ownStanding_append (k j : String) (v : Standing) (st : List (String × Standing)) :
    ownStanding k (st ++ [(j, v)]) =
      match ownStanding k st with
      | some s => some s
      | none => if j = k then some v else none := by
  induction st with
  | nil => simp [ownStanding]
  | cons kv rest ih =>
    obtain ⟨k1, s⟩ := kv
    by_cases h2 : k1 = k <;> simp_all [ownStanding]

theorem ownStanding_tally (k : String) (st : List (String × Standing)) (pick : Pick) :
    ownStanding k (tally st pick) = tallyAt k (ownStanding k st) pick := by
  unfold tally tallyAt
  by_cases hk : pick.user_id = k
  · subst hk
    cases ho : ownStanding pick.user_id st with
    | some s =>
      by_cases hc : pick.is_correct = some true <;>
        simp [ownStanding_bump, ho, hc, bumpPick]
    | none =>
      by_cases hi : pick.user_id ∈ inheritedNames <;>
        by_cases hc : pick.is_correct = some true <;>
        simp [ownStanding_bump, ownStanding_append, ho, hc, hi, bumpPick, freshStanding]
  · by_cases hc : pick.is_correct = some true <;>
      by_cases hn : ((ownStanding pick.user_id st).isNone &&
        !inheritedNames.contains pick.user_id) = true <;>
      simp only [ownStanding_bump, ownStanding_append, hk, hc, hn, if_true, if_false] <;>
      cases ho : ownStanding k st <;> simp [ho]

theorem ownStanding_foldl (k : String) (data : List Pick) (st : List (String × Standing)) :
    ownStanding k (data.foldl tally st) = data.foldl (tallyAt k) (ownStanding k st) := by
  induction data generalizing st with
  | nil => rfl
  | cons p rest ih => simp [List.foldl_cons, ih, ownStanding_tally]

theorem keys_bump (j : String) (f : Standing → Standing) (st : List (String × Standing)) :
    (bumpStanding j f st).map Prod.fst = st.map Prod.fst := by
  induction st with
  | nil => rfl
  | cons kv rest ih =>
    obtain ⟨k1, s⟩ := kv
    by_cases h : k1 = j <;> simp [bumpStanding, h, ih]

theorem ownStanding_eq_none (k : String) (st : List (String × Standing)) :
    ownStanding k st = none ↔ k ∉ st.map Prod.fst := by
  induction st with
  | nil => simp [ownStanding]
  | cons kv rest ih =>
    obtain ⟨k1, s⟩ := kv
    by_cases h : k1 = k
    · simp [ownStanding, h]
    · have h2 : ¬ k = k1 := fun e => h e.symm
      simp only [ownStanding, h, if_false, ih, List.map_cons, List.mem_cons, h2, false_or]

theorem keys_tally_nodup (st : List (String × Standing)) (pick : Pick)
    (h : (st.map Prod.fst).Nodup) : ((tally st pick).map Prod.fst).Nodup := by
  unfold tally
  by_cases hc : pick.is_correct = some true <;>
    simp only [hc, if_true, if_false, keys_bump] <;>
    split
  all_goals first
    | exact h
    | (rename_i hn
       simp only [Bool.and_eq_true, Option.isNone_iff_eq_none] at hn
       rw [List.map_append, List.nodup_append]
       refine ⟨h, by simp, ?_⟩
       intro a ha hb
       simp only [List.map_cons, List.map_nil, List.mem_singleton] at hb
       subst hb
       exact (ownStanding_eq_none _ _).1 hn.1 ha)

theorem keys_foldl_nodup (data : List Pick) (st : List (String × Standing))
    (h : (st.map Prod.fst).Nodup) : ((data.foldl tally st).map Prod.fst).Nodup := by
  induction data generalizing st with
  | nil => exact h
  | cons p rest ih => exact ih _ (keys_tally_nodup st p h)

theorem mem_iff_ownStanding (st : List (String × Standing)) (h : (st.map Prod.fst).Nodup)
    (k : String) (s : Standing) : (k, s) ∈ st ↔ ownStanding k st = some s := by
  induction st with
  | nil => simp [ownStanding]
  | cons kv rest ih =>
    obtain ⟨k1, s1⟩ := kv
    simp only [List.map_cons, List.nodup_cons] at h
    by_cases hk : k1 = k
    · subst hk
      simp only [ownStanding, if_true, List.mem_cons, Prod.mk.injEq, true_and, Option.some.injEq]
      constructor
      · rintro (h1 | h2)
        · exact h1.symm
        · exact absurd (List.mem_map_of_mem Prod.fst h2) h.1
      · intro h1
        exact Or.inl h1.symm
    · have h2 : ¬ k = k1 := fun e => hk e.symm
      simp only [ownStanding, hk, if_false, List.mem_cons, Prod.mk.injEq, h2, false_and,
        false_or, ih h.2]

theorem picksOf_eq (k : String) (data : List Pick) :
    picksOf k data = winsOf k data + missesOf k data := by
  induction data with
  | nil => rfl
  | cons p rest ih =>
    unfold picksOf winsOf missesOf at *
    simp only [List.countP_cons, ih]
    by_cases hk : p.user_id = k <;> by_cases hc : p.is_correct = some true <;> simp [hk, hc] <;>
      omega

theorem missesOf_resolved (k : String) (data : List Pick)
    (h : ∀ p ∈ data, p.is_correct ≠ none) : missesOf k data = lossesOf k data := by
  unfold missesOf lossesOf
  apply List.countP_congr
  intro p hp
  have := h p hp
  cases hc : p.is_correct with
  | none => exact absurd hc this
  | some b => cases b <;> simp

theorem tallyAt_foldl_some (k : String) (data : List Pick) (s : Standing) :
    ∃ s1, data.foldl (tallyAt k) (some s) = some s1 ∧ s1.userId = s.userId ∧
      s1.wins = s.wins + winsOf k data ∧ s1.losses = s.losses + missesOf k data ∧
      s1.total = s.total + picksOf k data := by
  induction data generalizing s with
  | nil => exact ⟨s, rfl, rfl, rfl, rfl, rfl⟩
  | cons p rest ih =>
    by_cases hk : p.user_id = k
    · obtain ⟨s1, h1, h2, h3, h4, h5⟩ := ih (bumpPick p s)
      refine ⟨s1, ?_, ?_, ?_, ?_, ?_⟩
      · simp [List.foldl_cons, tallyAt, hk, h1]
      · rw [h2]; unfold bumpPick; split <;> rfl
      · rw [h3]; unfold bumpPick winsOf
        by_cases hc : p.is_correct = some true <;> simp [hc, hk, List.countP_cons]
        omega
      · rw [h4]; unfold bumpPick missesOf
        by_cases hc : p.is_correct = some true <;> simp [hc, hk, List.countP_cons]
        omega
      · rw [h5]; unfold bumpPick picksOf
        by_cases hc : p.is_correct = some true <;> simp [hc, hk, List.countP_cons] <;> omega
    · obtain ⟨s1, h1, h2, h3, h4, h5⟩ := ih s
      refine ⟨s1, ?_, h2, ?_, ?_, ?_⟩
      · simp [List.foldl_cons, tallyAt, hk, h1]
      · rw [h3]; unfold winsOf; simp [hk, List.countP_cons]
      · rw [h4]; unfold missesOf; simp [hk, List.countP_cons]
      · rw [h5]; unfold picksOf; simp [hk, List.countP_cons]

theorem tallyAt_foldl_none (k : String) (data : List Pick) :
    (data.foldl (tallyAt k) none = none ∧ (k ∈ inheritedNames ∨ ∀ p ∈ data, p.user_id ≠ k)) ∨
    (∃ s, data.foldl (tallyAt k) none = some s ∧ k ∉ inheritedNames ∧
      (∃ p ∈ data, p.user_id = k) ∧ s.userId = k ∧ s.wins = winsOf k data ∧
      s.losses = missesOf k data ∧ s.total = picksOf k data) := by
  induction data with
  | nil => exact Or.inl ⟨rfl, Or.inr (fun p hp => absurd hp (List.not_mem_nil p))⟩
  | cons p rest ih =>
    by_cases hk : p.user_id = k
    · by_cases hi : k ∈ inheritedNames
      · left
        refine ⟨?_, Or.inl hi⟩
        rcases ih with ⟨h1, _⟩ | ⟨s, _, h2, _⟩
        · simp [List.foldl_cons, tallyAt, hk, hi, h1]
        · exact absurd hi h2
      · right
        obtain ⟨s1, h1, h2, h3, h4, h5⟩ := tallyAt_foldl_some k rest (bumpPick p (freshStanding p))
        refine ⟨s1, ?_, hi, ⟨p, List.mem_cons_self _ _, hk⟩, ?_, ?_, ?_, ?_⟩
        · simp [List.foldl_cons, tallyAt, hk, hi, h1]
        · rw [h2]; unfold bumpPick freshStanding; split <;> exact hk
        · rw [h3]; unfold bumpPick freshStanding winsOf
          by_cases hc : p.is_correct = some true <;> simp [hc, hk, List.countP_cons]
          omega
        · rw [h4]; unfold bumpPick freshStanding missesOf
          by_cases hc : p.is_correct = some true <;> simp [hc, hk, List.countP_cons]
          omega
        · rw [h5]; unfold bumpPick freshStanding picksOf
          by_cases hc : p.is_correct = some true <;> simp [hc, hk, List.countP_cons] <;> omega
    · have hstep : (p :: rest).foldl (tallyAt k) none = rest.foldl (tallyAt k) none := by
        simp [List.foldl_cons, tallyAt, hk]
      rcases ih with ⟨h1, h2⟩ | ⟨s, h1, h2, ⟨q, hq, hqk⟩, h4, h5, h6, h7⟩
      · left
        refine ⟨hstep.trans h1, ?_⟩
        rcases h2 with h2 | h2
        · exact Or.inl h2
        · right
          intro q hq
          rcases List.mem_cons.1 hq with rfl | hq
          · exact hk
          · exact h2 q hq
      · right
        refine ⟨s, hstep.trans h1, h2, ⟨q, List.mem_cons_of_mem _ hq, hqk⟩, h4, ?_, ?_, ?_⟩
        · rw [h5]; unfold winsOf; simp [hk, List.countP_cons]
        · rw [h6]; unfold missesOf; simp [hk, List.countP_cons]
        · rw [h7]; unfold picksOf; simp [hk, List.countP_cons]

theorem objectValues_perm (st : List (String × Standing)) :
    (objectValues st).Perm (st.map Prod.snd) := by
  unfold objectValues
  apply List.Perm.map
  have hfun : (fun kv : String × Standing => (arrayIndex kv.1).isNone) =
      (fun kv => !(arrayIndex kv.1).isSome) := by
    funext kv
    cases arrayIndex kv.1 <;> rfl
  rw [hfun]
  exact ((List.perm_insertionSort _ _).append_right _).trans (List.filter_append_perm _ _)

theorem leaderboard_perm (data : List Pick) :
    (leaderboard data).Perm ((data.foldl tally []).map Prod.snd) :=
  (List.perm_insertionSort _ _).trans (objectValues_perm _)

theorem mem_leaderboard (data : List Pick) (s : Standing) :
    s ∈ leaderboard data ↔ data.foldl (tallyAt s.userId) none = some s := by
  have hnd : ((data.foldl tally []).map Prod.fst).Nodup :=
    keys_foldl_nodup data [] List.nodup_nil
  rw [(leaderboard_perm data).mem_iff, List.mem_map]
  constructor
  · rintro ⟨⟨k, s1⟩, hmem, rfl⟩
    have hown := (mem_iff_ownStanding _ hnd k s1).1 hmem
    rw [ownStanding_foldl] at hown
    have hown2 : data.foldl (tallyAt k) none = some s1 := hown
    have hk : s1.userId = k := by
      rcases tallyAt_foldl_none k data with ⟨h1, _⟩ | ⟨s2, h1, _, _, h4, _⟩
      · rw [h1] at hown2; cases hown2
      · rw [h1] at hown2; cases hown2; exact h4
    show data.foldl (tallyAt s1.userId) none = some s1
    rw [hk]; exact hown2
  · intro h
    refine ⟨(s.userId, s), ?_, rfl⟩
    apply (mem_iff_ownStanding _ hnd _ _).2
    rw [ownStanding_foldl]; exact h

theorem leaderboard_entry (data : List Pick) (s : Standing) (h : s ∈ leaderboard data) :
    s.userId ∉ inheritedNames ∧ (∃ p ∈ data, p.user_id = s.userId) ∧
      s.wins = winsOf s.userId data ∧ s.losses = missesOf s.userId data ∧
      s.total = picksOf s.userId data := by
  have h0 := (mem_leaderboard data s).1 h
  rcases tallyAt_foldl_none s.userId data with ⟨h1, _⟩ | ⟨s2, h1, h2, h3, _, h5, h6, h7⟩
  · rw [h1] at h0; cases h0
  · rw [h1] at h0; cases h0
    exact ⟨h2, h3, h5, h6, h7⟩

theorem leaderboard_has (data : List Pick) (u : String) (hu : u ∉ inheritedNames)
    (hp : ∃ p ∈ data, p.user_id = u) : ∃ s ∈ leaderboard data, s.userId = u := by
  rcases tallyAt_foldl_none u data with ⟨_, h2⟩ | ⟨s, h1, _, _, h4, _⟩
  · rcases h2 with h2 | h2
    · exact absurd h2 hu
    · obtain ⟨p, hp1, hp2⟩ := hp
      exact absurd hp2 (h2 p hp1)
  · refine ⟨s, ?_, h4⟩
    rw [mem_leaderboard, h4]; exact h1

theorem leaderboard_userIds_nodup (data : List Pick) :
    ((leaderboard data).map (fun s => s.userId)).Nodup := by
  have hnd : ((data.foldl tally []).map Prod.fst).Nodup :=
    keys_foldl_nodup data [] List.nodup_nil
  rw [((leaderboard_perm data).map _).nodup_iff, List.map_map]
  have hcongr : (data.foldl tally []).map ((fun s : Standing => s.userId) ∘ Prod.snd) =
      (data.foldl tally []).map Prod.fst := by
    apply List.map_congr_left
    rintro ⟨k, s⟩ hmem
    have hin : s ∈ leaderboard data :=
      (leaderboard_perm data).mem_iff.2 (List.mem_map.2 ⟨(k, s), hmem, rfl⟩)
    have hown := (mem_iff_ownStanding _ hnd k s).1 hmem
    rw [ownStanding_foldl] at hown
    have hown2 : data.foldl (tallyAt k) none = some s := hown
    rcases tallyAt_foldl_none k data with ⟨h1, _⟩ | ⟨s2, h1, _, _, h4, _⟩
    · rw [h1] at hown2; cases hown2
    · rw [h1] at hown2; cases hown2; exact h4
  rw [hcongr]; exact hnd

theorem sortByWins_sorted (xs : List Standing) :
    (sortByWins xs).Pairwise (fun a b => b.wins ≤ a.wins) := by
  haveI : IsTotal Standing (fun a b => b.wins ≤ a.wins) := ⟨fun a b => Nat.le_total b.wins a.wins⟩
  haveI : IsTrans Standing (fun a b => b.wins ≤ a.wins) :=
    ⟨fun _ _ _ hab hbc => Nat.le_trans hbc hab⟩
  exact List.sorted_insertionSort (fun a b => b.wins ≤ a.wins) xs

/-! ## Leaderboard: the contract -/

/-- C2. For every list of resolved picks (user ids being backend-issued
identifiers, none of which is the name of a member inherited from
`Object.prototype`), the aggregation of `getLeaderboard` returns exactly one
standing per distinct user id of the list, with `wins` the number of that
user's picks whose `is_correct` is true, `losses` the number whose `is_correct`
is false, and `total = wins + losses >= 1`; an empty list gives no standings. -/
theorem leaderboard_one_standing_per_user (data : List Pick)
    (hres : ∀ p ∈ data, p.is_correct ≠ none)
    (hids : ∀ p ∈ data, p.user_id ∉ inheritedNames) :
    ((leaderboard data).map (fun s => s.userId)).Nodup ∧
    (∀ u, u ∈ (leaderboard data).map (fun s => s.userId) ↔ u ∈ data.map (fun p => p.user_id)) ∧
    (∀ s ∈ leaderboard data,
      s.wins = data.countP (fun p => p.user_id == s.userId && p.is_correct == some true) ∧
      s.losses = data.countP (fun p => p.user_id == s.userId && p.is_correct == some false) ∧
      s.total = s.wins + s.losses ∧ 1 ≤ s.total) ∧
    leaderboard [] = [] := by
  refine ⟨leaderboard_userIds_nodup data, ?_, ?_, rfl⟩
  · intro u
    simp only [List.mem_map]
    constructor
    · rintro ⟨s, hs, rfl⟩
      obtain ⟨_, ⟨p, hp, hpu⟩, _⟩ := leaderboard_entry data s hs
      exact ⟨p, hp, hpu⟩
    · rintro ⟨p, hp, rfl⟩
      exact leaderboard_has data p.user_id (hids p hp) ⟨p, hp, rfl⟩
  · intro s hs
    obtain ⟨_, ⟨p, hp, hpu⟩, hw, hl, ht⟩ := leaderboard_entry data s hs
    have hsum := picksOf_eq s.userId data
    refine ⟨hw, ?_, ?_, ?_⟩
    · rw [hl, missesOf_resolved s.userId data hres]; rfl
    · rw [ht, hsum, hw, hl]
    · rw [ht]
      unfold picksOf
      exact List.countP_pos_iff.2 ⟨p, hp, by simp [hpu]⟩

/-- C2, on three resolved picks of two users. -/
theorem leaderboard_one_standing_per_user_witness :
    ((leaderboard [samplePick "p1" "ann" "g1" "H" (some true),
        samplePick "p2" "bob" "g1" "A" (some false),
        samplePick "p3" "ann" "g2" "H" (some false)]).map (fun s => s.userId)).Nodup :=
  (leaderboard_one_standing_per_user
    [samplePick "p1" "ann" "g1" "H" (some true), samplePick "p2" "bob" "g1" "A" (some false),
      samplePick "p3" "ann" "g2" "H" (some false)]
    (by simp [samplePick]) (by simp [samplePick, inheritedNames])).1

/-- C3. The list `getLeaderboard` returns is ordered by wins, most wins first:
a standing never comes before one with strictly more wins. In the scenario
(user a: 2 wins and 1 loss, user b: 2 wins and no loss, user c: 1 win) both
users with two wins come before the user with one. -/
theorem leaderboard_sorted_by_wins :
    (∀ data : List Pick, (leaderboard data).Pairwise (fun a b => b.wins ≤ a.wins)) ∧
    (leaderboard [samplePick "p1" "c" "g1" "H" (some true),
        samplePick "p2" "a" "g1" "H" (some true), samplePick "p3" "b" "g1" "H" (some true),
        samplePick "p4" "a" "g2" "H" (some false), samplePick "p5" "b" "g2" "H" (some true),
        samplePick "p6" "a" "g3" "H" (some true)]).map (fun s => (s.userId, s.wins, s.losses))
      = [("a", 2, 1), ("b", 2, 0), ("c", 1, 0)] :=
  ⟨fun data => sortByWins_sorted _, by decide⟩

theorem leaderboardQuery_resolved (table : List Pick) (poolId : String) (season : Int) :
    ∀ p ∈ leaderboardQuery table poolId season, p.is_correct ≠ none := by
  intro p hp
  have := (List.mem_filter.1 hp).2
  intro hnone
  simp [hnone] at this

theorem leaderboard_perm_into (d1 d2 : List Pick) (h : d1.Perm d2) :
    ∀ s1 ∈ leaderboard d1, ∃ s2 ∈ leaderboard d2, s2.userId = s1.userId ∧
      s2.wins = s1.wins ∧ s2.losses = s1.losses ∧ s2.total = s1.total := by
  intro s1 hs1
  obtain ⟨hu, ⟨p, hp, hpu⟩, hw, hl, ht⟩ := leaderboard_entry d1 s1 hs1
  obtain ⟨s2, hs2, hs2u⟩ := leaderboard_has d2 s1.userId hu ⟨p, h.mem_iff.1 hp, hpu⟩
  obtain ⟨_, _, hw2, hl2, ht2⟩ := leaderboard_entry d2 s2 hs2
  refine ⟨s2, hs2, hs2u, ?_, ?_, ?_⟩
  · rw [hw2, hw, hs2u]; exact (h.countP_eq _).symm
  · rw [hl2, hl, hs2u]; exact (h.countP_eq _).symm
  · rw [ht2, ht, hs2u]; exact (h.countP_eq _).symm

/-- C4. Picks of unknown correctness are ignored by `getLeaderboard`: removing
every pick whose `is_correct` is null from the table changes nothing in the
result; the wins, losses and total of every standing count only picks whose
`is_correct` is true or false; and a user all of whose picks are unknown gets
no standing. -/
theorem getLeaderboard_ignores_unknown (table : List Pick) (poolId : String) (season : Int) :
    standingsOf (getLeaderboard (.ok table) poolId season) =
      standingsOf (getLeaderboard (.ok (table.filter (fun p => p.is_correct.isSome)))
        poolId season) ∧
    (∀ s ∈ standingsOf (getLeaderboard (.ok table) poolId season),
      s.wins = table.countP (fun p => p.pool_id == poolId && p.season == season &&
        p.user_id == s.userId && p.is_correct == some true) ∧
      s.losses = table.countP (fun p => p.pool_id == poolId && p.season == season &&
        p.user_id == s.userId && p.is_correct == some false) ∧
      s.total = s.wins + s.losses) ∧
    (∀ u, (∀ p ∈ table, p.user_id = u → p.is_correct = none) →
      ∀ s ∈ standingsOf (getLeaderboard (.ok table) poolId season), s.userId ≠ u) := by
  refine ⟨?_, ?_, ?_⟩
  · simp only [getLeaderboard, standingsOf, leaderboardQuery, List.filter_filter]
    congr 1
    apply List.filter_congr
    intro p _
    cases p.is_correct <;> simp
  · intro s hs
    simp only [getLeaderboard, standingsOf] at hs
    obtain ⟨_, _, hw, hl, ht⟩ := leaderboard_entry _ s hs
    have hsum := picksOf_eq s.userId (leaderboardQuery table poolId season)
    have hres := missesOf_resolved s.userId _ (leaderboardQuery_resolved table poolId season)
    refine ⟨?_, ?_, ?_⟩
    · rw [hw]
      unfold winsOf leaderboardQuery
      rw [List.countP_filter]
      apply List.countP_congr
      intro p _
      cases p.is_correct <;> simp
      tauto
    · rw [hl, hres]
      unfold lossesOf leaderboardQuery
      rw [List.countP_filter]
      apply List.countP_congr
      intro p _
      cases p.is_correct <;> simp
      tauto
    · rw [ht, hsum, hw, hl]
  · intro u hu s hs hsu
    simp only [getLeaderboard, standingsOf] at hs
    obtain ⟨_, ⟨p, hp, hpu⟩, _⟩ := leaderboard_entry _ s hs
    have hp2 := List.mem_filter.1 hp
    have := hu p hp2.1 (hpu.trans hsu)
    simp [this] at hp2

/-- C4, on a table where user bob has only an unknown pick: bob has no
standing. -/
theorem getLeaderboard_ignores_unknown_witness :
    (standingsOf (getLeaderboard
        (.ok [samplePick "p1" "ann" "g1" "H" (some true), samplePick "p2" "bob" "g1" "A" none])
        "pool" 2024)).all (fun s => s.userId != "bob") = true :=
  List.all_eq_true.2 (fun s hs => by
    simpa using (getLeaderboard_ignores_unknown
      [samplePick "p1" "ann" "g1" "H" (some true), samplePick "p2" "bob" "g1" "A" none]
      "pool" 2024).2.2 "bob" (by simp [samplePick]) s hs)

/-- C5. The aggregation of `getLeaderboard` does not depend on the order of the
picks: when two pick lists are permutations of each other, every user id with
a standing in one result has a standing in the other with the same wins,
losses and total. -/
theorem leaderboard_order_invariant (d1 d2 : List Pick) (h : d1.Perm d2) :
    (∀ s1 ∈ leaderboard d1, ∃ s2 ∈ leaderboard d2, s2.userId = s1.userId ∧
      s2.wins = s1.wins ∧ s2.losses = s1.losses ∧ s2.total = s1.total) ∧
    (∀ s2 ∈ leaderboard d2, ∃ s1 ∈ leaderboard d1, s1.userId = s2.userId ∧
      s1.wins = s2.wins ∧ s1.losses = s2.losses ∧ s1.total = s2.total) :=
  ⟨leaderboard_perm_into d1 d2 h, leaderboard_perm_into d2 d1 h.symm⟩

/-- C5, on two picks swapped. -/
theorem leaderboard_order_invariant_witness :
    List.Perm
      [samplePick "p1" "ann" "g1" "H" (some true), samplePick "p2" "bob" "g1" "A" (some false)]
      [samplePick "p2" "bob" "g1" "A" (some false), samplePick "p1" "ann" "g1" "H" (some true)] ∧
    ((∀ s1 ∈ leaderboard [samplePick "p1" "ann" "g1" "H" (some true),
        samplePick "p2" "bob" "g1" "A" (some false)],
      ∃ s2 ∈ leaderboard [samplePick "p2" "bob" "g1" "A" (some false),
        samplePick "p1" "ann" "g1" "H" (some true)],
      s2.userId = s1.userId ∧ s2.wins = s1.wins ∧ s2.losses = s1.losses ∧
        s2.total = s1.total) ∧
    (∀ s2 ∈ leaderboard [samplePick "p2" "bob" "g1" "A" (some false),
        samplePick "p1" "ann" "g1" "H" (some true)],
      ∃ s1 ∈ leaderboard [samplePick "p1" "ann" "g1" "H" (some true),
        samplePick "p2" "bob" "g1" "A" (some false)],
      s1.userId = s2.userId ∧ s1.wins = s2.wins ∧ s1.losses = s2.losses ∧
        s1.total = s2.total)) :=
  ⟨List.Perm.swap _ _ _,
    leaderboard_order_invariant
      [samplePick "p1" "ann" "g1" "H" (some true), samplePick "p2" "bob" "g1" "A" (some false)]
      [samplePick "p2" "bob" "g1" "A" (some false), samplePick "p1" "ann" "g1" "H" (some true)]
      (List.Perm.swap _ _ _)⟩

/-! ## Winner determination -/

/-- C6 as stated fails: on a completed game with both sides flagged winner the
winner determination yields the home team id, not "no winner". -/
theorem winnerId_both_flagged_counterexample :
    ¬ (∀ g : Game, g.status.completed.truthy = true →
        ((g.homeTeam.winner.truthy = true ∧ g.awayTeam.winner.truthy = true) ∨
          (g.homeTeam.winner.truthy = false ∧ g.awayTeam.winner.truthy = false) →
            (winnerId g).truthy = false) ∧
        ((winnerId g).truthy = true →
          (g.homeTeam.winner.truthy = true ∧ g.awayTeam.winner.truthy = false) ∨
          (g.homeTeam.winner.truthy = false ∧ g.awayTeam.winner.truthy = true))) := by
  intro h
  have := (h (sampleGame "g1" true true true) rfl).1 (Or.inl ⟨rfl, rfl⟩)
  exact absurd this (by decide)

/-- C6, amended. For every game (completed ones included), the expression bound
to `winnerId` in `updatePickResults` and `calculateWeekResults` is `null`, hence
no winner, when neither side is flagged winner; it is the home team id whenever
the home side is flagged (also when the away side is flagged too), and the away
team id when only the away side is flagged; so a winner is determined only when
at least one side is flagged. -/
theorem winnerId_resolution (g : Game) :
    (g.homeTeam.winner.truthy = false → g.awayTeam.winner.truthy = false →
      winnerId g = .null ∧ (winnerId g).truthy = false) ∧
    (g.homeTeam.winner.truthy = true → winnerId g = g.homeTeam.id) ∧
    (g.homeTeam.winner.truthy = false → g.awayTeam.winner.truthy = true →
      winnerId g = g.awayTeam.id) ∧
    ((winnerId g).truthy = true →
      g.homeTeam.winner.truthy = true ∨ g.awayTeam.winner.truthy = true) := by
  unfold winnerId
  cases hh : g.homeTeam.winner.truthy <;> cases ha : g.awayTeam.winner.truthy <;>
    simp [JVal.truthy]

/-- C6 amended, on a game with both sides flagged: the home team id results. -/
theorem winnerId_resolution_witness :
    winnerId (sampleGame "g1" true true true) = (sampleGame "g1" true true true).homeTeam.id :=
  (winnerId_resolution (sampleGame "g1" true true true)).2.1 rfl

/-- C7. A game that is not completed never yields a winner, whatever its winner
flags: `updateScores` never calls `updatePickResults` on it, and in
`calculateWeekResults` (pick ids and game ids being unique) nothing is written
for a pick that references it. -/
theorem not_completed_never_resolved (g : Game) (hg : g.status.completed.truthy = false) :
    (∀ (result : Except JsError ScoreboardResult) (stamp : String) (lines : List LogLine),
      Effect.pickResults g lines ∉ updateScores result stamp) ∧
    (∀ (r : ScoreboardResult) (picks : List Pick) (pick : Pick),
      r.success = true → g ∈ r.data → g.id.strictEq pick.game_id = true →
      (∀ g1 ∈ r.data, g1.id.strictEq pick.game_id = true → g1 = g) →
      pick ∈ picks → picks.Pairwise (fun a b => a.id ≠ b.id) →
      ∀ c ∈ (calculateWeekResults (.ok r) (.ok picks)).2, c.pickId ≠ pick.id) := by
  constructor
  · intro result stamp lines hmem
    unfold updateScores at hmem
    cases result with
    | error e => simp at hmem
    | ok r =>
      simp only at hmem
      split at hmem
      · simp at hmem
      · simp only [List.mem_append, List.mem_map, List.mem_singleton] at hmem
        rcases hmem with (⟨_, _, h⟩ | ⟨game, hgame, h⟩) | h
        · cases h
        · injection h with h1 _
          subst h1
          have := (List.mem_filter.1 hgame).2
          rw [hg] at this
          cases this
        · cases h
  · intro r picks pick hs _ _ huniq hp hid
    refine (no_call_without_completed_game r picks pick hs hp hid) ?_
    intro g1 hg1 hc1
    cases hq : g1.id.strictEq pick.game_id with
    | false => rfl
    | true =>
      have := huniq g1 hg1 hq
      subst this
      rw [hg] at hc1
      cases hc1

/-- C7, on a game that is not completed although both sides are flagged: a
pick on it gets no `updatePickResult` call. -/
theorem not_completed_never_resolved_witness :
    (sampleGame "g2" false true true).status.completed.truthy = false ∧
    ((calculateWeekResults (.ok (sampleBoard [sampleGame "g2" false true true]))
        (.ok [samplePick "p1" "ann" "g2" "H" none])).2.all
      (fun c => c.pickId != "p1")) = true :=
  ⟨rfl, List.all_eq_true.2 (fun c hc => by
    simpa using (not_completed_never_resolved (sampleGame "g2" false true true) rfl).2
      (sampleBoard [sampleGame "g2" false true true]) [samplePick "p1" "ann" "g2" "H" none]
      (samplePick "p1" "ann" "g2" "H" none) rfl (by simp [sampleBoard]) rfl
      (by intro g1 hg1 _; simpa [sampleBoard] using hg1) (by simp) (by simp) c hc)⟩

/-! ## Score coercion: lemmas -/

theorem digitValue_of_isDigit (c : Char) (h : c.isDigit = true) :
    digitValue 10 c = some (c.toNat - 48) := by
  simp only [Char.isDigit, Bool.and_eq_true, decide_eq_true_eq] at h
  have h1 : 48 ≤ c.toNat := h.1
  have h2 : c.toNat ≤ 57 := h.2
  simp only [digitValue, h1, h2, and_self, if_true]
  have : c.toNat - 48 < 10 := by omega
  simp [this]

theorem digitValue_of_not_isDigit (c : Char) (h : c.isDigit = false) :
    digitValue 10 c = none := by
  have h0 : ¬ (48 ≤ c.toNat ∧ c.toNat ≤ 57) := by
    intro hc
    have : c.isDigit = true := by
      simp only [Char.isDigit, Bool.and_eq_true, decide_eq_true_eq]
      exact hc
    rw [h] at this
    cases this
  simp only [digitValue, h0, if_false]
  split
  · rename_i d hd
    split at hd
    · rename_i h1
      have : ¬ (c.toNat - 87 < 10) := by omega
      cases hd
      simp [this]
    · split at hd
      · rename_i h1 h2
        have : ¬ (c.toNat - 55 < 10) := by omega
        cases hd
        simp [this]
      · cases hd
  · rfl

theorem foldl_digits (ds : List Nat) (acc : Nat) :
    ds.foldl (fun a d => a * 10 + d) acc = acc * 10 ^ ds.length + Nat.ofDigits 10 ds.reverse := by
  induction ds generalizing acc with
  | nil => simp
  | cons d rest ih =>
    rw [List.foldl_cons, ih, List.reverse_cons, Nat.ofDigits_append, Nat.ofDigits_singleton,
      List.length_reverse, List.length_cons]
    ring

theorem digitsValue_eq_ofDigits (ds : List Nat) :
    digitsValue 10 ds = Nat.ofDigits 10 ds.reverse := by
  unfold digitsValue
  rw [foldl_digits]
  simp

theorem not_space_of_isDigit (c : Char) (h : c.isDigit = true) : isStrWhiteSpace c = false := by
  simp only [Char.isDigit, Bool.and_eq_true, decide_eq_true_eq] at h
  have h1 : 48 ≤ c.toNat := h.1
  have h2 : c.toNat ≤ 57 := h.2
  unfold isStrWhiteSpace
  simp only [Bool.or_eq_false_iff, Bool.and_eq_false_iff, beq_eq_false_iff_ne, ne_eq,
    decide_eq_false_iff_not]
  omega

theorem digitPrefix_digits (ds rest : List Char) (hdig : ∀ c ∈ ds, c.isDigit = true)
    (hrest : rest = [] ∨ rest.head? = some '.') :
    digitPrefix 10 (ds ++ rest) = ds.map (fun c => c.toNat - 48) := by
  induction ds with
  | nil =>
    rcases hrest with rfl | h
    · rfl
    · cases rest with
      | nil => rfl
      | cons c r =>
        simp only [List.head?_cons, Option.some.injEq] at h
        subst h
        rfl
  | cons c ds ih =>
    have hc := digitValue_of_isDigit c (hdig c (List.mem_cons_self _ _))
    have ih2 := ih (fun d hd => hdig d (List.mem_cons_of_mem _ hd))
    show digitPrefix 10 (c :: (ds ++ rest)) = _
    simp only [digitPrefix, hc, ih2, List.map_cons]

theorem parseIntText_numeral (ds rest : List Char) (hne : ds ≠ [])
    (hdig : ∀ c ∈ ds, c.isDigit = true) (hrest : rest = [] ∨ rest.head? = some '.') :
    parseIntText (String.mk (ds ++ rest)) =
      some ((Nat.ofDigits 10 ((ds.map (fun c => c.toNat - 48)).reverse) : Nat) : Int) := by
  cases ds with
  | nil => exact absurd rfl hne
  | cons c ds =>
    have hc : c.isDigit = true := hdig c (List.mem_cons_self _ _)
    have hws := not_space_of_isDigit c hc
    have hminus : c ≠ '-' := by
      intro h; subst h; revert hc; decide
    have hplus : c ≠ '+' := by
      intro h; subst h; revert hc; decide
    have htrim : (c :: ds ++ rest).dropWhile isStrWhiteSpace = c :: ds ++ rest := by
      simp [List.dropWhile_cons, hws]
    have hsign : splitSign (c :: ds ++ rest) = (1, c :: ds ++ rest) := by
      simp [splitSign, hminus, hplus]
    have hradix : splitRadix (c :: ds ++ rest) = (10, c :: ds ++ rest) := by
      cases htail : ds ++ rest with
      | nil => simp [splitRadix, htail]
      | cons d r =>
        have hd : ¬ (d = 'x' ∨ d = 'X') := by
          cases ds with
          | nil =>
            simp only [List.nil_append] at htail
            rcases hrest with h | h
            · rw [h] at htail; cases htail
            · rw [htail] at h
              simp only [List.head?_cons, Option.some.injEq] at h
              subst h; decide
          | cons e es =>
            simp only [List.cons_append, List.cons.injEq] at htail
            have he : e.isDigit = true :=
              hdig e (List.mem_cons_of_mem _ (List.mem_cons_self _ _))
            rw [htail.1] at he
            rintro (h | h) <;> (subst h; revert he; decide)
        simp [splitRadix, htail, hd]
    have hpre := digitPrefix_digits (c :: ds) rest hdig hrest
    unfold parseIntText
    simp only [htrim, hsign, hradix, hpre, digitsValue_eq_ofDigits]
    simp

theorem digitPrefix_no_numeral (body : List Char)
    (h : ∀ c, body.head? = some c → c.isDigit = false) :
    digitPrefix (splitRadix body).1 (splitRadix body).2 = [] := by
  cases body with
  | nil => rfl
  | cons c r =>
    have hc : c.isDigit = false := h c rfl
    have hzero : c ≠ '0' := by
      intro e; subst e; revert hc; decide
    have hradix : splitRadix (c :: r) = (10, c :: r) := by
      cases r with
      | nil => rfl
      | cons d r2 => simp [splitRadix, hzero]
    simp [hradix, digitPrefix, digitValue_of_not_isDigit c hc]

theorem parseIntText_no_numeral (s : String)
    (h : ∀ c, (splitSign (s.data.dropWhile isStrWhiteSpace)).2.head? = some c →
      c.isDigit = false) : parseIntText s = none := by
  unfold parseIntText
  simp only [digitPrefix_no_numeral _ h]
  rfl

/-! ## Score coercion: the contract -/

/-- C9. Score coercion truncates to the leading integer: a string made of
decimal digits (up to 15, which a JavaScript number holds exactly) becomes the
number the digits denote, and so does such a numeral followed by a fractional
part; a string with no leading numeral (after white space and a sign) becomes
0; so "21" gives 21, "17.5" gives 17 and "abc" gives 0. In the scenario (one completed event, home score "21" with the winner
flag, away score "17.5") the game record has scores 21 and 17 and the resolved
winner is the home team id. -/
theorem parseIntOrZero_truncates :
    (∀ ds rest : List Char, ds ≠ [] → ds.length ≤ 15 → (∀ c ∈ ds, c.isDigit = true) →
      (rest = [] ∨ rest.head? = some '.') →
      parseIntOrZero (.str (String.mk (ds ++ rest))) =
        .ok ((Nat.ofDigits 10 ((ds.map (fun c => c.toNat - 48)).reverse) : Nat) : Int)) ∧
    (∀ s : String,
      (∀ c, (splitSign (s.data.dropWhile isStrWhiteSpace)).2.head? = some c →
        c.isDigit = false) →
      parseIntOrZero (.str s) = .ok 0) ∧
    (parseIntOrZero (.str "21") = .ok 21 ∧ parseIntOrZero (.str "17.5") = .ok 17 ∧
      parseIntOrZero (.str "abc") = .ok 0) ∧
    (parseScoreboard {} scenarioPayload).map (fun gs => gs.map (fun g =>
        (g.homeTeam.score, g.awayTeam.score, g.status.completed.truthy,
          (winnerId g).strictEq g.homeTeam.id, (winnerId g).strictEq (.str "12")))) =
      .ok [(21, 17, true, true, true)] := by
  refine ⟨?_, ?_, ⟨rfl, rfl, rfl⟩, rfl⟩
  · intro ds rest hne _ hdig hrest
    simp only [parseIntOrZero, parseInt, JVal.toStr, bind, Except.bind, pure, Except.pure,
      parseIntText_numeral ds rest hne hdig hrest]
    congr 1
    split <;> simp_all
  · intro s h
    simp only [parseIntOrZero, parseInt, JVal.toStr, bind, Except.bind, pure, Except.pure,
      parseIntText_no_numeral s h]

/-- C9, on the numeral "17.5": the digits "17" followed by the fraction ".5". -/
theorem parseIntOrZero_truncates_witness :
    parseIntOrZero (.str (String.mk (['1', '7'] ++ ['.', '5']))) =
      .ok ((Nat.ofDigits 10 (([ '1', '7'].map (fun c => c.toNat - 48)).reverse) : Nat) : Int) :=
  parseIntOrZero_truncates.1 ['1', '7'] ['.', '5'] (by simp) (by decide) (by decide)
    (Or.inr rfl)

/-! ## `parseScoreboard`: lemmas -/

theorem splitSign_unsigned (cs : List Char) (h : cs.head? ≠ some '-') : (splitSign cs).1 = 1 := by
  cases cs with
  | nil => rfl
  | cons c r =>
    have hc : c ≠ '-' := by
      intro e; apply h; rw [e]; rfl
    unfold splitSign
    simp only [hc, if_false]
    split <;> rfl

theorem parseIntText_nonneg (s : String)
    (h : (s.data.dropWhile isStrWhiteSpace).head? ≠ some '-') :
    ∀ n, parseIntText s = some n → 0 ≤ n := by
  intro n hn
  unfold parseIntText at hn
  simp only [splitSign_unsigned _ h] at hn
  split at hn
  · cases hn
  · cases hn
    simp

theorem parseIntOrZero_nonneg (v : JVal) (h : unsignedScore v = true) :
    ∃ n, parseIntOrZero v = .ok n ∧ 0 ≤ n := by
  unfold unsignedScore at h
  cases hs : v.toStr with
  | error e => rw [hs] at h; cases h
  | ok s =>
    rw [hs] at h
    have hhead : (s.data.dropWhile isStrWhiteSpace).head? ≠ some '-' := by
      simpa using h
    have hnn := parseIntText_nonneg s hhead
    simp only [parseIntOrZero, parseInt, hs, bind, Except.bind, pure, Except.pure]
    refine ⟨_, rfl, ?_⟩
    cases hp : parseIntText s with
    | none => simp
    | some n =>
      have := hnn n hp
      simp only
      split <;> omega

theorem parseSide_ok (c : JVal) (h : wellFormedCompetitor c = true) :
    ∃ side, parseSide c = .ok side ∧ 0 ≤ side.score := by
  cases c with
  | obj ms =>
    simp only [wellFormedCompetitor, Bool.and_eq_true] at h
    obtain ⟨hteam, hscore⟩ := h
    obtain ⟨n, hn, hn0⟩ := parseIntOrZero_nonneg _ hscore
    cases ht : JVal.lookup "team" ms with
    | none => rw [ht] at hteam; cases hteam
    | some team =>
      rw [ht] at hteam
      cases team with
      | obj tms =>
        have hside : ∃ side, parseSide (.obj ms) = .ok side ∧ side.score = n := by
          simp only [parseSide, JVal.get, ht, Option.getD_some, bind, Except.bind, pure,
            Except.pure, hn]
          exact ⟨_, rfl, rfl⟩
        obtain ⟨side, h1, h2⟩ := hside
        exact ⟨side, h1, h2 ▸ hn0⟩
      | _ => cases hteam
  | _ => cases h

theorem findSide_ok (side : String) (cs : List JVal)
    (hall : ∀ c ∈ cs, wellFormedCompetitor c = true) (hhas : hasSide side cs = true) :
    ∃ c, findSide side cs = .ok c ∧ c ∈ cs := by
  induction cs with
  | nil => cases hhas
  | cons c rest ih =>
    have hc := hall c (List.mem_cons_self _ _)
    cases c with
    | obj ms =>
      simp only [hasSide, List.any_cons, Bool.or_eq_true] at hhas
      cases hq : ((JVal.obj ms).getOpt "homeAway").strictEq (.str side) with
      | true =>
        refine ⟨.obj ms, ?_, List.mem_cons_self _ _⟩
        simp only [JVal.getOpt] at hq
        simp only [findSide, JVal.get, bind, Except.bind, hq, if_true, pure, Except.pure]
      | false =>
        rw [hq] at hhas
        have hrest : hasSide side rest = true := by
          rcases hhas with h | h
          · cases h
          · exact h
        obtain ⟨d, hd, hmem⟩ := ih (fun x hx => hall x (List.mem_cons_of_mem _ hx)) hrest
        refine ⟨d, ?_, List.mem_cons_of_mem _ hmem⟩
        simp only [JVal.getOpt] at hq
        simp only [findSide, JVal.get, bind, Except.bind, hq, hd]
        simp
    | _ => cases hc

theorem mapEvents_length (f : JVal → Except JsError Game) (es : List JVal) (gs : List Game)
    (h : mapEvents f es = .ok gs) : gs.length = es.length := by
  induction es generalizing gs with
  | nil =>
    simp only [mapEvents] at h
    cases h; rfl
  | cons e rest ih =>
    simp only [mapEvents, bind, Except.bind] at h
    cases hf : f e with
    | error err => rw [hf] at h; cases h
    | ok g =>
      rw [hf] at h
      simp only at h
      cases hr : mapEvents f rest with
      | error err => rw [hr] at h; cases h
      | ok gr =>
        rw [hr] at h
        simp only [pure, Except.pure] at h
        cases h
        simp [ih gr hr]

theorem mapEvents_ok (f : JVal → Except JsError Game) (P : Game → Prop) (es : List JVal)
    (h : ∀ e ∈ es, ∃ g, f e = .ok g ∧ P g) :
    ∃ gs, mapEvents f es = .ok gs ∧ ∀ g ∈ gs, P g := by
  induction es with
  | nil => exact ⟨[], rfl, fun g hg => absurd hg (List.not_mem_nil g)⟩
  | cons e rest ih =>
    obtain ⟨g, hg, hPg⟩ := h e (List.mem_cons_self _ _)
    obtain ⟨gr, hgr, hPr⟩ := ih (fun x hx => h x (List.mem_cons_of_mem _ hx))
    refine ⟨g :: gr, ?_, ?_⟩
    · simp only [mapEvents, bind, Except.bind, hg, hgr, pure, Except.pure]
    · intro x hx
      rcases List.mem_cons.1 hx with rfl | hx
      · exact hPg
      · exact hPr x hx

theorem parseStatus_ok (cms sms tms : List (String × JVal))
    (hstat : JVal.lookup "status" cms = some (.obj sms))
    (htype : JVal.lookup "type" sms = some (.obj tms)) :
    ∃ st, parseStatus (.obj cms) = .ok st := by
  simp only [parseStatus, JVal.get, hstat, htype, Option.getD_some, bind, Except.bind, pure,
    Except.pure]
  exact ⟨_, rfl⟩

theorem parseEvent_ok (cfg : Config) (dms : List (String × JVal)) (e : JVal)
    (h : wellFormedEvent e = true) :
    ∃ g, parseEvent cfg (.obj dms) e = .ok g ∧ 0 ≤ g.homeTeam.score ∧ 0 ≤ g.awayTeam.score := by
  unfold wellFormedEvent at h
  split at h
  · rename_i ms
    split at h
    · rename_i cms tail hcomp
      simp only [Bool.and_eq_true] at h
      obtain ⟨h1, h2⟩ := h
      split at h1
      · rename_i cs hcs
        simp only [Bool.and_eq_true, List.all_eq_true] at h1
        obtain ⟨⟨hall, hhome⟩, haway⟩ := h1
        split at h2
        · rename_i sms hstat
          split at h2
          · rename_i tms htype
            obtain ⟨hc, hfind, hmem⟩ := findSide_ok "home" cs hall hhome
            obtain ⟨ac, hfindA, hmemA⟩ := findSide_ok "away" cs hall haway
            obtain ⟨hs, hps, hs0⟩ := parseSide_ok hc (hall hc hmem)
            obtain ⟨as, hpa, as0⟩ := parseSide_ok ac (hall ac hmemA)
            obtain ⟨st, hst⟩ := parseStatus_ok cms sms tms hstat htype
            have hev : ∃ g, parseEvent cfg (.obj dms) (.obj ms) = .ok g ∧ g.homeTeam = hs ∧
                g.awayTeam = as := by
              simp only [parseEvent, JVal.get, JVal.getIndex0, hcomp, Option.getD_some,
                List.head?_cons, hcs, callFind, hfind, hfindA, hst, hps, hpa, bind, Except.bind,
                pure, Except.pure]
              exact ⟨_, rfl, rfl, rfl⟩
            obtain ⟨g, hg, hgh, hga⟩ := hev
            exact ⟨g, hg, hgh ▸ hs0, hga ▸ as0⟩
          · cases h2
        · cases h2
      · cases h1
    · cases h
  · cases h

/-! ## `parseScoreboard`: scores within exact number arithmetic -/

theorem digitValue_lt (radix : Nat) (c : Char) (d : Nat) (h : digitValue radix c = some d) :
    d < radix := by
  unfold digitValue at h
  simp only at h
  split at h
  · split at h
    · cases h
      assumption
    · cases h
  · cases h

theorem digitPrefix_lt (radix : Nat) (cs : List Char) :
    ∀ d ∈ digitPrefix radix cs, d < radix := by
  induction cs with
  | nil => intro d hd; cases hd
  | cons c rest ih =>
    intro d hd
    unfold digitPrefix at hd
    cases hc : digitValue radix c with
    | none => rw [hc] at hd; cases hd
    | some v =>
      rw [hc] at hd
      rcases List.mem_cons.1 hd with rfl | hmem
      · exact digitValue_lt radix c _ hc
      · exact ih d hmem

theorem digitPrefix_length (radix : Nat) (cs : List Char) :
    (digitPrefix radix cs).length ≤ cs.length := by
  induction cs with
  | nil => simp [digitPrefix]
  | cons c rest ih =>
    unfold digitPrefix
    cases hc : digitValue radix c with
    | none => simp
    | some v => simpa using ih

theorem foldl_digits_lt (r : Nat) (ds : List Nat) (acc : Nat) (h : ∀ d ∈ ds, d < r) :
    ds.foldl (fun acc d => acc * r + d) acc < (acc + 1) * r ^ ds.length := by
  induction ds generalizing acc with
  | nil => simp
  | cons d rest ih =>
    have hd := h d (List.mem_cons_self _ _)
    have hrest := ih (acc * r + d) (fun x hx => h x (List.mem_cons_of_mem _ hx))
    simp only [List.foldl_cons, List.length_cons]
    calc rest.foldl (fun acc d => acc * r + d) (acc * r + d)
        < (acc * r + d + 1) * r ^ rest.length := hrest
      _ ≤ ((acc + 1) * r) * r ^ rest.length := by
          apply Nat.mul_le_mul_right
          have : (acc + 1) * r = acc * r + r := by ring
          omega
      _ = (acc + 1) * r ^ (rest.length + 1) := by ring

theorem digitsValue_lt (r : Nat) (ds : List Nat) (h : ∀ d ∈ ds, d < r) :
    digitsValue r ds < r ^ ds.length := by
  have := foldl_digits_lt r ds 0 h
  simpa [digitsValue] using this

theorem splitRadix_cases (cs : List Char) :
    ((splitRadix cs).1 = 10 ∧ (splitRadix cs).2.length ≤ cs.length) ∨
      ((splitRadix cs).1 = 16 ∧ (splitRadix cs).2.length + 2 ≤ cs.length) := by
  unfold splitRadix
  split
  · split
    · right; simp
    · left; simp
  · left; simp

theorem splitSign_length (cs : List Char) : (splitSign cs).2.length ≤ cs.length := by
  unfold splitSign
  split
  · split
    · simp
    · split <;> simp
  · simp

theorem parseIntText_lt (s : String) (hlen : s.length ≤ 15)
    (h : (s.data.dropWhile isStrWhiteSpace).head? ≠ some '-') :
    ∀ n, parseIntText s = some n → 0 ≤ n ∧ n < 9007199254740992 := by
  intro n hn
  unfold parseIntText at hn
  simp only [splitSign_unsigned _ h] at hn
  split at hn
  · cases hn
  · cases hn
    have htrim : (s.data.dropWhile isStrWhiteSpace).length ≤ 15 :=
      le_trans (List.dropWhile_sublist _).length_le hlen
    have hsign := splitSign_length (s.data.dropWhile isStrWhiteSpace)
    have hz := digitPrefix_length
      (splitRadix (splitSign (s.data.dropWhile isStrWhiteSpace)).2).1
      (splitRadix (splitSign (s.data.dropWhile isStrWhiteSpace)).2).2
    have hv := digitsValue_lt _ _ (digitPrefix_lt
      (splitRadix (splitSign (s.data.dropWhile isStrWhiteSpace)).2).1
      (splitRadix (splitSign (s.data.dropWhile isStrWhiteSpace)).2).2)
    refine ⟨by simp, ?_⟩
    simp only [one_mul]
    rcases splitRadix_cases (splitSign (s.data.dropWhile isStrWhiteSpace)).2 with ⟨hr, hl⟩ | ⟨hr, hl⟩
    · rw [hr] at hv hz ⊢
      have hpow : 10 ^ (digitPrefix 10
          (splitRadix (splitSign (s.data.dropWhile isStrWhiteSpace)).2).2).length ≤ 10 ^ 15 :=
        Nat.pow_le_pow_right (by decide) (by omega)
      have hlt := lt_of_lt_of_le hv hpow
      have : (10 : Nat) ^ 15 ≤ 9007199254740992 := by norm_num
      exact_mod_cast lt_of_lt_of_le hlt this
    · rw [hr] at hv hz ⊢
      have hpow : 16 ^ (digitPrefix 16
          (splitRadix (splitSign (s.data.dropWhile isStrWhiteSpace)).2).2).length ≤ 16 ^ 13 :=
        Nat.pow_le_pow_right (by decide) (by omega)
      have hlt := lt_of_lt_of_le hv hpow
      have : (16 : Nat) ^ 13 ≤ 9007199254740992 := by norm_num
      exact_mod_cast lt_of_lt_of_le hlt this

theorem parseIntOrZero_bounded (v : JVal) (h : unsignedScore v = true)
    (hshort : shortScore v = true) :
    ∃ n, parseIntOrZero v = .ok n ∧ 0 ≤ n ∧ n < 9007199254740992 := by
  unfold unsignedScore at h
  unfold shortScore at hshort
  cases hs : v.toStr with
  | error e => rw [hs] at h; cases h
  | ok s =>
    rw [hs] at h hshort
    have hhead : (s.data.dropWhile isStrWhiteSpace).head? ≠ some '-' := by
      simpa using h
    have hlen : s.length ≤ 15 := by simpa using hshort
    have hb := parseIntText_lt s hlen hhead
    simp only [parseIntOrZero, parseInt, hs, bind, Except.bind, pure, Except.pure]
    refine ⟨_, rfl, ?_⟩
    cases hp : parseIntText s with
    | none => simp
    | some n =>
      have := hb n hp
      simp only
      split <;> omega

theorem parseSide_bounded (c : JVal) (h : wellFormedCompetitor c = true)
    (hshort : shortScore (c.getOpt "score") = true) :
    ∃ side, parseSide c = .ok side ∧ 0 ≤ side.score ∧ side.score < 9007199254740992 := by
  cases c with
  | obj ms =>
    simp only [wellFormedCompetitor, Bool.and_eq_true] at h
    obtain ⟨hteam, hscore⟩ := h
    simp only [JVal.getOpt] at hshort
    obtain ⟨n, hn, hn0, hn53⟩ := parseIntOrZero_bounded _ hscore hshort
    cases ht : JVal.lookup "team" ms with
    | none => rw [ht] at hteam; cases hteam
    | some team =>
      rw [ht] at hteam
      cases team with
      | obj tms =>
        have hside : ∃ side, parseSide (.obj ms) = .ok side ∧ side.score = n := by
          simp only [parseSide, JVal.get, ht, Option.getD_some, bind, Except.bind, pure,
            Except.pure, hn]
          exact ⟨_, rfl, rfl⟩
        obtain ⟨side, h1, h2⟩ := hside
        exact ⟨side, h1, h2 ▸ hn0, h2 ▸ hn53⟩
      | _ => cases hteam
  | _ => cases h

theorem parseEvent_bounded (cfg : Config) (dms : List (String × JVal)) (e : JVal)
    (h : wellFormedEvent e = true) (hshort : shortScores e = true) :
    ∃ g, parseEvent cfg (.obj dms) e = .ok g ∧
      (0 ≤ g.homeTeam.score ∧ g.homeTeam.score < 9007199254740992) ∧
      (0 ≤ g.awayTeam.score ∧ g.awayTeam.score < 9007199254740992) := by
  unfold wellFormedEvent at h
  unfold shortScores at hshort
  split at h
  · rename_i ms
    split at h
    · rename_i cms tail hcomp
      simp only [Bool.and_eq_true] at h
      obtain ⟨h1, h2⟩ := h
      split at h1
      · rename_i cs hcs
        simp only [hcomp, hcs, List.all_eq_true] at hshort
        simp only [Bool.and_eq_true, List.all_eq_true] at h1
        obtain ⟨⟨hall, hhome⟩, haway⟩ := h1
        split at h2
        · rename_i sms hstat
          split at h2
          · rename_i tms htype
            obtain ⟨hc, hfind, hmem⟩ := findSide_ok "home" cs hall hhome
            obtain ⟨ac, hfindA, hmemA⟩ := findSide_ok "away" cs hall haway
            obtain ⟨hs, hps, hs0, hs53⟩ := parseSide_bounded hc (hall hc hmem) (hshort hc hmem)
            obtain ⟨as, hpa, as0, as53⟩ := parseSide_bounded ac (hall ac hmemA) (hshort ac hmemA)
            obtain ⟨st, hst⟩ := parseStatus_ok cms sms tms hstat htype
            have hev : ∃ g, parseEvent cfg (.obj dms) (.obj ms) = .ok g ∧ g.homeTeam = hs ∧
                g.awayTeam = as := by
              simp only [parseEvent, JVal.get, JVal.getIndex0, hcomp, Option.getD_some,
                List.head?_cons, hcs, callFind, hfind, hfindA, hst, hps, hpa, bind, Except.bind,
                pure, Except.pure]
              exact ⟨_, rfl, rfl, rfl⟩
            obtain ⟨g, hg, hgh, hga⟩ := hev
            exact ⟨g, hg, ⟨hgh ▸ hs0, hgh ▸ hs53⟩, ⟨hga ▸ as0, hga ▸ as53⟩⟩
          · cases h2
        · cases h2
      · cases h1
    · cases h
  · cases h

/-! ## `parseScoreboard`: the contract -/

/-- C8 as stated fails: the payload with one well-formed event whose home score
reads "-3" gives one record, with home score -3. -/
theorem parseScoreboard_negative_score_counterexample :
    ¬ (∀ (cfg : Config) (data : JVal) (es : List JVal), data.get "events" = .ok (.arr es) →
        ∃ gs, parseScoreboard cfg data = .ok gs ∧ gs.length = es.length ∧
          ∀ g ∈ gs, 0 ≤ g.homeTeam.score ∧ 0 ≤ g.awayTeam.score) := by
  intro h
  obtain ⟨gs, hgs, _, hall⟩ := h {} negativeScorePayload _ rfl
  have heval : (parseScoreboard {} negativeScorePayload).map
      (fun gs => gs.map (fun g => g.homeTeam.score)) = .ok [-3] := rfl
  rw [hgs] at heval
  simp only [Except.map, Except.ok.injEq] at heval
  cases gs with
  | nil => cases heval
  | cons g rest =>
    simp only [List.map_cons, List.cons.injEq] at heval
    have := (hall g (List.mem_cons_self _ _)).1
    rw [heval.1] at this
    exact absurd this (by decide)

/-- C8, amended. For every payload whose `events` list holds N well-formed
events whose score fields, read as text, have at most 15 characters and, after
leading white space, do not start with a minus sign, `parseScoreboard` returns
exactly N game records, each with both scores integers that are at least 0
(and below 2^53, so exact JavaScript numbers); whenever `parseScoreboard`
returns records for a payload with N events there are exactly N of them; and a
score field that does not read as a number becomes 0. -/
theorem parseScoreboard_record_per_event (cfg : Config) (ms : List (String × JVal))
    (es : List JVal) (hev : JVal.lookup "events" ms = some (.arr es)) :
    ((∀ e ∈ es, wellFormedEvent e = true ∧ shortScores e = true) →
      ∃ gs, parseScoreboard cfg (.obj ms) = .ok gs ∧ gs.length = es.length ∧
        ∀ g ∈ gs, (0 ≤ g.homeTeam.score ∧ g.homeTeam.score < 9007199254740992) ∧
          (0 ≤ g.awayTeam.score ∧ g.awayTeam.score < 9007199254740992)) ∧
    (∀ gs, parseScoreboard cfg (.obj ms) = .ok gs → gs.length = es.length) ∧
    (∀ (v : JVal) (s : String), v.toStr = .ok s → parseIntText s = none →
      parseIntOrZero v = .ok 0) := by
  have hparse : parseScoreboard cfg (.obj ms) = mapEvents (parseEvent cfg (.obj ms)) es := by
    simp [parseScoreboard, JVal.get, hev, JVal.truthy, isArray, bind, Except.bind]
  refine ⟨?_, ?_, ?_⟩
  · intro hwf
    obtain ⟨gs, hgs, hall⟩ := mapEvents_ok (parseEvent cfg (.obj ms))
      (fun g => (0 ≤ g.homeTeam.score ∧ g.homeTeam.score < 9007199254740992) ∧
        (0 ≤ g.awayTeam.score ∧ g.awayTeam.score < 9007199254740992)) es
      (fun e he => parseEvent_bounded cfg ms e (hwf e he).1 (hwf e he).2)
    exact ⟨gs, hparse.trans hgs, mapEvents_length _ _ _ hgs, hall⟩
  · intro gs hgs
    exact mapEvents_length _ _ _ (hparse.symm.trans hgs)
  · intro v s hs hnone
    simp only [parseIntOrZero, parseInt, hs, hnone, bind, Except.bind, pure, Except.pure]

/-- C8 amended, on the scenario payload: one event, one record. -/
theorem parseScoreboard_record_per_event_witness :
    ∃ gs, parseScoreboard {} (.obj [("events", .arr [scenarioEvent])]) = .ok gs ∧
      gs.length = [scenarioEvent].length ∧
      ∀ g ∈ gs, (0 ≤ g.homeTeam.score ∧ g.homeTeam.score < 9007199254740992) ∧
        (0 ≤ g.awayTeam.score ∧ g.awayTeam.score < 9007199254740992) :=
  (parseScoreboard_record_per_event {} [("events", .arr [scenarioEvent])] [scenarioEvent] rfl).1
    (by decide)

/-- C10. Malformed payloads do not all degrade to an empty list: a payload
without `events`, or whose `events` is not a list, gives the empty list, but a
payload whose event lacks `competitions`, a home competitor, a `team` or
`status.type` makes `parseScoreboard` raise a `TypeError`, and `getScoreboard`
passes the exception on to its caller. -/
theorem parseScoreboard_malformed_event_raises :
    ((parseScoreboard {} (.obj [("week", .obj [("number", .num 1)])])).map List.length = .ok 0 ∧
      (parseScoreboard {} (.obj [("events", .str "none")])).map List.length = .ok 0) ∧
    ((parseScoreboard {} noCompetitionsPayload).map List.length = .error .typeError ∧
      (parseScoreboard {} noHomePayload).map List.length = .error .typeError ∧
      (parseScoreboard {} noTeamPayload).map List.length = .error .typeError ∧
      (parseScoreboard {} noStatusTypePayload).map List.length = .error .typeError) ∧
    ((getScoreboard {} [] 0 0 (fun _ => .json noCompetitionsPayload) (some 1) 2024 2).result.map
        (fun r => r.success) = .error .typeError) :=
  ⟨⟨rfl, rfl⟩, ⟨rfl, rfl, rfl, rfl⟩, rfl⟩

/-! ## The score cache: lemmas -/

theorem mapGet_mapSet_self {α : Type} (key : String) (e : CacheEntry α) (m : Cache α) :
    mapGet key (mapSet key e m) = some e := by
  induction m with
  | nil => simp [mapSet, mapGet]
  | cons kv rest ih =>
    obtain ⟨k, old⟩ := kv
    by_cases h : k = key <;> simp [mapSet, mapGet, h, ih]

theorem mapGet_mapSet_other {α : Type} (key k1 : String) (e : CacheEntry α) (m : Cache α)
    (h : k1 ≠ key) : mapGet k1 (mapSet key e m) = mapGet k1 m := by
  induction m with
  | nil =>
    have h2 : ¬ key = k1 := fun x => h x.symm
    simp [mapSet, mapGet, h2]
  | cons kv rest ih =>
    obtain ⟨k, old⟩ := kv
    by_cases hk : k = key
    · subst hk
      have h2 : ¬ k = k1 := fun x => h x.symm
      simp [mapSet, mapGet, h2]
    · by_cases hk1 : k = k1
      · subst hk1
        simp [mapSet, mapGet, hk]
      · simp [mapSet, mapGet, hk, hk1, ih]

theorem mapGet_mapDelete_self {α : Type} (key : String) (m : Cache α) :
    mapGet key (mapDelete key m) = none := by
  induction m with
  | nil => rfl
  | cons kv rest ih =>
    obtain ⟨k, old⟩ := kv
    by_cases h : k = key
    · subst h
      simpa [mapDelete, List.filter_cons] using ih
    · have : (mapDelete key ((k, old) :: rest)) = (k, old) :: mapDelete key rest := by
        simp [mapDelete, List.filter_cons, h]
      rw [this]
      simp [mapGet, h, ih]

theorem mapGet_mapDelete_other {α : Type} (key k1 : String) (m : Cache α) (h : k1 ≠ key) :
    mapGet k1 (mapDelete key m) = mapGet k1 m := by
  induction m with
  | nil => rfl
  | cons kv rest ih =>
    obtain ⟨k, old⟩ := kv
    by_cases hk : k = key
    · subst hk
      have h2 : ¬ k = k1 := fun x => h x.symm
      have : (mapDelete k ((k, old) :: rest)) = mapDelete k rest := by
        simp [mapDelete, List.filter_cons]
      rw [this, ih]
      simp [mapGet, h2]
    · have : (mapDelete key ((k, old) :: rest)) = (k, old) :: mapDelete key rest := by
        simp [mapDelete, List.filter_cons, hk]
      rw [this]
      by_cases hk1 : k = k1 <;> simp [mapGet, hk1, ih]

theorem getCached_of_entry {α : Type} (cfg : Config) (cache : Cache α) (now : Int)
    (key : String) (e : CacheEntry α) (h : mapGet key cache = some e) :
    getCached cfg cache now key =
      if now - e.timestamp > cfg.cacheTimeout then (none, mapDelete key cache)
      else (some e.data, cache) := by
  simp [getCached, h]

theorem getCached_of_absent {α : Type} (cfg : Config) (cache : Cache α) (now : Int)
    (key : String) (h : mapGet key cache = none) :
    getCached cfg cache now key = (none, cache) := by
  simp [getCached, h]

theorem getCached_keeps_absent {α : Type} (cfg : Config) (cache : Cache α) (now : Int)
    (key k1 : String) (h : mapGet key cache = none) :
    mapGet key (getCached cfg cache now k1).2 = none := by
  cases hk : mapGet k1 cache with
  | none => rw [getCached_of_absent cfg cache now k1 hk]; exact h
  | some e =>
    rw [getCached_of_entry cfg cache now k1 e hk]
    split
    · by_cases hkk : key = k1
      · subst hkk; exact mapGet_mapDelete_self _ _
      · rw [mapGet_mapDelete_other _ _ _ hkk]; exact h
    · exact h

theorem runCacheOps_keeps_absent {α : Type} (cfg : Config) (key : String)
    (ops : List (CacheOp α)) (cache : Cache α) (h : mapGet key cache = none)
    (hops : ∀ op ∈ ops, op.sets key = false) :
    mapGet key (runCacheOps cfg cache ops) = none := by
  induction ops generalizing cache with
  | nil => exact h
  | cons op rest ih =>
    have hop := hops op (List.mem_cons_self _ _)
    have hrest : ∀ o ∈ rest, o.sets key = false :=
      fun o ho => hops o (List.mem_cons_of_mem _ ho)
    show mapGet key (runCacheOps cfg (op.run cfg cache) rest) = none
    apply ih _ _ hrest
    cases op with
    | getCached k1 now => exact getCached_keeps_absent cfg cache now key k1 h
    | setCache k1 now data =>
      have hne : key ≠ k1 := by
        intro e
        simp [CacheOp.sets, e] at hop
      simp only [CacheOp.run, setCache]
      rw [mapGet_mapSet_other _ _ _ _ hne]; exact h
    | clearCacheEntry k1 =>
      simp only [CacheOp.run, clearCacheEntry]
      by_cases hkk : key = k1
      · subst hkk; exact mapGet_mapDelete_self _ _
      · rw [mapGet_mapDelete_other _ _ _ hkk]; exact h
    | clearCache => rfl

/-! ## The score cache: the contract -/

/-- C11. For an entry stored at clock value `t` and a lookup at clock value
`now`, `getCached` returns the stored payload if and only if
`now - t <= 30000`: an entry aged exactly 30000 ms is returned, one aged
30001 ms is reported absent. -/
theorem getCached_ttl {α : Type} (cache : Cache α) (key : String) (p : α) (t now : Int) :
    ((getCached {} (setCache cache t key p) now key).1 = some p ↔ now - t ≤ 30000) ∧
    ((getCached {} (setCache cache t key p) now key).1 = none ↔ ¬ (now - t ≤ 30000)) ∧
    (getCached {} (setCache cache t key p) (t + 30000) key).1 = some p ∧
    (getCached {} (setCache cache t key p) (t + 30001) key).1 = none := by
  have hget : mapGet key (setCache cache t key p) = some { data := p, timestamp := t } :=
    mapGet_mapSet_self _ _ _
  have hall : ∀ n : Int, (getCached {} (setCache cache t key p) n key).1 =
      if n - t > 30000 then none else some p := by
    intro n
    rw [getCached_of_entry _ _ _ _ _ hget]
    split <;> rfl
  refine ⟨?_, ?_, ?_, ?_⟩
  · rw [hall]
    by_cases h : now - t > 30000
    · rw [if_pos h]
      exact ⟨fun hx => (by cases hx), fun hx => (by omega)⟩
    · rw [if_neg h]
      exact ⟨fun _ => (by omega), fun _ => rfl⟩
  · rw [hall]
    by_cases h : now - t > 30000
    · rw [if_pos h]
      exact ⟨fun _ => (by omega), fun _ => rfl⟩
    · rw [if_neg h]
      exact ⟨fun hx => (by cases hx), fun hx => (by omega)⟩
  · rw [hall, if_neg (by omega)]
  · rw [hall, if_pos (by omega)]

/-- C12. A `getCached(k)` that follows `setCache(k, p)` before the clock has
advanced beyond the timeout returns exactly `p` (in particular at the very
clock value of the store, under the configured timeout), and `setCache(k, p)`
leaves the entry of every other key as it was. -/
theorem getCached_after_setCache {α : Type} (cfg : Config) (cache : Cache α) (key : String)
    (p : α) (t now : Int) (h : now - t ≤ cfg.cacheTimeout) :
    (getCached cfg (setCache cache t key p) now key).1 = some p ∧
    (getCached {} (setCache cache t key p) t key).1 = some p ∧
    (∀ k1, k1 ≠ key → mapGet k1 (setCache cache t key p) = mapGet k1 cache) := by
  have hget : mapGet key (setCache cache t key p) = some { data := p, timestamp := t } :=
    mapGet_mapSet_self _ _ _
  refine ⟨?_, ?_, ?_⟩
  · rw [getCached_of_entry _ _ _ _ _ hget]
    have : ¬ (now - t > cfg.cacheTimeout) := by omega
    simp [this]
  · rw [getCached_of_entry _ _ _ _ _ hget]
    simp
  · intro k1 hk
    exact mapGet_mapSet_other _ _ _ _ hk

/-- C12, on an empty cache with a lookup 10 seconds after the store. -/
theorem getCached_after_setCache_witness :
    (10000 : Int) - 0 ≤ ({} : Config).cacheTimeout ∧
    (getCached {} (setCache ([] : Cache Nat) 0 "scoreboard_2024_2_1" 7) 10000
        "scoreboard_2024_2_1").1 = some 7 :=
  ⟨by decide, (getCached_after_setCache {} [] "scoreboard_2024_2_1" 7 0 10000 (by decide)).1⟩

/-- C13. When `getCached(k)` finds an entry older than the timeout it returns
absent and removes `k` from the store, the other keys keeping their entries;
after that every `getCached(k)`, at any clock value and after any calls that
do not store under `k`, returns absent; and a `getCached` that returns a
payload leaves the store unchanged. -/
theorem getCached_expiry {α : Type} (cfg : Config) (cache : Cache α) (key : String)
    (e : CacheEntry α) (now : Int) (h : mapGet key cache = some e)
    (hold : now - e.timestamp > cfg.cacheTimeout) :
    (getCached cfg cache now key).1 = none ∧
    mapGet key (getCached cfg cache now key).2 = none ∧
    (∀ k1, k1 ≠ key → mapGet k1 (getCached cfg cache now key).2 = mapGet k1 cache) ∧
    (∀ (ops : List (CacheOp α)) (now2 : Int), (∀ op ∈ ops, op.sets key = false) →
      (getCached cfg (runCacheOps cfg (getCached cfg cache now key).2 ops) now2 key).1 = none) ∧
    (∀ (c : Cache α) (k1 : String) (n : Int) (p : α),
      (getCached cfg c n k1).1 = some p → (getCached cfg c n k1).2 = c) := by
  have hrun : getCached cfg cache now key = (none, mapDelete key cache) := by
    rw [getCached_of_entry _ _ _ _ _ h]; simp [hold]
  refine ⟨?_, ?_, ?_, ?_, ?_⟩
  · rw [hrun]
  · rw [hrun]; exact mapGet_mapDelete_self _ _
  · intro k1 hk
    rw [hrun]; exact mapGet_mapDelete_other _ _ _ hk
  · intro ops now2 hops
    have habs : mapGet key (getCached cfg cache now key).2 = none := by
      rw [hrun]; exact mapGet_mapDelete_self _ _
    rw [getCached_of_absent _ _ _ _ (runCacheOps_keeps_absent cfg key ops _ habs hops)]
  · intro c k1 n p hp
    cases hk : mapGet k1 c with
    | none => rw [getCached_of_absent _ _ _ _ hk]
    | some e1 =>
      rw [getCached_of_entry _ _ _ _ _ hk] at hp ⊢
      split
      · rename_i hgt
        simp [hgt] at hp
      · rfl

/-- C13, on an entry stored at 0 and looked up at 30001, then again at 5 after
a lookup and a store under another key. -/
theorem getCached_expiry_witness :
    (getCached {} [("k", ({ data := 7, timestamp := 0 } : CacheEntry Nat))] 30001 "k").1 = none ∧
    (getCached {} (runCacheOps {}
        (getCached {} [("k", ({ data := 7, timestamp := 0 } : CacheEntry Nat))] 30001 "k").2
        [.getCached "k" 40000, .setCache "j" 40000 9]) 5 "k").1 = none :=
  ⟨(getCached_expiry {} [("k", { data := 7, timestamp := 0 })] "k" { data := 7, timestamp := 0 }
      30001 rfl (by decide)).1,
   (getCached_expiry {} [("k", { data := 7, timestamp := 0 })] "k" { data := 7, timestamp := 0 }
      30001 rfl (by decide)).2.2.2.1 [.getCached "k" 40000, .setCache "j" 40000 9] 5
      (by decide)⟩

/-! ## `fetchWithRetry`: lemmas -/

theorem fetchLoop_json (cfg : Config) (net : Nat → Attempt) (attempts : Int) (rem i : Nat)
    (d : JVal) (h : net i = .json d) :
    fetchLoop cfg net attempts (rem + 1) i =
      { result := some (.success d), requests := 1, waits := [] } := by
  simp [fetchLoop, h]

theorem fetchLoop_failed (cfg : Config) (net : Nat → Attempt) (attempts : Int) (rem i : Nat)
    (h : (net i).failed = true) :
    fetchLoop cfg net attempts (rem + 1) i =
      if (i : Int) = attempts - 1 then
        { result := some (.failure (net i).message true), requests := 1, waits := [] }
      else
        { result := (fetchLoop cfg net attempts rem (i + 1)).result,
          requests := (fetchLoop cfg net attempts rem (i + 1)).requests + 1,
          waits := cfg.retryDelay * ((i : Int) + 1) ::
            (fetchLoop cfg net attempts rem (i + 1)).waits } := by
  cases hn : net i with
  | json d => rw [hn] at h; cases h
  | httpError status => simp [fetchLoop, hn]
  | rejected message => simp [fetchLoop, hn]

theorem fetchLoop_shape (cfg : Config) (net : Nat → Attempt) (n : Nat) :
    ∀ rem i : Nat, rem + i = n →
      (fetchLoop cfg net (n : Int) rem i).requests ≤ rem ∧
      (1 ≤ rem → 1 ≤ (fetchLoop cfg net (n : Int) rem i).requests ∧
        (fetchLoop cfg net (n : Int) rem i).result.isSome = true) ∧
      (fetchLoop cfg net (n : Int) rem i).waits =
        (List.range' i ((fetchLoop cfg net (n : Int) rem i).requests - 1)).map
          (fun (k : Nat) => cfg.retryDelay * ((k : Int) + 1)) := by
  intro rem
  induction rem with
  | zero =>
    intro i _
    simp [fetchLoop]
  | succ rem ih =>
    intro i hi
    cases hf : (net i).failed with
    | false =>
      cases hn : net i with
      | json d => rw [fetchLoop_json cfg net _ rem i d hn]; simp
      | httpError status => rw [hn] at hf; cases hf
      | rejected message => rw [hn] at hf; cases hf
    | true =>
      rw [fetchLoop_failed cfg net _ rem i hf]
      by_cases hlast : (i : Int) = (n : Int) - 1
      · rw [if_pos hlast]; simp
      · rw [if_neg hlast]
        have hrem : 1 ≤ rem := by omega
        obtain ⟨h1, h2, h3⟩ := ih (i + 1) (by omega)
        obtain ⟨h4, h5⟩ := h2 hrem
        refine ⟨by simp only; omega, fun _ => ⟨by simp only; omega, h5⟩, ?_⟩
        simp only [Nat.add_sub_cancel]
        rw [h3]
        obtain ⟨q, hq⟩ : ∃ q, (fetchLoop cfg net (n : Int) rem (i + 1)).requests = q + 1 :=
          ⟨(fetchLoop cfg net (n : Int) rem (i + 1)).requests - 1, by omega⟩
        rw [hq]
        simp [List.range'_succ]

theorem fetchLoop_all_failed (cfg : Config) (net : Nat → Attempt) (n : Nat) :
    ∀ rem i : Nat, rem + 1 + i = n → (∀ j, i ≤ j → j < n → (net j).failed = true) →
      (fetchLoop cfg net (n : Int) (rem + 1) i).result =
        some (.failure (net (n - 1)).message true) ∧
      (fetchLoop cfg net (n : Int) (rem + 1) i).requests = rem + 1 := by
  intro rem
  induction rem with
  | zero =>
    intro i hi hall
    have hlast : (i : Int) = (n : Int) - 1 := by omega
    have hin : i = n - 1 := by omega
    rw [fetchLoop_failed cfg net _ 0 i (hall i (Nat.le_refl _) (by omega)), if_pos hlast, hin]
    exact ⟨rfl, rfl⟩
  | succ rem ih =>
    intro i hi hall
    have hlast : ¬ (i : Int) = (n : Int) - 1 := by omega
    rw [fetchLoop_failed cfg net _ (rem + 1) i (hall i (Nat.le_refl _) (by omega)), if_neg hlast]
    obtain ⟨h1, h2⟩ := ih (i + 1) (by omega) (fun j hj hjn => hall j (by omega) hjn)
    exact ⟨h1, by simp only [h2]⟩

theorem fetchLoop_first_success (cfg : Config) (net : Nat → Attempt) (n j : Nat) (d : JVal)
    (hj : j < n) (hd : net j = .json d) :
    ∀ rem i : Nat, rem + 1 + i = n → i ≤ j → (∀ k, i ≤ k → k < j → (net k).failed = true) →
      (fetchLoop cfg net (n : Int) (rem + 1) i).result = some (.success d) ∧
      (fetchLoop cfg net (n : Int) (rem + 1) i).requests = j - i + 1 := by
  intro rem
  induction rem with
  | zero =>
    intro i hi hij _
    have : i = j := by omega
    subst this
    rw [fetchLoop_json cfg net _ 0 i d hd]
    simp
  | succ rem ih =>
    intro i hi hij hall
    by_cases heq : i = j
    · subst heq
      rw [fetchLoop_json cfg net _ (rem + 1) i d hd]
      simp
    · have hlast : ¬ (i : Int) = (n : Int) - 1 := by omega
      rw [fetchLoop_failed cfg net _ (rem + 1) i (hall i (Nat.le_refl _) (by omega)),
        if_neg hlast]
      obtain ⟨h1, h2⟩ := ih (i + 1) (by omega) (by omega) (fun k hk hkj => hall k (by omega) hkj)
      refine ⟨h1, ?_⟩
      simp only [h2]
      omega

/-! ## `fetchWithRetry`: the contract -/

/-- C14. For an attempt count `n >= 1`, `fetchWithRetry` always returns a result
object (it never raises) after at most `n` requests; it stops at the first
successful request, returning success with that request's data; and when all
`n` requests fail it returns, after exactly `n` requests, a failure carrying
the error message of the last one and `fallback = true`. -/
theorem fetchWithRetry_outcome (cfg : Config) (net : Nat → Attempt) (n : Nat) (hn : 1 ≤ n) :
    (fetchWithRetry cfg net n).requests ≤ n ∧
    (fetchWithRetry cfg net n).result.isSome = true ∧
    (∀ j d, j < n → net j = .json d → (∀ k, k < j → (net k).failed = true) →
      (fetchWithRetry cfg net n).result = some (.success d) ∧
      (fetchWithRetry cfg net n).requests = j + 1) ∧
    ((∀ k, k < n → (net k).failed = true) →
      (fetchWithRetry cfg net n).result = some (.failure (net (n - 1)).message true) ∧
      (fetchWithRetry cfg net n).requests = n) := by
  have htn : ((n : Int)).toNat = n := Int.toNat_ofNat n
  obtain ⟨m, rfl⟩ : ∃ m, n = m + 1 := ⟨n - 1, by omega⟩
  unfold fetchWithRetry
  rw [htn]
  obtain ⟨h1, h2, _⟩ := fetchLoop_shape cfg net (m + 1) (m + 1) 0 rfl
  refine ⟨h1, (h2 (by omega)).2, ?_, ?_⟩
  · intro j d hj hd hall
    have := fetchLoop_first_success cfg net (m + 1) j d hj hd m 0 rfl (Nat.zero_le _)
      (fun k _ hk => hall k hk)
    simpa using this
  · intro hall
    have := fetchLoop_all_failed cfg net (m + 1) m 0 rfl (fun k _ hk => hall k hk)
    simpa using this

/-- C14, on three attempts of which the second succeeds. -/
theorem fetchWithRetry_outcome_witness :
    (1 : Nat) ≤ 3 ∧
    (fetchWithRetry {} (fun i => if i = 1 then .json .null else .httpError 503) 3).requests ≤ 3 :=
  ⟨by decide,
   (fetchWithRetry_outcome {} (fun i => if i = 1 then .json .null else .httpError 503) 3
    (by decide)).1⟩

theorem two_mul_sum_range_succ (m : Nat) :
    2 * ((List.range m).map (fun (k : Nat) => ((k : Int) + 1))).sum = (m : Int) * ((m : Int) + 1) := by
  induction m with
  | zero => simp
  | succ m ih =>
    rw [List.range_succ, List.map_append, List.sum_append, mul_add, ih]
    simp only [List.map_cons, List.map_nil, List.sum_cons, List.sum_nil]
    push_cast
    ring

theorem sum_scaled_range (d : Int) (m : Nat) :
    ((List.range m).map (fun (k : Nat) => d * ((k : Int) + 1))).sum =
      d * ((List.range m).map (fun (k : Nat) => ((k : Int) + 1))).sum := by
  induction m with
  | zero => simp
  | succ m ih =>
    rw [List.range_succ, List.map_append, List.sum_append, List.map_append, List.sum_append, ih]
    simp only [List.map_cons, List.map_nil, List.sum_cons, List.sum_nil]
    ring

/-- C15. The waits of `fetchWithRetry` grow linearly: the wait after the i-th
failed attempt (counting from 1) is `i * retryDelay`, one wait per request but
the last (so none follows the final attempt); with the configured delay of
1000 ms a run in which all `n` attempts fail waits 1000, 2000, ... up to
`1000 * (n - 1)`, that is `1000 * n(n-1)/2` ms in total, 3000 ms for `n = 3`. -/
theorem fetchWithRetry_waits (cfg : Config) (net : Nat → Attempt) (n : Nat) (hn : 1 ≤ n) :
    (fetchWithRetry cfg net n).waits =
      (List.range ((fetchWithRetry cfg net n).requests - 1)).map
        (fun (k : Nat) => cfg.retryDelay * ((k : Int) + 1)) ∧
    ((∀ k, k < n → (net k).failed = true) →
      (fetchWithRetry {} net n).waits =
        (List.range (n - 1)).map (fun (k : Nat) => 1000 * ((k : Int) + 1)) ∧
      (fetchWithRetry {} net n).waits.sum = 1000 * ((n : Int) * ((n : Int) - 1) / 2)) ∧
    (fetchWithRetry {} (fun _ => .httpError 503) 3).waits = [1000, 2000] ∧
    (fetchWithRetry {} (fun _ => .httpError 503) 3).waits.sum = 3000 := by
  have htn : ((n : Int)).toNat = n := Int.toNat_ofNat n
  have hshape : ∀ c : Config, (fetchWithRetry c net n).waits =
      (List.range ((fetchWithRetry c net n).requests - 1)).map
        (fun (k : Nat) => c.retryDelay * ((k : Int) + 1)) := by
    intro c
    unfold fetchWithRetry
    rw [htn]
    obtain ⟨_, _, h3⟩ := fetchLoop_shape c net n n 0 (by omega)
    rw [h3, List.range_eq_range']
  refine ⟨hshape cfg, ?_, by decide, by decide⟩
  intro hall
  obtain ⟨m, rfl⟩ : ∃ m, n = m + 1 := ⟨n - 1, by omega⟩
  have hreq : (fetchWithRetry {} net ((m + 1 : Nat) : Int)).requests = m + 1 := by
    have := fetchLoop_all_failed {} net (m + 1) m 0 rfl (fun k _ hk => hall k hk)
    unfold fetchWithRetry
    rw [htn]
    exact this.2
  have hw : (fetchWithRetry {} net ((m + 1 : Nat) : Int)).waits =
      (List.range m).map (fun (k : Nat) => 1000 * ((k : Int) + 1)) := by
    rw [hshape {}, hreq]
    rfl
  refine ⟨by simpa using hw, ?_⟩
  rw [hw, sum_scaled_range]
  have h2 := two_mul_sum_range_succ m
  have hprod : ((m + 1 : Nat) : Int) * (((m + 1 : Nat) : Int) - 1) =
      2 * ((List.range m).map (fun (k : Nat) => ((k : Int) + 1))).sum := by
    rw [h2]; push_cast; ring
  rw [hprod, Int.mul_ediv_cancel_left _ (by decide)]

/-- C15, on the configured three attempts all failing with status 503. -/
theorem fetchWithRetry_waits_witness :
    (1 : Nat) ≤ 3 ∧
    (fetchWithRetry {} (fun _ => .httpError 503) 3).waits.sum =
      1000 * (((3 : Nat) : Int) * (((3 : Nat) : Int) - 1) / 2) :=
  ⟨by decide,
   ((fetchWithRetry_waits {} (fun _ => .httpError 503) 3 (by decide)).2.1
    (fun _ _ => rfl)).2⟩

/-! ## `getScoreboard`: memoisation -/

theorem getScoreboard_hit (cfg : Config) (cache : Cache (List Game)) (now later : Int)
    (net : Nat → Attempt) (week : Option Int) (season seasonType : Int)
    (e : CacheEntry (List Game))
    (h : mapGet (cacheKey week season seasonType) cache = some e)
    (hfresh : now - e.timestamp ≤ cfg.cacheTimeout) :
    getScoreboard cfg cache now later net week season seasonType =
      { result := .ok { success := true, data := e.data, cached := true },
        cache := cache, requests := 0 } := by
  have hnot : ¬ (now - e.timestamp > cfg.cacheTimeout) := by omega
  simp [getScoreboard, getCached_of_entry _ _ _ _ _ h, hnot]

theorem getScoreboard_miss (cfg : Config) (cache c1 : Cache (List Game)) (now later : Int)
    (net : Nat → Attempt) (week : Option Int) (season seasonType : Int)
    (hlook : getCached cfg cache now (cacheKey week season seasonType) = (none, c1)) :
    getScoreboard cfg cache now later net week season seasonType =
      match (fetchWithRetry cfg net cfg.retryAttempts).result with
      | none => { result := .error .typeError, cache := c1,
                  requests := (fetchWithRetry cfg net cfg.retryAttempts).requests }
      | some (.success data) =>
        match parseScoreboard cfg data with
        | .error e => { result := .error e, cache := c1,
                        requests := (fetchWithRetry cfg net cfg.retryAttempts).requests }
        | .ok games =>
          { result := .ok { success := true, data := games },
            cache := setCache c1 later (cacheKey week season seasonType) games,
            requests := (fetchWithRetry cfg net cfg.retryAttempts).requests }
      | some (.failure error _) =>
        { result := .ok { success := false, error := some error, data := [], fallback := true },
          cache := c1, requests := (fetchWithRetry cfg net cfg.retryAttempts).requests } := by
  simp only [getScoreboard, hlook]

theorem getScoreboard_stored_of_miss (cfg : Config) (cache c1 : Cache (List Game))
    (now later : Int) (net : Nat → Attempt) (week : Option Int) (season seasonType : Int)
    (r : ScoreboardResult)
    (hlook : getCached cfg cache now (cacheKey week season seasonType) = (none, c1))
    (h : (getScoreboard cfg cache now later net week season seasonType).result = .ok r)
    (hs : r.success = true) :
    mapGet (cacheKey week season seasonType)
        (getScoreboard cfg cache now later net week season seasonType).cache =
          some { data := r.data, timestamp := later } := by
  rw [getScoreboard_miss cfg cache c1 now later net week season seasonType hlook] at h ⊢
  cases hrun : (fetchWithRetry cfg net cfg.retryAttempts).result with
  | none => simp [hrun] at h
  | some fr =>
    cases fr with
    | success data =>
      cases hp : parseScoreboard cfg data with
      | error err => simp [hrun, hp] at h
      | ok games =>
        simp only [hrun, hp] at h ⊢
        cases h
        exact mapGet_mapSet_self _ _ _
    | failure err fb =>
      simp only [hrun] at h
      cases h
      cases hs

theorem getScoreboard_stored (cfg : Config) (cache : Cache (List Game)) (now later : Int)
    (net : Nat → Attempt) (week : Option Int) (season seasonType : Int) (r : ScoreboardResult)
    (h : (getScoreboard cfg cache now later net week season seasonType).result = .ok r)
    (hs : r.success = true) :
    ∃ t0, mapGet (cacheKey week season seasonType)
        (getScoreboard cfg cache now later net week season seasonType).cache =
          some { data := r.data, timestamp := t0 } ∧
      (r.cached = false → t0 = later) := by
  cases hk : mapGet (cacheKey week season seasonType) cache with
  | some e =>
    by_cases hold : now - e.timestamp > cfg.cacheTimeout
    · have hlook : getCached cfg cache now (cacheKey week season seasonType) =
          (none, mapDelete (cacheKey week season seasonType) cache) := by
        rw [getCached_of_entry _ _ _ _ _ hk, if_pos hold]
      exact ⟨later, getScoreboard_stored_of_miss cfg cache _ now later net week season
        seasonType r hlook h hs, fun _ => rfl⟩
    · have hfresh : now - e.timestamp ≤ cfg.cacheTimeout := by omega
      rw [getScoreboard_hit cfg cache now later net week season seasonType e hk hfresh] at h ⊢
      simp only [Except.ok.injEq] at h
      subst h
      exact ⟨e.timestamp, hk, fun hc => by cases hc⟩
  | none =>
    have hlook : getCached cfg cache now (cacheKey week season seasonType) = (none, cache) :=
      getCached_of_absent _ _ _ _ hk
    exact ⟨later, getScoreboard_stored_of_miss cfg cache _ now later net week season
      seasonType r hlook h hs, fun _ => rfl⟩

theorem getScoreboard_fetch_failed (cfg : Config) (cache : Cache (List Game)) (now later : Int)
    (net : Nat → Attempt) (week : Option Int) (season seasonType : Int) (err : String)
    (fb : Bool)
    (hmiss : (getCached cfg cache now (cacheKey week season seasonType)).1 = none)
    (hfail : (fetchWithRetry cfg net cfg.retryAttempts).result = some (.failure err fb)) :
    getScoreboard cfg cache now later net week season seasonType =
      { result := .ok { success := false, error := some err, data := [], fallback := true },
        cache := (getCached cfg cache now (cacheKey week season seasonType)).2,
        requests := (fetchWithRetry cfg net cfg.retryAttempts).requests } := by
  simp [getScoreboard, hmiss, hfail]

theorem getCached_stores_nothing {α : Type} (cfg : Config) (cache : Cache α) (now : Int)
    (key k1 : String) (e : CacheEntry α)
    (h : mapGet k1 (getCached cfg cache now key).2 = some e) : mapGet k1 cache = some e := by
  cases hk : mapGet key cache with
  | none => rw [getCached_of_absent _ _ _ _ hk] at h; exact h
  | some e0 =>
    rw [getCached_of_entry _ _ _ _ _ hk] at h
    split at h
    · by_cases hkk : k1 = key
      · subst hkk
        rw [mapGet_mapDelete_self] at h
        cases h
      · rw [mapGet_mapDelete_other _ _ _ hkk] at h
        exact h
    · exact h

/-- C16. After a successful `getScoreboard(week, season, seasonType)` the game
list is in the cache under the key of the three arguments, stamped with the
clock value of the store; every further call with the same arguments at a
clock value within the timeout of that stamp returns the same game list with
`cached: true`, makes no request and leaves the cache as it is. A call that
misses the cache and whose fetch fails (all configured attempts failing)
returns `success = false` with an empty data list and `fallback = true`, and
stores nothing: every entry of the cache afterwards was there before. -/
theorem getScoreboard_memoized (cfg : Config) (cache : Cache (List Game)) (now later : Int)
    (net : Nat → Attempt) (week : Option Int) (season seasonType : Int) :
    (∀ r, (getScoreboard cfg cache now later net week season seasonType).result = .ok r →
      r.success = true →
      ∃ t0, mapGet (cacheKey week season seasonType)
          (getScoreboard cfg cache now later net week season seasonType).cache =
            some { data := r.data, timestamp := t0 } ∧
        (r.cached = false → t0 = later) ∧
        ∀ (now2 later2 : Int) (net2 : Nat → Attempt), now2 - t0 ≤ cfg.cacheTimeout →
          getScoreboard cfg (getScoreboard cfg cache now later net week season seasonType).cache
              now2 later2 net2 week season seasonType =
            { result := .ok { success := true, data := r.data, cached := true },
              cache := (getScoreboard cfg cache now later net week season seasonType).cache,
              requests := 0 }) ∧
    (∀ n : Nat, cfg.retryAttempts = (n : Int) → 1 ≤ n → (∀ k, k < n → (net k).failed = true) →
      (getCached cfg cache now (cacheKey week season seasonType)).1 = none →
      (getScoreboard cfg cache now later net week season seasonType).result =
        .ok { success := false, error := some (net (n - 1)).message, data := [],
              fallback := true } ∧
      ∀ k1 e, mapGet k1 (getScoreboard cfg cache now later net week season seasonType).cache =
        some e → mapGet k1 cache = some e) := by
  constructor
  · intro r h hs
    obtain ⟨t0, h1, h2⟩ := getScoreboard_stored cfg cache now later net week season seasonType r h hs
    refine ⟨t0, h1, h2, ?_⟩
    intro now2 later2 net2 hfresh
    exact getScoreboard_hit cfg _ now2 later2 net2 week season seasonType _ h1 hfresh
  · intro n hn h1 hall hmiss
    have hfail : (fetchWithRetry cfg net cfg.retryAttempts).result =
        some (.failure (net (n - 1)).message true) := by
      obtain ⟨m, rfl⟩ : ∃ m, n = m + 1 := ⟨n - 1, by omega⟩
      rw [hn]
      unfold fetchWithRetry
      rw [Int.toNat_ofNat]
      exact (fetchLoop_all_failed cfg net (m + 1) m 0 rfl (fun k _ hk => hall k hk)).1
    rw [getScoreboard_fetch_failed cfg cache now later net week season seasonType _ _ hmiss hfail]
    exact ⟨rfl, fun k1 e he => getCached_stores_nothing cfg cache now _ k1 e he⟩

/-- C16, on an empty cache: a fetch at clock value 0 stored at 100 is served
from the cache at 30100 with no request, whatever the network would answer. -/
theorem getScoreboard_memoized_witness :
    (getScoreboard {}
        (getScoreboard {} [] 0 100 (fun _ => .json scenarioPayload) (some 1) 2024 2).cache
        30100 30200 (fun _ => .httpError 503) (some 1) 2024 2).requests = 0 :=
  match (getScoreboard_memoized {} [] 0 100 (fun _ => .json scenarioPayload) (some 1) 2024 2).1
      _ rfl rfl with
  | ⟨_, _, ht, hrun⟩ => by rw [hrun 30100 30200 (fun _ => .httpError 503) (by rw [ht rfl]; decide)]

/-! ## The week calculator: lemmas -/

theorem first_thursday_exists (day : Int) :
    ∃ k : Nat, k ≤ 6 ∧ getDay (day + (k : Int)) = 4 ∧
      ∀ j : Nat, j < k → getDay (day + (j : Int)) ≠ 4 := by
  have hr : (day + 4) % 7 = 0 ∨ (day + 4) % 7 = 1 ∨ (day + 4) % 7 = 2 ∨ (day + 4) % 7 = 3 ∨
      (day + 4) % 7 = 4 ∨ (day + 4) % 7 = 5 ∨ (day + 4) % 7 = 6 := by omega
  rcases hr with h | h | h | h | h | h | h
  · exact ⟨4, by omega, by unfold getDay; omega, fun j hj => by unfold getDay; omega⟩
  · exact ⟨3, by omega, by unfold getDay; omega, fun j hj => by unfold getDay; omega⟩
  · exact ⟨2, by omega, by unfold getDay; omega, fun j hj => by unfold getDay; omega⟩
  · exact ⟨1, by omega, by unfold getDay; omega, fun j hj => by unfold getDay; omega⟩
  · exact ⟨0, by omega, by unfold getDay; omega, fun j hj => by unfold getDay; omega⟩
  · exact ⟨6, by omega, by unfold getDay; omega, fun j hj => by unfold getDay; omega⟩
  · exact ⟨5, by omega, by unfold getDay; omega, fun j hj => by unfold getDay; omega⟩

theorem firstThursdayLoop_finds (zone : Zone) :
    ∀ (k fuel : Nat) (day : Int), getDay (day + (k : Int)) = 4 →
      (∀ j : Nat, j < k → getDay (day + (j : Int)) ≠ 4) →
      (∀ j : Nat, j ≤ k → validTime (zone (day + (j : Int))) = true) → k < fuel →
      firstThursdayLoop zone fuel day = some (day + (k : Int)) := by
  intro k
  induction k with
  | zero =>
    intro fuel day h4 _ hv hf
    obtain ⟨f, rfl⟩ : ∃ f, fuel = f + 1 := ⟨fuel - 1, by omega⟩
    have hv0 := hv 0 (Nat.le_refl _)
    simp only [Nat.cast_zero, add_zero] at h4 hv0 ⊢
    simp [firstThursdayLoop, hv0, h4]
  | succ k ih =>
    intro fuel day h4 hmin hv hf
    obtain ⟨f, rfl⟩ : ∃ f, fuel = f + 1 := ⟨fuel - 1, by omega⟩
    have hv0 := hv 0 (Nat.zero_le _)
    have h0 := hmin 0 (Nat.succ_pos _)
    simp only [Nat.cast_zero, add_zero] at h0 hv0
    have hrec := ih f (day + 1)
      (by rw [← h4]; congr 1; push_cast; ring)
      (fun j hj => by
        have := hmin (j + 1) (by omega)
        have e : day + 1 + (j : Int) = day + ((j + 1 : Nat) : Int) := by push_cast; ring
        rw [e]; exact this)
      (fun j hj => by
        have := hv (j + 1) (by omega)
        have e : day + 1 + (j : Int) = day + ((j + 1 : Nat) : Int) := by push_cast; ring
        rw [e]; exact this)
      (by omega)
    have e : day + 1 + (k : Int) = day + ((k + 1 : Nat) : Int) := by push_cast; ring
    rw [e] at hrec
    simp [firstThursdayLoop, hv0, h0, hrec]

theorem firstThursdayLoop_thursday (zone : Zone) :
    ∀ (fuel : Nat) (day ft : Int), firstThursdayLoop zone fuel day = some ft →
      getDay ft = 4 ∧ day ≤ ft := by
  intro fuel
  induction fuel with
  | zero => intro day ft h; cases h
  | succ fuel ih =>
    intro day ft h
    unfold firstThursdayLoop at h
    split at h
    · cases h
    · split at h
      · obtain ⟨h1, h2⟩ := ih (day + 1) ft h
        exact ⟨h1, by omega⟩
      · rename_i h4
        cases h
        simp only [bne_iff_ne, ne_eq, not_not] at h4
        exact ⟨h4, le_refl _⟩

theorem getCurrentNFLWeek_of_thursday (zone : Zone) (fuel : Nat) (now season ft : Int)
    (h : firstThursdayLoop zone fuel (septemberFirst season) = some ft) :
    getCurrentNFLWeek zone fuel now season = some (clampWeek ((now - zone ft) / 604800000 + 1)) := by
  unfold getCurrentNFLWeek clampWeek
  rw [h]
  simp only
  have hnest : (now - zone ft) / (1000 * 60 * 60 * 24) / 7 = (now - zone ft) / 604800000 := by
    omega
  rw [hnest]
  split
  · congr 1; omega
  · split
    · congr 1; omega
    · congr 1; omega

/-! ## The week calculator: the contract -/

/-- C17. Whatever the zone, the season and the current time, a week that
`getCurrentNFLWeek` returns is an integer between 1 and 18; it does return one
whenever the first seven days of September of the season are within the range
of `Date` (the search then needs at most 7 evaluations of the loop condition);
the week is 1 at every time before the first Thursday of September and 18 at
every time 18 weeks or more after it. -/
theorem getCurrentNFLWeek_range (zone : Zone) (season : Int)
    (hvalid : ∀ j : Nat, j ≤ 6 → validTime (zone (septemberFirst season + (j : Int))) = true) :
    (∀ (fuel : Nat) (now w : Int), getCurrentNFLWeek zone fuel now season = some w →
      1 ≤ w ∧ w ≤ 18) ∧
    (∃ ft : Int, getDay ft = 4 ∧ septemberFirst season ≤ ft ∧ ft ≤ septemberFirst season + 6 ∧
      ∀ (fuel : Nat) (now : Int), 7 ≤ fuel →
        firstThursdayLoop zone fuel (septemberFirst season) = some ft ∧
        (∃ w, getCurrentNFLWeek zone fuel now season = some w) ∧
        (now < zone ft → getCurrentNFLWeek zone fuel now season = some 1) ∧
        (18 * 604800000 ≤ now - zone ft → getCurrentNFLWeek zone fuel now season = some 18)) := by
  constructor
  · intro fuel now w h
    cases hft : firstThursdayLoop zone fuel (septemberFirst season) with
    | none => simp [getCurrentNFLWeek, hft] at h
    | some ft =>
      rw [getCurrentNFLWeek_of_thursday zone fuel now season ft hft] at h
      cases h
      unfold clampWeek
      omega
  · obtain ⟨k, hk6, hk4, hkmin⟩ := first_thursday_exists (septemberFirst season)
    refine ⟨septemberFirst season + (k : Int), hk4, by omega, by omega, ?_⟩
    intro fuel now hfuel
    have hft := firstThursdayLoop_finds zone k fuel (septemberFirst season) hk4 hkmin
      (fun j hj => hvalid j (by omega)) (by omega)
    have hweek := getCurrentNFLWeek_of_thursday zone fuel now season _ hft
    refine ⟨hft, ⟨_, hweek⟩, ?_, ?_⟩
    · intro hbefore
      rw [hweek]; congr 1; unfold clampWeek; omega
    · intro hafter
      rw [hweek]; congr 1; unfold clampWeek; omega

/-- C17, for season 2024 in universal time: one millisecond before Thursday
5 September 2024 (day number 19971) the week is 1. -/
theorem getCurrentNFLWeek_range_witness :
    getCurrentNFLWeek utcZone 7 (19971 * 86400000 - 1) 2024 = some 1 ∧
    (∀ w, getCurrentNFLWeek utcZone 7 (19971 * 86400000 - 1) 2024 = some w → 1 ≤ w ∧ w ≤ 18) :=
  ⟨by decide,
   fun w => (getCurrentNFLWeek_range utcZone 2024 (by decide)).1 7 (19971 * 86400000 - 1) w⟩

/-- C18. When the first seven days of September of the season are within the
range of `Date`, the search of `getCurrentNFLWeek` ends on the first Thursday
of September: a day-of-month between 1 and 7, no earlier September day being a
Thursday, reached within 6 steps; the week returned is
`floor((now - firstThursday) / 7 days) + 1` clamped to 1..18, where
`firstThursday` is the time value the stepped Date holds on that Thursday, the
two nested floors of the source (whole days, then whole weeks) giving the same
value as the single floor, also when `now` is before the first Thursday. For
2024 the first Thursday is 5 September. The time of day of `firstThursday`
counts: in America/Santiago in 2023 the stepped Date stands at 01:00 local
time on Thursday 7 September and the week at clock value 1694662200000 is 1,
where local midnight of that Thursday would give 2. -/
theorem getCurrentNFLWeek_formula (zone : Zone) (season : Int)
    (hvalid : ∀ j : Nat, j ≤ 6 → validTime (zone (septemberFirst season + (j : Int))) = true) :
    (∃ k : Nat, k ≤ 6 ∧ getDay (septemberFirst season + (k : Int)) = 4 ∧
      (∀ j : Nat, j < k → getDay (septemberFirst season + (j : Int)) ≠ 4) ∧
      ∀ (fuel : Nat) (now : Int), k < fuel →
        firstThursdayLoop zone fuel (septemberFirst season) =
          some (septemberFirst season + (k : Int)) ∧
        getCurrentNFLWeek zone fuel now season =
          some (clampWeek ((now - zone (septemberFirst season + (k : Int))) /
            (7 * 86400000) + 1))) ∧
    (∀ x : Int, x / (1000 * 60 * 60 * 24) / 7 = x / (7 * 86400000)) ∧
    firstThursdayLoop utcZone 7 (septemberFirst 2024) = some (septemberFirst 2024 + 4) ∧
    (firstThursdayLoop santiagoStepped 7 (septemberFirst 2023) = some 19607 ∧
      getCurrentNFLWeek santiagoStepped 7 1694662200000 2023 = some 1 ∧
      getCurrentNFLWeek santiagoMidnight 7 1694662200000 2023 = some 2) := by
  refine ⟨?_, fun x => by omega, by decide, by decide, by decide, by decide⟩
  obtain ⟨k, hk6, hk4, hkmin⟩ := first_thursday_exists (septemberFirst season)
  refine ⟨k, hk6, hk4, hkmin, ?_⟩
  intro fuel now hfuel
  have hft := firstThursdayLoop_finds zone k fuel (septemberFirst season) hk4 hkmin
    (fun j hj => hvalid j (by omega)) hfuel
  exact ⟨hft, getCurrentNFLWeek_of_thursday zone fuel now season _ hft⟩

/-- C18, in America/Santiago for season 2023: the search ends on Thursday
7 September, where the stepped Date stands at 01:00 local time, and the week is
the single floor of the difference to that time value. -/
theorem getCurrentNFLWeek_formula_witness :
    ∃ k : Nat, k ≤ 6 ∧ getDay (septemberFirst 2023 + (k : Int)) = 4 ∧
      (∀ j : Nat, j < k → getDay (septemberFirst 2023 + (j : Int)) ≠ 4) ∧
      ∀ (fuel : Nat) (now : Int), k < fuel →
        firstThursdayLoop santiagoStepped fuel (septemberFirst 2023) =
          some (septemberFirst 2023 + (k : Int)) ∧
        getCurrentNFLWeek santiagoStepped fuel now 2023 =
          some (clampWeek ((now - santiagoStepped (septemberFirst 2023 + (k : Int))) /
            (7 * 86400000) + 1)) :=
  (getCurrentNFLWeek_formula santiagoStepped 2023 (by decide)).1

/-! ## The polling loop -/

theorem Poller.consistent_init : Poller.init.Consistent := by
  refine ⟨by simp [Poller.init], ?_, fun _ => rfl⟩
  intro h hh
  simp [Poller.init] at hh

theorem Poller.consistent_call (s : Poller) (c : PollerCall) (hs : s.Consistent) :
    (s.call c).Consistent := by
  obtain ⟨h1, h2, h3⟩ := hs
  cases c with
  | start =>
    simp only [Poller.call, Poller.start]
    cases hr : s.isRunning with
    | true => simpa [hr] using ⟨h1, h2, h3⟩
    | false =>
      have hnone : s.updateInterval = none := by
        cases hu : s.updateInterval with
        | none => rfl
        | some h =>
          have := h1.2 (by simp [hu])
          rw [hr] at this; cases this
      simp only [Bool.false_eq_true, if_false]
      refine ⟨by simp, ?_, by simp⟩
      intro h hh
      simp only [Option.some.injEq] at hh
      subst hh
      simp [h3 hnone]
  | stop =>
    simp only [Poller.call, Poller.stop]
    cases hu : s.updateInterval with
    | none =>
      simp only
      exact ⟨by simp [hu], by simp [hu], fun _ => h3 hu⟩
    | some h =>
      obtain ⟨hpos, _, ht⟩ := h2 h hu
      have hne : (h != 0) = true := by simp; omega
      simp only [hne, if_true]
      refine ⟨by simp, by simp, ?_⟩
      intro _
      simp [ht]

theorem Poller.consistent_after (calls : List PollerCall) : (Poller.after calls).Consistent := by
  unfold Poller.after
  have : ∀ (s : Poller), s.Consistent → (calls.foldl Poller.call s).Consistent := by
    induction calls with
    | nil => intro s hs; exact hs
    | cons c rest ih => intro s hs; exact ih _ (Poller.consistent_call s c hs)
  exact this _ Poller.consistent_init

theorem Poller.stop_clears (s : Poller) (hs : s.Consistent) :
    s.stop.1.timers = [] ∧ s.stop.1.updateInterval = none := by
  obtain ⟨_, h2, h3⟩ := hs
  cases hu : s.updateInterval with
  | none => simp [Poller.stop, hu, h3 hu]
  | some h =>
    obtain ⟨hpos, _, ht⟩ := h2 h hu
    have hne : (h != 0) = true := by simp; omega
    simp [Poller.stop, hu, hne, ht]

/-- C19. In the polling loop, `start()` while running changes nothing (no update
cycle, no timer); `start()` while stopped runs exactly one update cycle at once
and schedules exactly one repeating timer, and the loop is running; `stop()`
leaves the loop stopped and, in every state the calls reach, no timer live and
no handle held; `stop()` on a stopped loop changes nothing, and `stop; stop`
leaves the state `stop` leaves. -/
theorem poller_start_stop (s : Poller) :
    (s.isRunning = true → s.start = (s, [])) ∧
    (s.isRunning = false →
      s.start.1.cycles = s.cycles + 1 ∧
      s.start.1.timers = s.timers ++ [s.lastHandle + 1] ∧
      s.start.1.updateInterval = some (s.lastHandle + 1) ∧
      s.start.1.isRunning = true) ∧
    (s.stop.1.isRunning = false ∧ s.stop.1.cycles = s.cycles) ∧
    (s.Consistent → s.stop.1.timers = [] ∧ s.stop.1.updateInterval = none) ∧
    (s.isRunning = false → s.updateInterval = none → s.stop.1 = s) ∧
    s.stop.1.stop.1 = s.stop.1 ∧
    (∀ calls : List PollerCall, (Poller.after calls).stop.1.timers = [] ∧
      (Poller.after calls).stop.1.updateInterval = none) := by
  refine ⟨?_, ?_, ?_, ?_, ?_, ?_, fun calls =>
    Poller.stop_clears _ (Poller.consistent_after calls)⟩
  · intro h
    simp [Poller.start, h]
  · intro h
    simp [Poller.start, h]
  · constructor
    · simp [Poller.stop]
    · simp only [Poller.stop]
      cases s.updateInterval with
      | none => rfl
      | some h => simp only; split <;> rfl
  · exact Poller.stop_clears s
  · intro hr hu
    cases s
    simp only at hr hu
    subst hr hu
    rfl
  · cases hu : s.updateInterval with
    | none => simp [Poller.stop, hu]
    | some h =>
      by_cases hne : h = 0
      · subst hne
        simp [Poller.stop, hu]
      · have hb : (h != 0) = true := by simpa using hne
        simp [Poller.stop, hu, hb]

/-- C19, on the service as constructed: started, then started again. -/
theorem poller_start_stop_witness :
    Poller.init.start.1.isRunning = true ∧
    Poller.init.start.1.start = (Poller.init.start.1, []) :=
  ⟨rfl, (poller_start_stop Poller.init.start.1).1 rfl⟩

/-! ## Pick submission: lemmas -/

theorem objectEntries_perm {α : Type} (members : List (String × α)) :
    (objectEntries members).Perm members := by
  unfold objectEntries
  have hfun : (fun kv : String × α => (arrayIndex kv.1).isNone) =
      (fun kv => !(arrayIndex kv.1).isSome) := by
    funext kv
    cases arrayIndex kv.1 <;> rfl
  rw [hfun]
  exact ((List.perm_insertionSort _ _).append_right _).trans (List.filter_append_perm _ _)

theorem mem_insertRows (backend : SubmitBackend) (picks : List Pick) (i : Nat) (r : Pick)
    (h : r ∈ insertRows backend i picks) :
    ∃ p ∈ picks, r.user_id = p.user_id ∧ r.pool_id = p.pool_id ∧ r.game_id = p.game_id ∧
      r.week = p.week ∧ r.season = p.season ∧ r.picked_team_id = p.picked_team_id := by
  induction picks generalizing i with
  | nil => cases h
  | cons p rest ih =>
    simp only [insertRows, List.mem_cons] at h
    rcases h with h | h
    · subst h
      exact ⟨p, List.mem_cons_self _ _, rfl, rfl, rfl, rfl, rfl, rfl⟩
    · obtain ⟨q, hq, hrest⟩ := ih (i + 1) h
      exact ⟨q, List.mem_cons_of_mem _ hq, hrest⟩

theorem insertRows_map (backend : SubmitBackend) (picks : List Pick) (i : Nat) :
    (insertRows backend i picks).map (fun r => (r.game_id, r.picked_team_id)) =
      picks.map (fun r => (r.game_id, r.picked_team_id)) := by
  induction picks generalizing i with
  | nil => rfl
  | cons p rest ih => simp [insertRows, ih]

theorem mem_picksData (cfg : Config) (view : MakePicksView) (poolId : String) (p : Pick)
    (h : p ∈ MakePicks.picksData cfg view poolId) :
    p.user_id = view.userId ∧ p.pool_id = poolId ∧ p.week = view.currentWeek ∧
      p.season = cfg.currentSeason ∧
      ∃ e ∈ view.picks, p.game_id = .str e.1 ∧ p.picked_team_id = e.2 := by
  unfold MakePicks.picksData at h
  obtain ⟨e, he, rfl⟩ := List.mem_map.1 h
  exact ⟨rfl, rfl, rfl, rfl, e, (objectEntries_perm view.picks).mem_iff.1 he, rfl, rfl⟩

theorem submitPicks_table (cfg : Config) (view : MakePicksView) (table : List Pick)
    (backend : SubmitBackend) (poolId : String) (hpool : view.selectedPool = some poolId)
    (hcount : view.picks.length = view.games.length) (hsome : view.picks ≠ [])
    (hdel : backend.deleteError = none) (hins : backend.insertError = none) :
    MakePicks.submitPicks cfg view table backend =
      (some (.success (insertRows backend 0 (MakePicks.picksData cfg view poolId))),
        table.filter (fun r => !(r.user_id == view.userId && r.pool_id == poolId &&
          r.week == view.currentWeek && r.season == cfg.currentSeason)) ++
        insertRows backend 0 (MakePicks.picksData cfg view poolId)) := by
  have hne : MakePicks.picksData cfg view poolId ≠ [] := by
    intro h
    have hlen := congrArg List.length h
    simp only [MakePicks.picksData, List.length_map, List.length_nil] at hlen
    rw [(objectEntries_perm view.picks).length_eq] at hlen
    exact hsome (List.length_eq_zero.1 hlen)
  cases hd : MakePicks.picksData cfg view poolId with
  | nil => exact absurd hd hne
  | cons first rest =>
    obtain ⟨h1, h2, h3, h4, _⟩ := mem_picksData cfg view poolId first
      (by rw [hd]; exact List.mem_cons_self _ _)
    simp only [MakePicks.submitPicks, hpool, hcount, bne_self_eq_false, Bool.false_eq_true,
      if_false, DatabaseService.submitPicks, hd, hdel, hins, sameSubmission, h1, h2, h3, h4]

/-! ## Pick submission: the contract -/

/-- C20. After a successful `submitPicks` of the picks view (a pool selected,
one pick per game shown, the backend carrying out the delete and the insert),
the rows of the table for this user, pool, week and season are exactly the
rows of this submission, one per submitted game (the members of the `picks`
object have distinct game ids) with the submitted team; and when the table
held at most one pick per (user, pool, game) before, with every row of this
user and pool on a submitted game stored under this week and season, it holds
at most one pick per (user, pool, game) afterwards. -/
theorem submitPicks_one_pick_per_game (cfg : Config) (view : MakePicksView)
    (table : List Pick) (backend : SubmitBackend) (poolId : String)
    (hpool : view.selectedPool = some poolId)
    (hcount : view.picks.length = view.games.length) (hsome : view.picks ≠ [])
    (hkeys : (view.picks.map Prod.fst).Nodup)
    (hdel : backend.deleteError = none) (hins : backend.insertError = none) :
    (∃ data, (MakePicks.submitPicks cfg view table backend).1 = some (.success data) ∧
      (MakePicks.submitPicks cfg view table backend).2.filter (fun r =>
        r.user_id == view.userId && r.pool_id == poolId && r.week == view.currentWeek &&
          r.season == cfg.currentSeason) = data ∧
      (data.map (fun r => (r.game_id, r.picked_team_id))).Perm
        (view.picks.map (fun e => (JVal.str e.1, e.2)))) ∧
    (∀ e ∈ view.picks, ∀ r ∈ (MakePicks.submitPicks cfg view table backend).2,
      r.user_id = view.userId → r.pool_id = poolId → r.week = view.currentWeek →
      r.season = cfg.currentSeason → r.game_id = .str e.1 → r.picked_team_id = e.2) ∧
    (onePickPerGame table →
      (∀ r ∈ table, r.user_id = view.userId → r.pool_id = poolId →
        (∃ e ∈ view.picks, r.game_id = .str e.1) →
        r.week = view.currentWeek ∧ r.season = cfg.currentSeason) →
      onePickPerGame (MakePicks.submitPicks cfg view table backend).2) := by
  rw [submitPicks_table cfg view table backend poolId hpool hcount hsome hdel hins]
  have hstored : ∀ r ∈ insertRows backend 0 (MakePicks.picksData cfg view poolId),
      r.user_id = view.userId ∧ r.pool_id = poolId ∧ r.week = view.currentWeek ∧
      r.season = cfg.currentSeason ∧
      ∃ e ∈ view.picks, r.game_id = .str e.1 ∧ r.picked_team_id = e.2 := by
    intro r hr
    obtain ⟨p, hp, h1, h2, h3, h4, h5, h6⟩ := mem_insertRows backend _ 0 r hr
    obtain ⟨g1, g2, g3, g4, e, he, g5, g6⟩ := mem_picksData cfg view poolId p hp
    exact ⟨h1.trans g1, h2.trans g2, h4.trans g3, h5.trans g4, e, he, h3.trans g5, h6.trans g6⟩
  have hfilter : (table.filter (fun r => !(r.user_id == view.userId && r.pool_id == poolId &&
        r.week == view.currentWeek && r.season == cfg.currentSeason)) ++
      insertRows backend 0 (MakePicks.picksData cfg view poolId)).filter (fun r =>
        r.user_id == view.userId && r.pool_id == poolId && r.week == view.currentWeek &&
          r.season == cfg.currentSeason) =
      insertRows backend 0 (MakePicks.picksData cfg view poolId) := by
    rw [List.filter_append, List.filter_filter]
    have h1 : table.filter (fun r => (r.user_id == view.userId && r.pool_id == poolId &&
        r.week == view.currentWeek && r.season == cfg.currentSeason) &&
        !(r.user_id == view.userId && r.pool_id == poolId &&
        r.week == view.currentWeek && r.season == cfg.currentSeason)) = [] := by
      rw [List.filter_eq_nil_iff]
      intro r _
      simp
    have h2 : (insertRows backend 0 (MakePicks.picksData cfg view poolId)).filter (fun r =>
        r.user_id == view.userId && r.pool_id == poolId && r.week == view.currentWeek &&
          r.season == cfg.currentSeason) =
        insertRows backend 0 (MakePicks.picksData cfg view poolId) := by
      rw [List.filter_eq_self]
      intro r hr
      obtain ⟨g1, g2, g3, g4, _⟩ := hstored r hr
      simp [g1, g2, g3, g4]
    rw [h1, h2, List.nil_append]
  have hpairs : (insertRows backend 0 (MakePicks.picksData cfg view poolId)).map
      (fun r => (r.game_id, r.picked_team_id)) =
      (objectEntries view.picks).map (fun e => (JVal.str e.1, e.2)) := by
    rw [insertRows_map]
    simp [MakePicks.picksData, List.map_map, Function.comp_def]
  have hunique : ∀ e ∈ view.picks, ∀ e2 ∈ view.picks, e.1 = e2.1 → e = e2 := by
    intro e he e2 he2 h12
    have hinj := List.inj_on_of_nodup_map hkeys
    exact hinj he he2 h12
  refine ⟨⟨_, rfl, hfilter, ?_⟩, ?_, ?_⟩
  · rw [hpairs]
    exact (objectEntries_perm view.picks).map _
  · intro e he r hr hu hp hw hs hg
    have hr2 : r ∈ insertRows backend 0 (MakePicks.picksData cfg view poolId) := by
      rw [← hfilter]
      exact List.mem_filter.2 ⟨hr, by simp [hu, hp, hw, hs]⟩
    obtain ⟨_, _, _, _, e2, he2, hg2, ht2⟩ := hstored r hr2
    have h12 : e.1 = e2.1 := by
      rw [hg] at hg2
      exact JVal.str.inj hg2
    rw [hunique e he e2 he2 h12, ht2]
  · intro hinv hweek
    unfold onePickPerGame at hinv ⊢
    rw [List.pairwise_append]
    refine ⟨hinv.sublist (List.filter_sublist _), ?_, ?_⟩
    · have hnd : ((insertRows backend 0 (MakePicks.picksData cfg view poolId)).map
          (fun r => r.game_id)).Nodup := by
        have hm : (insertRows backend 0 (MakePicks.picksData cfg view poolId)).map
            (fun r => r.game_id) = ((insertRows backend 0
              (MakePicks.picksData cfg view poolId)).map
                (fun r => (r.game_id, r.picked_team_id))).map Prod.fst := by
          rw [List.map_map]; rfl
        rw [hm, hpairs, List.map_map]
        have hm2 : (objectEntries view.picks).map
            (Prod.fst ∘ fun e : String × JVal => (JVal.str e.1, e.2)) =
            ((objectEntries view.picks).map Prod.fst).map JVal.str := by
          rw [List.map_map]; rfl
        rw [hm2]
        apply List.Nodup.map (fun a b h => JVal.str.inj h)
        exact ((objectEntries_perm view.picks).map Prod.fst).nodup_iff.2 hkeys
      have hpw := List.pairwise_map.1 hnd
      exact hpw.imp (fun hne hsame => hne hsame.2.2)
    · intro a ha b hb hsame
      obtain ⟨hu, hp, _, _, e, he, hg, _⟩ := hstored b hb
      have ha2 := List.mem_filter.1 ha
      obtain ⟨hw, hs⟩ := hweek a ha2.1 (hsame.1.trans hu) (hsame.2.1.trans hp)
        ⟨e, he, hsame.2.2.trans hg⟩
      have := ha2.2
      simp [hsame.1.trans hu, hsame.2.1.trans hp, hw, hs] at this

/-- C20, on two submissions of user ann for games g1 and g2, first teams H and
H, then teams A and B: the table ends with one pick per game carrying the
second teams. -/
theorem submitPicks_one_pick_per_game_witness :
    ((MakePicks.submitPicks {} (sampleView [("g1", .str "A"), ("g2", .str "B")])
        (MakePicks.submitPicks {} (sampleView [("g1", .str "H"), ("g2", .str "H")]) []
          sampleBackend).2 sampleBackend).2.map
      (fun r => (r.game_id.strictEq (.str "g1"), r.game_id.strictEq (.str "g2"),
        r.picked_team_id.strictEq (.str "A"), r.picked_team_id.strictEq (.str "B")))) =
      [(true, false, true, false), (false, true, false, true)] ∧
    (∀ e ∈ (sampleView [("g1", .str "A"), ("g2", .str "B")]).picks,
      ∀ r ∈ (MakePicks.submitPicks {} (sampleView [("g1", .str "A"), ("g2", .str "B")])
        (MakePicks.submitPicks {} (sampleView [("g1", .str "H"), ("g2", .str "H")]) []
          sampleBackend).2 sampleBackend).2,
      r.user_id = "ann" → r.pool_id = "pool" → r.week = 1 → r.season = 2024 →
      r.game_id = .str e.1 → r.picked_team_id = e.2) :=
  ⟨by decide,
   (submitPicks_one_pick_per_game {} (sampleView [("g1", .str "A"), ("g2", .str "B")])
    (MakePicks.submitPicks {} (sampleView [("g1", .str "H"), ("g2", .str "H")]) []
      sampleBackend).2 sampleBackend "pool" rfl rfl (by simp [sampleView])
    (by decide) rfl rfl).2.1⟩

/-! ## Pick submission: failure paths -/

/-- C28. `submitPicks` is not atomic: when the backend carries out the delete
and answers the insert with an error, `submitPicks` returns a failure with
that error and the table is left without any row of the submitted user, pool,
week and season (the deleted picks are not restored); so user ann's stored
pick is gone after such a run. On an empty pick list `submitPicks` returns a
failure and leaves the table as it was. -/
theorem submitPicks_not_atomic :
    (∀ (table : List Pick) (backend : SubmitBackend) (first : Pick) (rest : List Pick)
        (message : String),
      backend.deleteError = none → backend.insertError = some message →
      DatabaseService.submitPicks table backend (first :: rest) =
        (.failure message, table.filter (fun r => !sameSubmission first r)) ∧
      ∀ r ∈ (DatabaseService.submitPicks table backend (first :: rest)).2,
        ¬ (r.user_id = first.user_id ∧ r.pool_id = first.pool_id ∧ r.week = first.week ∧
          r.season = first.season)) ∧
    (∀ (table : List Pick) (backend : SubmitBackend),
      DatabaseService.submitPicks table backend [] = (.failure "TypeError", table)) ∧
    ((DatabaseService.submitPicks [samplePick "7" "ann" "g1" "H" none]
        { sampleBackend with insertError := some "insert failed" }
        [samplePick "" "ann" "g1" "A" none]).2.length = 0) := by
  refine ⟨?_, fun _ _ => rfl, by decide⟩
  intro table backend first rest message hdel hins
  have hrun : DatabaseService.submitPicks table backend (first :: rest) =
      (.failure message, table.filter (fun r => !sameSubmission first r)) := by
    simp [DatabaseService.submitPicks, hdel, hins]
  refine ⟨hrun, ?_⟩
  rw [hrun]
  intro r hr hsame
  have := (List.mem_filter.1 hr).2
  simp [sameSubmission, hsame.1, hsame.2.1, hsame.2.2.1, hsame.2.2.2] at this

/-! ## `fetchWithRetry` without attempts -/

theorem getCached_miss_eq {α : Type} (cfg : Config) (cache : Cache α) (now : Int) (key : String)
    (h : (getCached cfg cache now key).1 = none) :
    getCached cfg cache now key = (none, (getCached cfg cache now key).2) := by
  rw [← h]

/-- C29. With an attempt count `n <= 0`, `fetchWithRetry` makes no request,
waits for nothing and returns no result object; `getScoreboard`, configured
with such a count, then raises on a cache miss instead of returning a failure
result. -/
theorem fetchWithRetry_no_attempts (cfg : Config) (net : Nat → Attempt) (n : Int) (hn : n ≤ 0) :
    (fetchWithRetry cfg net n).result = none ∧
    (fetchWithRetry cfg net n).requests = 0 ∧
    (fetchWithRetry cfg net n).waits = [] ∧
    (∀ (cache : Cache (List Game)) (now later : Int) (week : Option Int)
        (season seasonType : Int),
      cfg.retryAttempts = n →
      (getCached cfg cache now (cacheKey week season seasonType)).1 = none →
      (getScoreboard cfg cache now later net week season seasonType).result =
        .error .typeError) := by
  have h0 : n.toNat = 0 := Int.toNat_eq_zero.2 hn
  have hrun : fetchWithRetry cfg net n = { result := none, requests := 0, waits := [] } := by
    unfold fetchWithRetry
    rw [h0]
    rfl
  refine ⟨by rw [hrun], by rw [hrun], by rw [hrun], ?_⟩
  intro cache now later week season seasonType hcfg hmiss
  rw [getScoreboard_miss cfg cache _ now later net week season seasonType
    (getCached_miss_eq cfg cache now _ hmiss), hcfg, hrun]

/-- C29, with the attempt count configured to 0 and an empty cache. -/
theorem fetchWithRetry_no_attempts_witness :
    (0 : Int) ≤ 0 ∧
    ((getScoreboard { retryAttempts := 0 } [] 0 0 (fun _ => .json scenarioPayload) (some 1)
        2024 2).result.map (fun r => r.success)) = .error .typeError :=
  ⟨le_refl _, by
    rw [(fetchWithRetry_no_attempts { retryAttempts := 0 } (fun _ => .json scenarioPayload) 0
      (le_refl _)).2.2.2 [] 0 0 (some 1) 2024 2 rfl rfl]
    rfl⟩

/-! ## The polling loop: reachable states -/

/-- C30. In every state that a sequence of `start()` and `stop()` calls reaches
from the service as constructed, `isRunning` is true exactly when a timer
handle is held (`updateInterval` is not null), which is exactly when one
repeating timer is live; there is never more than one. -/
theorem poller_reachable_invariant (calls : List PollerCall) :
    ((Poller.after calls).isRunning = true ↔ (Poller.after calls).updateInterval.isSome = true) ∧
    ((Poller.after calls).isRunning = true ↔ (Poller.after calls).timers.length = 1) ∧
    (Poller.after calls).timers.length ≤ 1 := by
  obtain ⟨h1, h2, h3⟩ := Poller.consistent_after calls
  cases hu : (Poller.after calls).updateInterval with
  | none =>
    have ht := h3 hu
    rw [hu] at h1
    refine ⟨h1, ?_, by simp [ht]⟩
    constructor
    · intro hr
      have := h1.1 hr
      cases this
    · intro hl
      simp [ht] at hl
  | some h =>
    obtain ⟨_, _, ht⟩ := h2 h hu
    rw [hu] at h1
    refine ⟨h1, ?_, by simp [ht]⟩
    constructor
    · intro _; simp [ht]
    · intro _; exact h1.2 rfl

/-! ## One update cycle: the contract -/

theorem updateScores_failed (result : Except JsError ScoreboardResult) (stamp : String)
    (h : ∀ r, result = .ok r → r.success = false) :
    ∀ e ∈ updateScores result stamp, e.isCacheGame = false ∧ e.isPickResults = false := by
  intro e he
  cases result with
  | error err =>
    simp only [updateScores, List.mem_singleton] at he
    subst he
    exact ⟨rfl, rfl⟩
  | ok r =>
    have hs := h r rfl
    simp only [updateScores, hs, Bool.not_false, if_true, List.mem_singleton] at he
    subst he
    exact ⟨rfl, rfl⟩

theorem updateScores_order (r : ScoreboardResult) (stamp : String) (hs : r.success = true) :
    ∃ upserts rest, updateScores (.ok r) stamp = upserts ++ rest ∧
      upserts.length = r.data.length ∧ (∀ e ∈ upserts, e.isCacheGame = true) ∧
      (∀ e ∈ rest, e.isCacheGame = false) ∧
      (rest.filter Effect.isPickResults).length = (completedGames r.data).length := by
  refine ⟨r.data.map (fun game => Effect.cacheGame
      { espn_event_id := game.id, week := game.week, season := game.season,
        home_team_id := game.homeTeam.id, away_team_id := game.awayTeam.id,
        home_score := game.homeTeam.score, away_score := game.awayTeam.score,
        game_status := game.status.type, game_time := game.date, last_updated := stamp }),
    (completedGames r.data).map (fun game => Effect.pickResults game (updatePickResults game)) ++
      [.console (.log ("Updated " ++ toString r.data.length ++ " games (" ++
        toString (completedGames r.data).length ++ " completed)"))], ?_, ?_, ?_, ?_, ?_⟩
  · simp [updateScores, hs, List.append_assoc]
  · simp
  · intro e he
    obtain ⟨g, _, rfl⟩ := List.mem_map.1 he
    rfl
  · intro e he
    rcases List.mem_append.1 he with h | h
    · obtain ⟨g, _, rfl⟩ := List.mem_map.1 h
      rfl
    · simp only [List.mem_singleton] at h
      subst h
      rfl
  · rw [List.filter_append]
    have h1 : ((completedGames r.data).map
        (fun game => Effect.pickResults game (updatePickResults game))).filter
        Effect.isPickResults = (completedGames r.data).map
        (fun game => Effect.pickResults game (updatePickResults game)) := by
      rw [List.filter_eq_self]
      intro e he
      obtain ⟨g, _, rfl⟩ := List.mem_map.1 he
      rfl
    rw [h1]
    simp [Effect.isPickResults]

/-- C25. When the scoreboard fetch of an update cycle fails (or the scoreboard
call raises), `updateScores` ends with a console line only: no game-cache
upsert, no pick-result update, no exception; so does a whole cycle whose
lookup misses the cache and whose attempts all fail. When the fetch succeeds
the effects are one upsert per game followed by the rest, which holds no
upsert and one pick-result update per completed game: every upsert comes
before the first pick-result update. -/
theorem updateScores_cycle (stamp : String) :
    (∀ result : Except JsError ScoreboardResult, (∀ r, result = .ok r → r.success = false) →
      ∀ e ∈ updateScores result stamp, e.isCacheGame = false ∧ e.isPickResults = false) ∧
    (∀ (cfg : Config) (zone : Zone) (fuel : Nat) (cache : Cache (List Game)) (now later : Int)
        (net : Nat → Attempt) (week : Int) (n : Nat),
      getCurrentNFLWeek zone fuel now cfg.currentSeason = some week →
      cfg.retryAttempts = (n : Int) → 1 ≤ n → (∀ k, k < n → (net k).failed = true) →
      (getCached cfg cache now (cacheKey (some week) cfg.currentSeason 2)).1 = none →
      ∃ effects c, updateCycle cfg zone fuel cache now later net stamp = some (effects, c) ∧
        ∀ e ∈ effects, e.isCacheGame = false ∧ e.isPickResults = false) ∧
    (∀ r : ScoreboardResult, r.success = true →
      ∃ upserts rest, updateScores (.ok r) stamp = upserts ++ rest ∧
        upserts.length = r.data.length ∧ (∀ e ∈ upserts, e.isCacheGame = true) ∧
        (∀ e ∈ rest, e.isCacheGame = false) ∧
        (rest.filter Effect.isPickResults).length = (completedGames r.data).length) := by
  refine ⟨fun result h => updateScores_failed result stamp h, ?_,
    fun r hs => updateScores_order r stamp hs⟩
  intro cfg zone fuel cache now later net week n hweek hn h1 hall hmiss
  have hfail : (fetchWithRetry cfg net cfg.retryAttempts).result =
      some (.failure (net (n - 1)).message true) := by
    obtain ⟨m, rfl⟩ : ∃ m, n = m + 1 := ⟨n - 1, by omega⟩
    rw [hn]
    unfold fetchWithRetry
    rw [Int.toNat_ofNat]
    exact (fetchLoop_all_failed cfg net (m + 1) m 0 rfl (fun k _ hk => hall k hk)).1
  have hrun := getScoreboard_fetch_failed cfg cache now later net (some week) cfg.currentSeason 2
    _ _ hmiss hfail
  have hcycle : updateCycle cfg zone fuel cache now later net stamp =
      some (updateScores (getScoreboard cfg cache now later net (some week)
          cfg.currentSeason 2).result stamp,
        (getScoreboard cfg cache now later net (some week) cfg.currentSeason 2).cache) := by
    simp only [updateCycle, hweek]
  refine ⟨_, _, hcycle, ?_⟩
  apply updateScores_failed
  intro r hr
  rw [hrun] at hr
  simp only [Except.ok.injEq] at hr
  rw [← hr]

/-- C25, on a fetched scoreboard with one completed game: one upsert, then the
rest. -/
theorem updateScores_cycle_witness :
    ∃ upserts rest,
      updateScores (.ok (sampleBoard [sampleGame "g1" true true false])) "2024-09-08T17:00:00Z" =
        upserts ++ rest ∧
      upserts.length = (sampleBoard [sampleGame "g1" true true false]).data.length ∧
      (∀ e ∈ upserts, e.isCacheGame = true) ∧ (∀ e ∈ rest, e.isCacheGame = false) ∧
      (rest.filter Effect.isPickResults).length =
        (completedGames (sampleBoard [sampleGame "g1" true true false]).data).length :=
  (updateScores_cycle "2024-09-08T17:00:00Z").2.2 (sampleBoard [sampleGame "g1" true true false])
    rfl

/-! ## Form validation -/

theorem testRange_iff (lo hi : Nat) (s : String) :
    testRange lo hi s = true ↔ ∃ c ∈ s.data, lo ≤ c.toNat ∧ c.toNat ≤ hi := by
  simp [testRange, List.any_eq_true]

theorem sum_units_bmp (l : List Char) (h : ∀ c ∈ l, c.toNat < 65536) :
    (l.map (fun c => if c.toNat < 65536 then 1 else 2)).sum = l.length := by
  induction l with
  | nil => rfl
  | cons c rest ih =>
    have hc := h c (List.mem_cons_self _ _)
    have hrest := ih (fun d hd => h d (List.mem_cons_of_mem _ hd))
    simp only [List.map_cons, List.sum_cons, hc, if_true, hrest, List.length_cons]
    omega

theorem utf16Length_bmp (s : String) (h : ∀ c ∈ s.data, c.toNat < 65536) :
    utf16Length s = s.length :=
  sum_units_bmp s.data h

/-- C26. For every password, `validatePassword` returns `valid = true` exactly
when the password has at least 8 characters (its `length`, which counts a
character beyond U+FFFF twice and is the number of characters otherwise) and
contains an uppercase letter A-Z, a lowercase letter a-z and a digit 0-9; when
it is invalid the message names the first unmet requirement in the order
length, uppercase, lowercase, number. -/
theorem validatePassword_spec (password : String) :
    ((validatePassword password).valid = true ↔
      8 ≤ utf16Length password ∧
      (∃ c ∈ password.data, 'A'.toNat ≤ c.toNat ∧ c.toNat ≤ 'Z'.toNat) ∧
      (∃ c ∈ password.data, 'a'.toNat ≤ c.toNat ∧ c.toNat ≤ 'z'.toNat) ∧
      (∃ c ∈ password.data, '0'.toNat ≤ c.toNat ∧ c.toNat ≤ '9'.toNat)) ∧
    (utf16Length password < 8 →
      validatePassword password =
        { valid := false, message := "Password must be at least 8 characters" }) ∧
    (8 ≤ utf16Length password →
      (¬ ∃ c ∈ password.data, 'A'.toNat ≤ c.toNat ∧ c.toNat ≤ 'Z'.toNat) →
      validatePassword password =
        { valid := false, message := "Password must contain at least one uppercase letter" }) ∧
    (8 ≤ utf16Length password →
      (∃ c ∈ password.data, 'A'.toNat ≤ c.toNat ∧ c.toNat ≤ 'Z'.toNat) →
      (¬ ∃ c ∈ password.data, 'a'.toNat ≤ c.toNat ∧ c.toNat ≤ 'z'.toNat) →
      validatePassword password =
        { valid := false, message := "Password must contain at least one lowercase letter" }) ∧
    (8 ≤ utf16Length password →
      (∃ c ∈ password.data, 'A'.toNat ≤ c.toNat ∧ c.toNat ≤ 'Z'.toNat) →
      (∃ c ∈ password.data, 'a'.toNat ≤ c.toNat ∧ c.toNat ≤ 'z'.toNat) →
      (¬ ∃ c ∈ password.data, '0'.toNat ≤ c.toNat ∧ c.toNat ≤ '9'.toNat) →
      validatePassword password =
        { valid := false, message := "Password must contain at least one number" }) ∧
    ((∀ c ∈ password.data, c.toNat < 65536) → utf16Length password = password.length) := by
  have hA : 'A'.toNat = 65 := rfl
  have hZ : 'Z'.toNat = 90 := rfl
  have ha : 'a'.toNat = 97 := rfl
  have hz : 'z'.toNat = 122 := rfl
  have h0 : '0'.toNat = 48 := rfl
  have h9 : '9'.toNat = 57 := rfl
  rw [hA, hZ, ha, hz, h0, h9]
  simp only [← testRange_iff]
  refine ⟨?_, ?_, ?_, ?_, ?_, utf16Length_bmp password⟩
  · unfold validatePassword
    by_cases hl : utf16Length password < 8
    · simp [hl]
    · cases hu : testRange 65 90 password <;> cases hlow : testRange 97 122 password <;>
        cases hd : testRange 48 57 password <;> simp [hl]
      omega
  · intro hl
    simp [validatePassword, hl]
  · intro hl hu
    have hl2 : ¬ utf16Length password < 8 := by omega
    simp [validatePassword, hl2, hu]
  · intro hl hu hlow
    have hl2 : ¬ utf16Length password < 8 := by omega
    simp [validatePassword, hl2, hu, hlow]
  · intro hl hu hlow hd
    have hl2 : ¬ utf16Length password < 8 := by omega
    simp [validatePassword, hl2, hu, hlow, hd]

/-- C26, on the password "Secret12". -/
theorem validatePassword_spec_witness :
    (validatePassword "Secret12").valid = true ∧ utf16Length "Secret12" = "Secret12".length :=
  ⟨by decide, (validatePassword_spec "Secret12").2.2.2.2.2 (by decide)⟩

/-- C27. `validateDisplayName` accepts a name exactly when it is not empty,
has at least 2 characters after trimming and at most 50 characters. So a
display name of exactly 50 characters is accepted, although the message of the
length check says a name must be less than 50 characters: the check rejects
only names longer than 50 (51 characters are rejected with that message). -/
theorem validateDisplayName_fifty_accepted :
    (∀ name : String, (validateDisplayName name).valid = true ↔
      name ≠ "" ∧ 2 ≤ utf16Length (jsTrim name) ∧ utf16Length name ≤ 50) ∧
    utf16Length fiftyCharName = 50 ∧
    validateDisplayName fiftyCharName = { valid := true, message := "" } ∧
    validateDisplayName (fiftyCharName ++ "f") =
      { valid := false, message := "Display name must be less than 50 characters" } := by
  refine ⟨fun name => ?_, by decide, by decide, by decide⟩
  unfold validateDisplayName
  by_cases hempty : name = ""
  · simp [hempty]
  · by_cases htrim : utf16Length (jsTrim name) < 2
    · simp [hempty, htrim]
    · by_cases hlong : utf16Length name > 50
      · simp [hempty, htrim, hlong]
      · have h2 : 2 ≤ utf16Length (jsTrim name) := by omega
        have h50 : utf16Length name ≤ 50 := by omega
        simp [hempty, htrim, hlong, h2, h50]

/-! ## Pick locking -/

theorem insertRows_has (backend : SubmitBackend) (picks : List Pick) (i : Nat) (p : Pick)
    (h : p ∈ picks) :
    ∃ r ∈ insertRows backend i picks, r.user_id = p.user_id ∧ r.pool_id = p.pool_id ∧
      r.game_id = p.game_id ∧ r.picked_team_id = p.picked_team_id := by
  induction picks generalizing i with
  | nil => cases h
  | cons q rest ih =>
    rcases List.mem_cons.1 h with rfl | h
    · simp only [insertRows]
      exact ⟨_, List.mem_cons_self _ _, rfl, rfl, rfl, rfl⟩
    · obtain ⟨r, hr, hrest⟩ := ih (i + 1) h
      simp only [insertRows]
      exact ⟨r, List.mem_cons_of_mem _ hr, hrest⟩

/-- C21. The submission path does not look at the kickoff: for a picks view
with a pool selected and one pick per game shown, and a backend that carries
out the delete and the insert, a game of the view for which `hasGameStarted`
is true still has its pick stored by `submitPicks` (the call reports success,
the user's stored picks of the week are deleted and the new row for the
started game is in the table). -/
theorem submitPicks_after_kickoff (cfg : Config) (view : MakePicksView) (table : List Pick)
    (backend : SubmitBackend) (poolId : String) (timeOf : JVal → Option Int) (now : Int)
    (game : Game) (gameId : String) (team : JVal)
    (hpool : view.selectedPool = some poolId)
    (hcount : view.picks.length = view.games.length)
    (hdel : backend.deleteError = none) (hins : backend.insertError = none)
    (_hgame : game ∈ view.games) (hid : game.id = .str gameId)
    (hpick : (gameId, team) ∈ view.picks)
    (hstarted : hasGameStarted timeOf now game.date = true) :
    hasGameStarted timeOf now game.date = true ∧
    (∃ data, (MakePicks.submitPicks cfg view table backend).1 = some (.success data)) ∧
    (∃ row ∈ (MakePicks.submitPicks cfg view table backend).2,
      row.user_id = view.userId ∧ row.pool_id = poolId ∧ row.game_id = game.id ∧
        row.picked_team_id = team) ∧
    (∀ old ∈ table, old.user_id = view.userId → old.pool_id = poolId →
      old.week = view.currentWeek → old.season = cfg.currentSeason →
      ∀ row ∈ (MakePicks.submitPicks cfg view table backend).2,
        row = old → row ∈ insertRows backend 0 (MakePicks.picksData cfg view poolId)) := by
  have hsome : view.picks ≠ [] := List.ne_nil_of_mem hpick
  rw [submitPicks_table cfg view table backend poolId hpool hcount hsome hdel hins]
  refine ⟨hstarted, ⟨_, rfl⟩, ?_, ?_⟩
  · have hdata : ∃ p ∈ MakePicks.picksData cfg view poolId, p.user_id = view.userId ∧
        p.pool_id = poolId ∧ p.game_id = .str gameId ∧ p.picked_team_id = team := by
      unfold MakePicks.picksData
      exact ⟨_, List.mem_map.2 ⟨(gameId, team),
        (objectEntries_perm view.picks).mem_iff.2 hpick, rfl⟩, rfl, rfl, rfl, rfl⟩
    obtain ⟨p, hp, h1, h2, h3, h4⟩ := hdata
    obtain ⟨r, hr, g1, g2, g3, g4⟩ := insertRows_has backend _ 0 p hp
    exact ⟨r, List.mem_append_right _ hr, g1.trans h1, g2.trans h2,
      (g3.trans h3).trans hid.symm, g4.trans h4⟩
  · intro old _ h1 h2 h3 h4 row hrow heq
    rcases List.mem_append.1 hrow with hkept | hnew
    · have := (List.mem_filter.1 hkept).2
      rw [heq] at this
      simp [h1, h2, h3, h4] at this
    · exact hnew

/-- C21, on a game that kicked off at 1725582000000 and a submission at
1725590000000 that replaces the stored pick of team "H" by team "A". -/
theorem submitPicks_after_kickoff_witness :
    hasGameStarted sampleTimeOf 1725590000000 startedGame.date = true ∧
    ((MakePicks.submitPicks {} lateView [samplePick "p1" "ann" "g1" "H" none] sampleBackend).2.map
      (fun r => (r.id, r.game_id, r.picked_team_id)) = [("0", .str "g1", .str "A")]) ∧
    ∃ row ∈ (MakePicks.submitPicks {} lateView [samplePick "p1" "ann" "g1" "H" none]
        sampleBackend).2,
      row.user_id = lateView.userId ∧ row.pool_id = "pool" ∧ row.game_id = startedGame.id ∧
        row.picked_team_id = .str "A" :=
  ⟨by decide, rfl,
    (submitPicks_after_kickoff {} lateView [samplePick "p1" "ann" "g1" "H" none] sampleBackend
      "pool" sampleTimeOf 1725590000000 startedGame "g1" (.str "A") rfl rfl rfl rfl
      (List.mem_cons_self _ _) rfl (List.mem_cons_self _ _) (by decide)).2.2.1⟩

/-! ## The Game invariant: lemmas -/

theorem orElse_false_truthy (a : JVal) : (a.orElse (.bool false)).truthy = a.truthy := by
  unfold JVal.orElse
  cases h : a.truthy
  · simp [JVal.truthy]
  · simp [h]

theorem findSide_sideOf (side : String) (cs : List JVal)
    (hall : ∀ c ∈ cs, wellFormedCompetitor c = true) :
    findSide side cs = .ok (sideOf side cs) := by
  induction cs with
  | nil => rfl
  | cons c rest ih =>
    have hc := hall c (List.mem_cons_self _ _)
    have hrest := ih (fun x hx => hall x (List.mem_cons_of_mem _ hx))
    cases c with
    | obj ms =>
      cases hq : ((JVal.obj ms).getOpt "homeAway").strictEq (.str side) with
      | true =>
        have hfind : sideOf side (.obj ms :: rest) = .obj ms := by
          simp [sideOf, List.find?_cons, hq]
        rw [hfind]
        simp only [JVal.getOpt] at hq
        simp only [findSide, JVal.get, bind, Except.bind, hq, if_true, pure, Except.pure]
      | false =>
        have hfind : sideOf side (.obj ms :: rest) = sideOf side rest := by
          simp [sideOf, List.find?_cons, hq]
        rw [hfind, ← hrest]
        simp only [JVal.getOpt] at hq
        simp only [findSide, JVal.get, bind, Except.bind, hq]
        simp
    | _ => cases hc

theorem parseSide_winner (c : JVal) (h : wellFormedCompetitor c = true) (side : TeamSide)
    (hs : parseSide c = .ok side) :
    side.winner = (c.getOpt "winner").orElse (.bool false) := by
  cases c with
  | obj ms =>
    simp only [wellFormedCompetitor, Bool.and_eq_true] at h
    obtain ⟨hteam, hscore⟩ := h
    obtain ⟨n, hn, _⟩ := parseIntOrZero_nonneg _ hscore
    cases ht : JVal.lookup "team" ms with
    | none => rw [ht] at hteam; cases hteam
    | some team =>
      rw [ht] at hteam
      cases team with
      | obj tms =>
        simp only [parseSide, JVal.get, ht, Option.getD_some, bind, Except.bind, pure,
          Except.pure, hn] at hs
        cases hs
        rfl
      | _ => cases hteam
  | _ => cases h

theorem parseStatus_completed (cms sms tms : List (String × JVal))
    (hstat : JVal.lookup "status" cms = some (.obj sms))
    (htype : JVal.lookup "type" sms = some (.obj tms)) (st : GameStatus)
    (hst : parseStatus (.obj cms) = .ok st) :
    st.completed = (JVal.lookup "completed" tms).getD .undefined := by
  simp only [parseStatus, JVal.get, hstat, htype, Option.getD_some, bind, Except.bind, pure,
    Except.pure] at hst
  cases hst
  rfl

theorem parseEvent_flags (cfg : Config) (dms : List (String × JVal)) (e : JVal)
    (h : wellFormedEvent e = true) :
    ∃ g, parseEvent cfg (.obj dms) e = .ok g ∧
      g.homeTeam.winner.truthy = eventWinner "home" e ∧
      g.awayTeam.winner.truthy = eventWinner "away" e ∧
      g.status.completed = eventCompleted e := by
  unfold wellFormedEvent at h
  split at h
  · rename_i ms
    split at h
    · rename_i cms tail hcomp
      simp only [Bool.and_eq_true] at h
      obtain ⟨h1, h2⟩ := h
      split at h1
      · rename_i cs hcs
        simp only [Bool.and_eq_true, List.all_eq_true] at h1
        obtain ⟨⟨hall, hhome⟩, haway⟩ := h1
        split at h2
        · rename_i sms hstat
          split at h2
          · rename_i tms htype
            have hfind := findSide_sideOf "home" cs hall
            have hfindA := findSide_sideOf "away" cs hall
            obtain ⟨hc, hfind2, hmem⟩ := findSide_ok "home" cs hall hhome
            obtain ⟨ac, hfindA2, hmemA⟩ := findSide_ok "away" cs hall haway
            have hceq : hc = sideOf "home" cs := by
              rw [hfind] at hfind2
              cases hfind2
              rfl
            have aceq : ac = sideOf "away" cs := by
              rw [hfindA] at hfindA2
              cases hfindA2
              rfl
            obtain ⟨hs, hps, _⟩ := parseSide_ok hc (hall hc hmem)
            obtain ⟨as, hpa, _⟩ := parseSide_ok ac (hall ac hmemA)
            have hsw := parseSide_winner hc (hall hc hmem) hs hps
            have asw := parseSide_winner ac (hall ac hmemA) as hpa
            obtain ⟨st, hst⟩ := parseStatus_ok cms sms tms hstat htype
            have hcompl := parseStatus_completed cms sms tms hstat htype st hst
            have hev : ∃ g, parseEvent cfg (.obj dms) (.obj ms) = .ok g ∧ g.homeTeam = hs ∧
                g.awayTeam = as ∧ g.status = st := by
              simp only [parseEvent, JVal.get, JVal.getIndex0, hcomp, Option.getD_some,
                List.head?_cons, hcs, callFind, hfind2, hfindA2, hst, hps, hpa, bind, Except.bind,
                pure, Except.pure]
              exact ⟨_, rfl, rfl, rfl, rfl⟩
            obtain ⟨g, hg, hgh, hga, hgs⟩ := hev
            refine ⟨g, hg, ?_, ?_, ?_⟩
            · rw [hgh, hsw, orElse_false_truthy, hceq]
              simp [eventWinner, firstCompetition, JVal.getOpt, hcomp, hcs]
            · rw [hga, asw, orElse_false_truthy, aceq]
              simp [eventWinner, firstCompetition, JVal.getOpt, hcomp, hcs]
            · rw [hgs, hcompl]
              simp [eventCompleted, firstCompetition, JVal.getOpt, hcomp, hstat, htype]
          · cases h2
        · cases h2
      · cases h1
    · cases h
  · cases h

theorem mapEvents_forall₂ (f : JVal → Except JsError Game) (R : JVal → Game → Prop)
    (es : List JVal) (h : ∀ e ∈ es, ∃ g, f e = .ok g ∧ R e g) :
    ∃ gs, mapEvents f es = .ok gs ∧ List.Forall₂ R es gs := by
  induction es with
  | nil => exact ⟨[], rfl, List.Forall₂.nil⟩
  | cons e rest ih =>
    obtain ⟨g, hg, hR⟩ := h e (List.mem_cons_self _ _)
    obtain ⟨gr, hgr, hRr⟩ := ih (fun x hx => h x (List.mem_cons_of_mem _ hx))
    refine ⟨g :: gr, ?_, List.Forall₂.cons hR hRr⟩
    simp only [mapEvents, bind, Except.bind, hg, hgr, pure, Except.pure]

theorem forall₂_right {α β : Type} (R : α → β → Prop) (P : α → Prop) (Q : β → Prop)
    (hPQ : ∀ a b, R a b → P a → Q b) (xs : List α) (ys : List β) (h : List.Forall₂ R xs ys)
    (hP : ∀ a ∈ xs, P a) : ∀ b ∈ ys, Q b := by
  induction h with
  | nil => intro b hb; cases hb
  | cons hab _ ih =>
    intro b hb
    rcases List.mem_cons.1 hb with rfl | hb
    · exact hPQ _ _ hab (hP _ (List.mem_cons_self _ _))
    · exact ih (fun a ha => hP a (List.mem_cons_of_mem _ ha)) b hb

/-! ## The Game invariant: the contract -/

/-- C24 as stated fails: for the payload whose only event is in progress with
both competitors flagged winner, `parseScoreboard` returns one record with both
winner flags true and a status that is not completed. -/
theorem parseScoreboard_invariant_counterexample :
    ¬ (∀ (cfg : Config) (data : JVal) (gs : List Game), parseScoreboard cfg data = .ok gs →
        ∀ g ∈ gs, gameInvariant g = true) := by
  intro h
  have heval : (parseScoreboard {} bothWinnersPayload).map (fun gs => gs.map gameInvariant) =
      .ok [false] := rfl
  cases hp : parseScoreboard {} bothWinnersPayload with
  | error err => rw [hp] at heval; cases heval
  | ok gs =>
    rw [hp] at heval
    simp only [Except.map, Except.ok.injEq] at heval
    cases gs with
    | nil => cases heval
    | cons g rest =>
      simp only [List.map_cons, List.cons.injEq] at heval
      have := h {} bothWinnersPayload (g :: rest) hp g (List.mem_cons_self _ _)
      rw [heval.1] at this
      cases this

/-- C24, amended. For every payload whose `events` list holds well-formed
events, `parseScoreboard` returns one record per event, in order, and each
record carries the provider's flags unchanged: `homeTeam.winner` and
`awayTeam.winner` are set exactly when the `winner` field of the first
competitor tagged home (away) is truthy, and `status.completed` is the event's
`status.type.completed`. So a record satisfies the Game invariant exactly when
the provider's event does, and every record satisfies it when every event of
the payload does. -/
theorem parseScoreboard_copies_flags (cfg : Config) (ms : List (String × JVal))
    (es : List JVal) (hev : JVal.lookup "events" ms = some (.arr es))
    (hwf : ∀ e ∈ es, wellFormedEvent e = true) :
    ∃ gs, parseScoreboard cfg (.obj ms) = .ok gs ∧
      List.Forall₂ (fun e g =>
        g.homeTeam.winner.truthy = eventWinner "home" e ∧
        g.awayTeam.winner.truthy = eventWinner "away" e ∧
        g.status.completed = eventCompleted e ∧
        gameInvariant g = eventInvariant e) es gs ∧
      ((∀ e ∈ es, eventInvariant e = true) → ∀ g ∈ gs, gameInvariant g = true) := by
  have hparse : parseScoreboard cfg (.obj ms) = mapEvents (parseEvent cfg (.obj ms)) es := by
    simp [parseScoreboard, JVal.get, hev, JVal.truthy, isArray, bind, Except.bind]
  obtain ⟨gs, hgs, hall⟩ := mapEvents_forall₂ (parseEvent cfg (.obj ms))
    (fun e g =>
      g.homeTeam.winner.truthy = eventWinner "home" e ∧
      g.awayTeam.winner.truthy = eventWinner "away" e ∧
      g.status.completed = eventCompleted e ∧
      gameInvariant g = eventInvariant e) es
    (fun e he => by
      obtain ⟨g, hg, h1, h2, h3⟩ := parseEvent_flags cfg ms e (hwf e he)
      exact ⟨g, hg, h1, h2, h3, by simp only [gameInvariant, eventInvariant, h1, h2, h3]⟩)
  refine ⟨gs, hparse.trans hgs, hall, fun hinv => ?_⟩
  exact forall₂_right _ (fun e => eventInvariant e = true) (fun g => gameInvariant g = true)
    (fun e g hR hP => hR.2.2.2.trans hP) es gs hall hinv

/-- C24 amended, on the scenario payload (completed, only the home side
flagged): its record satisfies the invariant. -/
theorem parseScoreboard_copies_flags_witness :
    ∃ gs, parseScoreboard {} (.obj [("events", .arr [scenarioEvent])]) = .ok gs ∧
      List.Forall₂ (fun e g =>
        g.homeTeam.winner.truthy = eventWinner "home" e ∧
        g.awayTeam.winner.truthy = eventWinner "away" e ∧
        g.status.completed = eventCompleted e ∧
        gameInvariant g = eventInvariant e) [scenarioEvent] gs ∧
      ((∀ e ∈ [scenarioEvent], eventInvariant e = true) → ∀ g ∈ gs, gameInvariant g = true) :=
  parseScoreboard_copies_flags {} [("events", .arr [scenarioEvent])] [scenarioEvent] rfl
    (by decide)

/-! ## Pick results on the picks table: lemmas -/

theorem applyPickUpdates_eq (calls : List PickUpdate) (table : List Pick) :
    applyPickUpdates table calls =
      table.map (fun p => { p with is_correct := resolve calls p.id p.is_correct }) := by
  induction calls generalizing table with
  | nil => simp [applyPickUpdates, resolve]
  | cons c rest ih =>
    simp only [applyPickUpdates, ih, updatePickResult, List.map_map]
    apply List.map_congr_left
    intro p _
    by_cases h : p.id = c.pickId <;> simp [resolve, h]

theorem resolve_shape (calls : List PickUpdate) (id : String) :
    (∀ v, resolve calls id v = v) ∨ (∃ b, ∀ v, resolve calls id v = some b) := by
  induction calls with
  | nil => exact Or.inl (fun v => rfl)
  | cons c rest ih =>
    by_cases h : id = c.pickId
    · rcases ih with hid | ⟨b, hb⟩
      · exact Or.inr ⟨c.isCorrect, fun v => by
          simp only [resolve, h, if_true]
          rw [← h]
          exact hid _⟩
      · exact Or.inr ⟨b, fun v => by simp [resolve, hb]⟩
    · rcases ih with hid | ⟨b, hb⟩
      · exact Or.inl (fun v => by simp [resolve, h, hid])
      · exact Or.inr ⟨b, fun v => by simp [resolve, hb]⟩

theorem resolve_idem (calls : List PickUpdate) (id : String) (v : Option Bool) :
    resolve calls id (resolve calls id v) = resolve calls id v := by
  rcases resolve_shape calls id with hid | ⟨b, hb⟩
  · rw [hid, hid]
  · rw [hb, hb]

theorem pickCall_flag (completed : List Game) (p : Pick) (f : Option Bool) :
    pickCall completed { p with is_correct := f } = pickCall completed p := rfl

theorem pickCall_id (completed : List Game) (p : Pick) (c : PickUpdate)
    (h : pickCall completed p = some c) : c.pickId = p.id := by
  unfold pickCall at h
  split at h
  · cases h
  · split at h
    · cases h; rfl
    · cases h

theorem filterMap_pickCall_flags (completed : List Game) (picks : List Pick)
    (f : Pick → Option Bool) :
    (picks.map (fun p => { p with is_correct := f p })).filterMap (pickCall completed) =
      picks.filterMap (pickCall completed) := by
  induction picks with
  | nil => rfl
  | cons p rest ih =>
    simp only [List.map_cons, List.filterMap_cons, pickCall_flag, ih]

theorem calculateWeekResults_flags (gamesResult : Except JsError ScoreboardResult)
    (picks : List Pick) (f : Pick → Option Bool) :
    (calculateWeekResults gamesResult (.ok (picks.map (fun p => { p with is_correct := f p })))).2 =
      (calculateWeekResults gamesResult (.ok picks)).2 := by
  cases gamesResult with
  | error e => rfl
  | ok r =>
    cases hs : r.success
    · simp [calculateWeekResults, hs]
    · simp only [calculateWeekResults, hs, Bool.not_true, Bool.false_eq_true, if_false,
        weekLoop_calls, List.nil_append]
      exact filterMap_pickCall_flags _ picks f

theorem getPoolPicks_flags (table : List Pick) (f : Pick → Option Bool) (poolId : String)
    (week season : Int) :
    getPoolPicks (table.map (fun p => { p with is_correct := f p })) poolId week season =
      (getPoolPicks table poolId week season).map (fun p => { p with is_correct := f p }) := by
  unfold getPoolPicks
  induction table with
  | nil => rfl
  | cons p rest ih =>
    simp only [List.map_cons, List.filter_cons, ih]
    split <;> simp

theorem weekRun_table_eq (table : List Pick) (gamesResult : Except JsError ScoreboardResult)
    (picksError : Option String) (poolId : String) (week season : Int) :
    (weekRun table gamesResult picksError poolId week season).table =
      table.map (fun p =>
        { p with
          is_correct :=
            resolve (weekRun table gamesResult picksError poolId week season).calls p.id
              p.is_correct }) :=
  applyPickUpdates_eq _ _

theorem weekRun_calls_ok (table : List Pick) (r : ScoreboardResult) (poolId : String)
    (week season : Int) (hs : r.success = true) :
    (weekRun table (.ok r) none poolId week season).calls =
      (getPoolPicks table poolId week season).filterMap (pickCall (completedGames r.data)) :=
  calculateWeekResults_calls r _ hs

theorem weekRun_calls_error (table : List Pick) (gamesResult : Except JsError ScoreboardResult)
    (message : String) (poolId : String) (week season : Int) :
    (weekRun table gamesResult (some message) poolId week season).calls = [] := by
  cases gamesResult with
  | error e => rfl
  | ok r =>
    cases hs : r.success <;> simp [weekRun, calculateWeekResults, hs]

theorem weekRun_second_calls (table : List Pick) (first second : Except JsError ScoreboardResult)
    (picksError : Option String) (poolId : String) (week season : Int) :
    (weekRun (weekRun table first picksError poolId week season).table second picksError poolId
      week season).calls = (weekRun table second picksError poolId week season).calls := by
  cases picksError with
  | some message => rw [weekRun_calls_error, weekRun_calls_error]
  | none =>
    rw [weekRun_table_eq]
    show (calculateWeekResults second (.ok (getPoolPicks _ poolId week season))).2 =
      (calculateWeekResults second (.ok (getPoolPicks table poolId week season))).2
    rw [getPoolPicks_flags]
    exact calculateWeekResults_flags second _ _

theorem resolve_absent (completed : List Game) (picks : List Pick) (id : String)
    (v : Option Bool) (h : ∀ p ∈ picks, p.id ≠ id) :
    resolve (picks.filterMap (pickCall completed)) id v = v := by
  induction picks generalizing v with
  | nil => rfl
  | cons q rest ih =>
    have hrest := fun w => ih w (fun p hp => h p (List.mem_cons_of_mem _ hp))
    have hq := h q (List.mem_cons_self _ _)
    cases hc : pickCall completed q with
    | none => simp only [List.filterMap_cons, hc, hrest]
    | some c =>
      have hcid := pickCall_id completed q c hc
      have hne : ¬ id = c.pickId := fun x => hq (hcid.symm.trans x.symm)
      simp only [List.filterMap_cons, hc, resolve, hne, if_false, hrest]

theorem resolve_unique (completed : List Game) (picks : List Pick) (pick : Pick)
    (v : Option Bool) (hid : picks.Pairwise (fun a b => a.id ≠ b.id)) (hp : pick ∈ picks) :
    resolve (picks.filterMap (pickCall completed)) pick.id v =
      match computedFlag completed pick with
      | some b => some b
      | none => v := by
  induction picks generalizing v with
  | nil => cases hp
  | cons q rest ih =>
    obtain ⟨hq, hrest⟩ := List.pairwise_cons.1 hid
    rcases List.mem_cons.1 hp with heq | hmem
    · subst heq
      have habs := fun w => resolve_absent completed rest pick.id w
        (fun p hp2 => fun x => hq p hp2 x.symm)
      cases hc : pickCall completed pick with
      | none => simp only [List.filterMap_cons, hc, habs, computedFlag, Option.map_none']
      | some c =>
        have hcid := pickCall_id completed pick c hc
        simp only [List.filterMap_cons, hc, resolve, hcid, if_true, habs, computedFlag,
          Option.map_some']
    · have hne : q.id ≠ pick.id := hq pick hmem
      cases hc : pickCall completed q with
      | none => simp only [List.filterMap_cons, hc, ih v hrest hmem]
      | some c =>
        have hcid := pickCall_id completed q c hc
        have hne2 : ¬ pick.id = c.pickId := fun x => hne (hcid.symm.trans x.symm)
        simp only [List.filterMap_cons, hc, resolve, hne2, if_false, ih v hrest hmem]

/-! ## Pick results: the contract -/

/-- C23. Pick matching is idempotent: a second run of `calculateWeekResults`
on the same games makes the same `updatePickResult` calls as the first and
leaves the picks table as the first run left it; and the calls of a run do not
depend on the `is_correct` values the picks hold. -/
theorem calculateWeekResults_idempotent (table : List Pick)
    (gamesResult : Except JsError ScoreboardResult) (picksError : Option String)
    (poolId : String) (week season : Int) (picks : List Pick) (f : Pick → Option Bool) :
    (weekRun (weekRun table gamesResult picksError poolId week season).table gamesResult
        picksError poolId week season).calls =
      (weekRun table gamesResult picksError poolId week season).calls ∧
    (weekRun (weekRun table gamesResult picksError poolId week season).table gamesResult
        picksError poolId week season).table =
      (weekRun table gamesResult picksError poolId week season).table ∧
    (calculateWeekResults gamesResult
        (.ok (picks.map (fun p => { p with is_correct := f p })))).2 =
      (calculateWeekResults gamesResult (.ok picks)).2 := by
  refine ⟨weekRun_second_calls table gamesResult gamesResult picksError poolId week season, ?_,
    calculateWeekResults_flags gamesResult picks f⟩
  rw [weekRun_table_eq, weekRun_second_calls, weekRun_table_eq, List.map_map]
  apply List.map_congr_left
  intro p _
  simp only [Function.comp, resolve_idem]

/-- C22 as stated fails: for the pick of team "H" on game g1, a first run on a
scoreboard that flags the home side winner writes `true`, and a later run on a
scoreboard that flags the away side winner writes `false` for the same pick. -/
theorem calculateWeekResults_reverts_counterexample :
    ¬ (∀ (table : List Pick) (first later : Except JsError ScoreboardResult) (poolId : String)
        (week season : Int) (c1 c2 : PickUpdate),
        c1 ∈ (weekRun table first none poolId week season).calls →
        c2 ∈ (weekRun (weekRun table first none poolId week season).table later none poolId
          week season).calls →
        c1.pickId = c2.pickId → c2.isCorrect = c1.isCorrect) := by
  intro h
  have h1 : (weekRun [samplePick "p1" "ann" "g1" "H" none]
      (.ok (sampleBoard [sampleGame "g1" true true false])) none "pool" 1 2024).calls =
      [{ pickId := "p1", isCorrect := true }] := by decide
  have h2 : (weekRun (weekRun [samplePick "p1" "ann" "g1" "H" none]
      (.ok (sampleBoard [sampleGame "g1" true true false])) none "pool" 1 2024).table
      (.ok (sampleBoard [sampleGame "g1" true false true])) none "pool" 1 2024).calls =
      [{ pickId := "p1", isCorrect := false }] := by decide
  have := h [samplePick "p1" "ann" "g1" "H" none]
    (.ok (sampleBoard [sampleGame "g1" true true false]))
    (.ok (sampleBoard [sampleGame "g1" true false true])) "pool" 1 2024
    { pickId := "p1", isCorrect := true } { pickId := "p1", isCorrect := false }
    (by rw [h1]; exact List.mem_cons_self _ _) (by rw [h2]; exact List.mem_cons_self _ _) rfl
  cases this

/-- C22, amended. A later run of `calculateWeekResults` does not look at the
value an earlier run wrote: for a pick of the pool, week and season (pick ids
being unique), every call the later run makes for the pick carries the value
`picked_team_id === winnerId` computed from the later scoreboard, and the value
stored after the two runs is the one computed from the later scoreboard when it
has a completed game with a determined winner for the pick, whatever the
earlier run wrote; otherwise it is the value the earlier run computed, or the
value the pick held before when neither run computed one. -/
theorem calculateWeekResults_later_run_overwrites (table : List Pick)
    (first later : ScoreboardResult) (poolId : String) (week season : Int) (pick : Pick)
    (hid : table.Pairwise (fun a b => a.id ≠ b.id))
    (hs1 : first.success = true) (hs2 : later.success = true) (hp : pick ∈ table)
    (hpool : pick.pool_id = poolId) (hweek : pick.week = week) (hseason : pick.season = season) :
    (∀ c ∈ (weekRun (weekRun table (.ok first) none poolId week season).table (.ok later) none
        poolId week season).calls, c.pickId = pick.id →
      computedFlag (completedGames later.data) pick = some c.isCorrect) ∧
    (∀ row ∈ (weekRun (weekRun table (.ok first) none poolId week season).table (.ok later) none
        poolId week season).table, row.id = pick.id →
      row.is_correct =
        match computedFlag (completedGames later.data) pick with
        | some b => some b
        | none =>
          match computedFlag (completedGames first.data) pick with
          | some b => some b
          | none => pick.is_correct) := by
  have hp1 : pick ∈ getPoolPicks table poolId week season := by
    unfold getPoolPicks
    exact List.mem_filter.2 ⟨hp, by simp [hpool, hweek, hseason]⟩
  have hid1 : (getPoolPicks table poolId week season).Pairwise (fun a b => a.id ≠ b.id) :=
    hid.sublist (List.filter_sublist _)
  constructor
  · intro c hc hcid
    rw [weekRun_second_calls] at hc
    have hcall := call_for_pick later _ pick hs2 hp1 hid1 c hc hcid
    simp only [computedFlag, hcall, Option.map_some']
  · intro row hrow hrid
    rw [weekRun_table_eq, weekRun_second_calls, weekRun_table_eq, List.map_map] at hrow
    obtain ⟨p, hpt, rfl⟩ := List.mem_map.1 hrow
    have hpeq : p = pick := eq_of_id_eq hid hpt hp hrid
    subst hpeq
    simp only [Function.comp, weekRun_calls_ok _ _ _ _ _ hs1, weekRun_calls_ok _ _ _ _ _ hs2,
      resolve_unique _ _ p _ hid1 hp1]

/-- C22 amended, on the pick of team "H" on game g1: after a run that flags
the home side winner and a later run that flags the away side winner, the
stored value is `false`. -/
theorem calculateWeekResults_later_run_overwrites_witness :
    (weekRun [samplePick "p1" "ann" "g1" "H" none]
      (.ok (sampleBoard [sampleGame "g1" true true false])) none "pool" 1 2024).table.map
        (fun r => r.is_correct) = [some true] ∧
    ((weekRun (weekRun [samplePick "p1" "ann" "g1" "H" none]
      (.ok (sampleBoard [sampleGame "g1" true true false])) none "pool" 1 2024).table
      (.ok (sampleBoard [sampleGame "g1" true false true])) none "pool" 1 2024).table.all
        (fun row => decide (row.id = "p1" → row.is_correct = some false))) = true :=
  ⟨by decide, List.all_eq_true.2 (fun row hrow => decide_eq_true (fun hrid =>
    (calculateWeekResults_later_run_overwrites [samplePick "p1" "ann" "g1" "H" none]
      (sampleBoard [sampleGame "g1" true true false])
      (sampleBoard [sampleGame "g1" true false true]) "pool" 1 2024
      (samplePick "p1" "ann" "g1" "H" none) (List.pairwise_singleton _ _) rfl rfl
      (List.mem_cons_self _ _) rfl rfl rfl).2 row hrow hrid))⟩

end Wizix
